import Mathlib

/-!
# A shallow embedding of the TiDB logical plan builder (plan/logical_plan_builder.go)

This file embeds the data model and the operations of the logical plan
builder into Lean 4 and proves/refutes the frozen claims about it.

Modelling conventions:

* Go interface values that may be `nil` are modelled as `Option Plan`; a Go
  method call on a nil interface (a runtime panic) is modelled as a `Crash`
  outcome (`Except Crash`).
* External collaborators (the expression rewriter, the `expression`, `types`,
  `parser`, `mysql` and `statistics` packages, the catalog, session context)
  are out of scope per the spec and are modelled as an `Env` of opaque
  oracle functions; theorems quantify over the environment.
* Machine integers are modelled as `Nat`/`Int` (`uint64` offsets and counts do
  not overflow in any code path the claims touch: the code only converts and
  stores them).
* Go maps keyed by AST-node pointers are modelled as association lists keyed
  by the node structure; the mapped values are consumed only by opaque
  oracles, so the conflation of structurally equal nodes is unobservable.
* Mutation of plan nodes and schemas is modelled by functional update;
  `Clone` of a schema/column is a value copy.
* The mutually recursive builder entry points carry an explicit `fuel`
  argument; running out of fuel is a `Crash` outcome, which no theorem in
  this file ever treats as a normal return.
-/

namespace TidbPlan

/-- `model.CIStr`: a case-insensitive string; `o` is the original spelling,
`l` the lowercase form used for comparisons. -/
structure CIStr where
  o : String
  l : String
deriving DecidableEq, Repr

/-- `model.NewCIStr`. -/
def NewCIStr (s : String) : CIStr := ⟨s, s.toLower⟩

/-- `types.FieldType`: only the fields the builder reads or writes. -/
structure FieldTp where
  tp : Nat
  flen : Int
  decimal : Int
deriving DecidableEq, Repr

/-- `mysql.TypeTiny` (the result type given to synthesized EQ conditions). -/
def TypeTiny : Nat := 1
/-- `mysql.TypeLonglong` (the type of the synthesized `_rowid` column). -/
def TypeLonglong : Nat := 8

def NewFieldType (tp : Nat) : FieldTp := ⟨tp, -1, -1⟩

/-- A `types.Datum` as obtained from `ValueExpr.GetValue()` /
`ValueExpr.Kind()`: the cases `getUintForLimitOffset` and the projection
field naming distinguish. -/
inductive Datum where
  | u64 (n : Nat)
  | i64 (i : Int)
  | str (s : String)
  | null
  | other
deriving DecidableEq, Repr

/-- The stable error kinds the builder produces, plus `external` for errors
returned by out-of-scope collaborators (rewriter, catalog, `types`,
`expression`). -/
inductive Err where
  | unsupportedType
  | unknownColumn (col : String) (loc : String)
  | invalidWildCard
  | wrongArguments
  | unionArity
  | conflictHints
  | onConditionSubquery
  | ambiguous (name : String)
  | unknownColumnResolver (name : String)
  | unknownPositionInGroup (n : Nat)
  | invalidLimitType
  | badGeneratedColumn
  | external (msg : String)
deriving DecidableEq, Repr

/-- A Go runtime panic (nil-interface method call, slice index out of
range) or exhaustion of the recursion fuel of the model. -/
inductive Crash where
  | nilDeref
  | bounds
  | typeAssert
  | outOfFuel
deriving DecidableEq, Repr

/-- `model.ExtraHandleID`. -/
def ExtraHandleID : Int := -1

/-- `expression.Column`: the fields the builder reads or writes. -/
structure Column where
  fromID : String
  colName : CIStr
  tblName : CIStr
  dbName : CIStr
  retTp : FieldTp
  position : Nat
  isAggOrSubq : Bool
  id : Int
  index : Nat
deriving DecidableEq, Repr

/-- `Column.Clone`: a fresh column value (value semantics). -/
def Column.clone (c : Column) : Column := c

/-- `expression.Schema`: an ordered column list plus the table-id to
row-handle map. -/
structure Schema where
  columns : List Column
  tblID2Handle : List (Int × List Column)
deriving DecidableEq, Repr

def NewSchema (cols : List Column) : Schema := ⟨cols, []⟩

def Schema.len (s : Schema) : Nat := s.columns.length

/-- `Schema.Clone` (value semantics; per the spec clone copies the columns). -/
def Schema.clone (s : Schema) : Schema := ⟨s.columns.map Column.clone, s.tblID2Handle⟩

def Schema.append (s : Schema) (c : Column) : Schema := ⟨s.columns ++ [c], s.tblID2Handle⟩

/-- `Schema.Contains`: by column identity (owner id + position), per the
spec's schema contract. -/
def Schema.contains (s : Schema) (c : Column) : Bool :=
  s.columns.any fun d => d.fromID == c.fromID && d.position == c.position

/-- `expression.MergeSchema` on possibly-nil schemas: concatenation. -/
def MergeSchema (l r : Option Schema) : Option Schema :=
  match l, r with
  | none, none => none
  | some a, none => some ⟨a.columns.map Column.clone, []⟩
  | none, some b => some ⟨b.columns.map Column.clone, []⟩
  | some a, some b => some ⟨(a.columns ++ b.columns).map Column.clone, []⟩

/-- `expression.Expression`: columns, correlated columns, scalar functions
and constants are all the builder distinguishes; `nilExpr` is a nil
`Expression` interface value (what the rewriter returns for a
trivially-true conjunct). -/
inductive Expr where
  | column (c : Column)
  | correlated (c : Column)
  | scalar (fname : String) (tp : FieldTp) (args : List Expr)
  | constant (d : Datum) (tp : FieldTp)
  | nilExpr
deriving Repr

mutual

/-- `Expression.IsCorrelated`. -/
def Expr.isCorrelated : Expr → Bool
  | .column _ => false
  | .correlated _ => true
  | .scalar _ _ args => isCorrelatedList args
  | _ => false

def isCorrelatedList : List Expr → Bool
  | [] => false
  | e :: es => e.isCorrelated || isCorrelatedList es

end

mutual

/-- `expression.ExtractColumns`. -/
def ExtractColumns : Expr → List Column
  | .column c => [c]
  | .correlated _ => []
  | .scalar _ _ args => extractColumnsList args
  | _ => []

def extractColumnsList : List Expr → List Column
  | [] => []
  | e :: es => ExtractColumns e ++ extractColumnsList es

end

/-- `Expression.GetType`; `none` for a nil interface value (a Go panic at
the call site). -/
def Expr.getTypeOpt : Expr → Option FieldTp
  | .column c => some c.retTp
  | .correlated c => some c.retTp
  | .scalar _ tp _ => some tp
  | .constant _ tp => some tp
  | .nilExpr => none

/-- `expression.Column2Exprs`. -/
def Column2Exprs (cols : List Column) : List Expr := cols.map Expr.column

/-- `expression.AggregationFunction`: name, rewritten arguments, distinct
flag. -/
structure AggFunc where
  f : String
  args : List Expr
  distinct : Bool
deriving Repr

/-- `ast.AggFuncFirstRow`. -/
def AggFuncFirstRow : String := "firstrow"
/-- `ast.EQ`. -/
def EQname : String := "eq"
/-- `opcode.LogicAnd` as pretty-printed in the AST. -/
def LogicAnd : String := "and"
/-- The `tidb_smj` hint name. -/
def TiDBMergeJoin : String := "tidb_smj"
/-- The `tidb_inlj` hint name. -/
def TiDBIndexNestedLoopJoin : String := "tidb_inlj"

/-! ## The AST consumed by the builder (produced by the out-of-scope parser) -/

/-- `ast.ColumnName`. -/
structure ColumnName where
  schema : CIStr
  table : CIStr
  name : CIStr
deriving DecidableEq, Repr

/-- The AST expression shapes the builder's visitors distinguish.  `other`
stands for any further expression node (handled by the visitors' default
branches); `text` carries `Node.Text()`. -/
inductive AstExpr where
  | columnNameExpr (name : ColumnName) (tp : Option FieldTp)
  | aggregateFunc (f : String) (args : List AstExpr) (distinct : Bool)
  | binOp (op : String) (l r : AstExpr)
  | paren (e : AstExpr)
  | value (d : Datum) (text : String)
  | subquery
  | existsSubquery
  | compareSubquery
  | paramMarker
  | positionExpr (n : Nat)
  | other (text : String)
deriving Repr

mutual

/-- Structural equality on AST expressions, standing in for the pointer
identity of Go AST nodes in map keys. -/
def AstExpr.beq : AstExpr → AstExpr → Bool
  | .columnNameExpr n1 t1, .columnNameExpr n2 t2 => n1 == n2 && t1 == t2
  | .aggregateFunc f1 a1 d1, .aggregateFunc f2 a2 d2 =>
      f1 == f2 && d1 == d2 && AstExpr.beqList a1 a2
  | .binOp o1 l1 r1, .binOp o2 l2 r2 => o1 == o2 && AstExpr.beq l1 l2 && AstExpr.beq r1 r2
  | .paren e1, .paren e2 => AstExpr.beq e1 e2
  | .value d1 t1, .value d2 t2 => d1 == d2 && t1 == t2
  | .subquery, .subquery => true
  | .existsSubquery, .existsSubquery => true
  | .compareSubquery, .compareSubquery => true
  | .paramMarker, .paramMarker => true
  | .positionExpr n1, .positionExpr n2 => n1 == n2
  | .other t1, .other t2 => t1 == t2
  | _, _ => false

def AstExpr.beqList : List AstExpr → List AstExpr → Bool
  | [], [] => true
  | e :: es, f :: fs => AstExpr.beq e f && AstExpr.beqList es fs
  | _, _ => false

end

instance : BEq AstExpr := ⟨AstExpr.beq⟩

/-- `Node.Text()` for the node shapes where the builder reads it. -/
def AstExpr.text : AstExpr → String
  | .value _ t => t
  | .other t => t
  | _ => ""

/-- `ast.WildCardField`: the `Schema`/`Table` qualifiers of a `*` field. -/
structure WildCard where
  schema : CIStr
  table : CIStr
deriving DecidableEq, Repr

/-- `ast.SelectField`. -/
structure SelectField where
  expr : AstExpr
  asName : CIStr
  auxiliary : Bool
  wildCard : Option WildCard
  text : String
deriving Repr

/-- `ast.ByItem`. -/
structure ByItem where
  expr : AstExpr
  desc : Bool
deriving Repr

/-- `ast.TableOptimizerHint`. -/
structure TableHint where
  hintName : CIStr
  tables : List CIStr
deriving Repr

/-- `ast.Limit`: `Offset`/`Count` are value expressions whose `GetValue()`
yields a datum. -/
structure LimitClause where
  offset : Option Datum
  count : Option Datum
deriving Repr

/-- `ast.TableName` (after preprocessing, which fills `TableInfo`). -/
structure TableName where
  schema : CIStr
  name : CIStr
  tableInfoID : Int
deriving Repr

/-- `ast.SelectLockType`. -/
inductive LockType where
  | none
  | forUpdate
  | inShareMode
deriving DecidableEq, Repr

/-- `ast.JoinType` of the AST join node. -/
inductive AstJoinTp where
  | cross
  | left
  | right
deriving DecidableEq, Repr

mutual

/-- `ast.SelectStmt` (the parts the builder reads). `from?` is
`sel.From.TableRefs` (`none` when there is no FROM clause). -/
inductive SelectStmt where
  | mk (tableHints : List TableHint) (lockTp : LockType) (fromRefs : Option AstJoin)
      (fields : List SelectField) (groupBy : Option (List ByItem))
      (having : Option AstExpr) (whereExpr : Option AstExpr)
      (orderBy : Option (List ByItem)) (limit : Option LimitClause) (distinct : Bool)

/-- `ast.Join`: `right = none` encodes a single-table `FROM`. -/
inductive AstJoin where
  | mk (left : RSNode) (right : Option RSNode) (tp : AstJoinTp) (natural : Bool)
      (usingCols : Option (List ColumnName)) (onExpr : Option AstExpr)

/-- `ast.ResultSetNode` as dispatched by `buildResultSetNode`. -/
inductive RSNode where
  | join (j : AstJoin)
  | tableSource (src : TSrc) (asName : CIStr)
  | selectStmt (s : SelectStmt)
  | unionStmt (u : UnionStmt)
  | unsupported

/-- The `TableSource.Source` variants. -/
inductive TSrc where
  | selectStmt (s : SelectStmt)
  | unionStmt (u : UnionStmt)
  | tableName (t : TableName)
  | unsupported

/-- `ast.UnionStmt`. -/
inductive UnionStmt where
  | mk (selects : List SelectStmt) (distinct : Bool)
      (orderBy : Option (List ByItem)) (limit : Option LimitClause)

end

def SelectStmt.tableHints : SelectStmt → List TableHint | .mk h _ _ _ _ _ _ _ _ _ => h
def SelectStmt.lockTp : SelectStmt → LockType | .mk _ l _ _ _ _ _ _ _ _ => l
def SelectStmt.fromRefs : SelectStmt → Option AstJoin | .mk _ _ f _ _ _ _ _ _ _ => f
def SelectStmt.fields : SelectStmt → List SelectField | .mk _ _ _ f _ _ _ _ _ _ => f
def SelectStmt.groupBy : SelectStmt → Option (List ByItem) | .mk _ _ _ _ g _ _ _ _ _ => g
def SelectStmt.having : SelectStmt → Option AstExpr | .mk _ _ _ _ _ h _ _ _ _ => h
def SelectStmt.whereExpr : SelectStmt → Option AstExpr | .mk _ _ _ _ _ _ w _ _ _ => w
def SelectStmt.orderBy : SelectStmt → Option (List ByItem) | .mk _ _ _ _ _ _ _ o _ _ => o
def SelectStmt.limit : SelectStmt → Option LimitClause | .mk _ _ _ _ _ _ _ _ l _ => l
def SelectStmt.distinct : SelectStmt → Bool | .mk _ _ _ _ _ _ _ _ _ d => d

def AstJoin.left : AstJoin → RSNode | .mk l _ _ _ _ _ => l
def AstJoin.right : AstJoin → Option RSNode | .mk _ r _ _ _ _ => r
def AstJoin.tp : AstJoin → AstJoinTp | .mk _ _ t _ _ _ => t
def AstJoin.natural : AstJoin → Bool | .mk _ _ _ n _ _ => n
def AstJoin.usingCols : AstJoin → Option (List ColumnName) | .mk _ _ _ _ u _ => u
def AstJoin.onExpr : AstJoin → Option AstExpr | .mk _ _ _ _ _ o => o

def UnionStmt.selects : UnionStmt → List SelectStmt | .mk s _ _ _ => s
def UnionStmt.distinct : UnionStmt → Bool | .mk _ d _ _ => d
def UnionStmt.orderBy : UnionStmt → Option (List ByItem) | .mk _ _ o _ => o
def UnionStmt.limit : UnionStmt → Option LimitClause | .mk _ _ _ l => l

/-! ## Logical plan nodes -/

inductive PlanKind where
  | dataSource
  | selection
  | projection
  | aggregation
  | join
  | union
  | sort
  | limit
  | tableDual
  | selectLock
deriving DecidableEq, Repr

inductive JoinType where
  | inner
  | leftOuter
  | rightOuter
  | semi
  | leftOuterSemi
  | antiSemi
deriving DecidableEq, Repr

/-- `model.ColumnInfo` entries of `DataSource.Columns`. -/
structure ColumnInfo where
  id : Int
  name : CIStr
deriving DecidableEq, Repr

/-- Per-kind plan fields, bundled with defaults so that every node carries
only the fields its kind uses (mirroring the Go structs embedding
`basePlan`). -/
structure PlanInfo where
  tableAsName : CIStr := NewCIStr ""
  tableInfoName : CIStr := NewCIStr ""
  tableInfoID : Int := 0
  dbName : CIStr := NewCIStr ""
  dsColumns : List ColumnInfo := []
  needColHandle : Bool := false
  statsPseudo : Bool := false
  unionScanSchema : Option Schema := none
  joinType : JoinType := .inner
  redundantSchema : Option Schema := none
  equalConditions : List Expr := []
  leftConditions : List Expr := []
  rightConditions : List Expr := []
  otherConditions : List Expr := []
  cartesianJoin : Bool := false
  preferMergeJoin : Bool := false
  preferINLJ : Nat := 0
  defaultValuesLen : Nat := 0
  offset : Nat := 0
  count : Nat := 0
  conditions : List Expr := []
  exprs : List Expr := []
  groupByItems : List Expr := []
  groupByCols : List Column := []
  aggFuncs : List AggFunc := []
  byItems : List (Expr × Bool) := []
  rowCount : Nat := 0
  lock : LockType := .none
deriving Repr

/-- A logical plan node: kind, allocated id, output schema, children and the
kind-specific payload.  Parent back-pointers (spec invariant I2) are kept
implicitly by the tree structure and are not needed by any claim. -/
inductive Plan where
  | node (kind : PlanKind) (id : String) (schema : Schema) (children : List Plan)
      (info : PlanInfo)

def Plan.kind : Plan → PlanKind | .node k _ _ _ _ => k
def Plan.id : Plan → String | .node _ i _ _ _ => i
def Plan.schema : Plan → Schema | .node _ _ s _ _ => s
def Plan.children : Plan → List Plan | .node _ _ _ c _ => c
def Plan.info : Plan → PlanInfo | .node _ _ _ _ i => i

def Plan.setSchema (p : Plan) (s : Schema) : Plan :=
  match p with | .node k i _ c inf => .node k i s c inf

def Plan.setInfo (p : Plan) (f : PlanInfo → PlanInfo) : Plan :=
  match p with | .node k i s c inf => .node k i s c (f inf)

/-- `addChild(parent, child)`.  Modelled from the spec: the helper (not in
src/) attaches `child` as the last child of `parent` and symmetrically
records the parent pointer; a nil child leaves the parent unchanged.  The
panics the claims depend on happen at the `Schema()` calls visible in src/,
never inside `addChild`. -/
def addChild (parent : Plan) (child : Option Plan) : Plan :=
  match child with
  | none => parent
  | some c => match parent with | .node k i s cs inf => .node k i s (cs ++ [c]) inf

/-! ## The environment of out-of-scope collaborators -/

/-- The table metadata the catalog returns (`table.Table` / `model.TableInfo`):
only what `buildDataSource` reads. -/
structure TblCol where
  name : CIStr
  fieldTp : FieldTp
  priKeyFlag : Bool
  id : Int
deriving Repr

structure TableMeta where
  name : CIStr
  id : Int
  pkIsHandle : Bool
  cols : List TblCol
  writableCols : List TblCol
deriving Repr

/-- Aggregate-AST-to-ordinal maps (`map[*ast.AggregateFuncExpr]int`). -/
abbrev AggMapper := List (AstExpr × Nat)

/-- The result triple of the external expression rewriter. -/
structure RwResult where
  expr : Expr
  plan : Plan
  err : Option Err

/-- The out-of-scope collaborators (spec §1, §6), as opaque oracles. -/
structure Env where
  /-- `expressionRewriter.rewrite(expr, plan, aggMapper, asScalar)`. -/
  rewrite : AstExpr → Plan → Option AggMapper → Bool → RwResult
  /-- `expression.SplitCNFItems`. -/
  splitCNFItems : Expr → List Expr
  /-- `expression.NewFunction` (the function name and argument list decide
  the result; the declared result type is attached by the caller). -/
  newFunction : String → FieldTp → List Expr → Except Err Expr
  /-- `types.MergeFieldType`. -/
  mergeFieldType : Nat → Nat → Nat
  /-- `Schema.FindColumn` (外): case-insensitive qualified lookup returning
  `none` on a silent miss and an error on ambiguity. -/
  findColumn : Schema → ColumnName → Except Err (Option Column)
  /-- `types.StrToUint`. -/
  strToUint : String → Except Err Nat
  /-- `infoschema.TableByName`. -/
  tableByName : CIStr → CIStr → Except Err TableMeta
  /-- Whether `sessionctx.GetDomain(ctx).StatsHandle()` is non-nil. -/
  statsHandlePresent : Bool
  currentDB : String
  txnPresent : Bool
  txnReadOnly : Bool
  /-- `UseDAGPlanBuilder(ctx)`. -/
  useDAG : Bool
  /-- `planBuilder.detectSelectAgg` (repository code outside src/). -/
  detectSelectAgg : SelectStmt → Bool
  /-- `AggregateFuncExtractor` (repository code outside src/): returns the
  possibly-rewritten field expression and the aggregate calls collected. -/
  aggExtract : AstExpr → AstExpr × List AstExpr
  /-- `parser.SpecFieldPattern`/`parser.TrimComment` applied to a field text. -/
  trimComment : String → String
  /-- The `mysql.RangeGraph` left-trim applied to string literals. -/
  trimNonGraphic : String → String
  /-- `AggregationFunction.GetType`. -/
  aggFuncType : String → List Expr → Bool → FieldTp
  /-- `AggregationFunction.Equal`. -/
  aggEqual : AggFunc → AggFunc → Bool

/-! ## Builder state and the computation monad -/

/-- `visitInfo`. -/
structure VisitInfo where
  privilege : String
  db : String
  table : String
  column : String
deriving DecidableEq, Repr

/-- `tableHintInfo`. -/
structure TableHintInfo where
  sortMergeJoinTables : List CIStr
  indexNestedLoopJoinTables : List CIStr
deriving Repr

/-- The builder fields that everything except the hint processor touches.
(The hint stack is kept apart so that hint-stack preservation of the
lifted operations holds by construction; see `liftS`.) -/
structure SubState where
  err : Option Err := none
  allocated : Nat := 0
  optFlag : Nat := 0
  needColHandle : Int := 0
  inUpdateStmt : Bool := false
  visitInfo : List VisitInfo := []
  colMapper : List (ColumnName × Nat) := []
  outerSchemas : List Schema := []

/-- The full `planBuilder` state. -/
structure BState where
  sub : SubState := {}
  tableHintInfo : List TableHintInfo := []

/-- The monad of builder steps over the substate: state plus Go-panic. -/
def MS (α : Type) : Type := SubState → Except Crash (α × SubState)

instance : Monad MS where
  pure a := fun s => .ok (a, s)
  bind m k := fun s => match m s with
    | .error e => .error e
    | .ok (a, s1) => k a s1

/-- The monad of builder steps over the full state. -/
def M (α : Type) : Type := BState → Except Crash (α × BState)

instance : Monad M where
  pure a := fun s => .ok (a, s)
  bind m k := fun s => match m s with
    | .error e => .error e
    | .ok (a, s1) => k a s1

/-- Lift a substate computation into the full-state monad.  By construction
it leaves the table-hint stack untouched. -/
def liftS {α : Type} (m : MS α) : M α := fun s =>
  match m s.sub with
  | .error e => .error e
  | .ok (a, sb) => .ok (a, { s with sub := sb })

def crash {α : Type} (e : Crash) : MS α := fun _ => .error e

def crashM {α : Type} (e : Crash) : M α := fun _ => .error e

/-- Record `b.err = e` (the latch is only ever written with a non-nil
error in src/). -/
def setErr (e : Err) : MS Unit := fun s => .ok ((), { s with err := some e })

/-- Record `b.err = e` when `e` is non-nil (the `errors.Trace(nil) = nil`
pattern). -/
def setErrOpt (e : Option Err) : MS Unit := fun s =>
  match e with
  | none => .ok ((), s)
  | some er => .ok ((), { s with err := some er })

def getErr : MS (Option Err) := fun s => .ok (s.err, s)

def getErrM : M (Option Err) := liftS getErr

/-- `b.optFlag |= flag`. -/
def orOptFlag (flag : Nat) : MS Unit := fun s => .ok ((), { s with optFlag := s.optFlag ||| flag })

def flagPredicatePushDown : Nat := 1
def flagBuildKeyInfo : Nat := 2
def flagAggregationOptimize : Nat := 4
def flagEliminateProjection : Nat := 8
def flagPushDownTopN : Nat := 16

/-- `idAllocator.allocID` combined with `.init`: ids are `<tag>_<n>`. -/
def allocID (tag : String) : MS String := fun s =>
  .ok (tag ++ "_" ++ toString (s.allocated + 1), { s with allocated := s.allocated + 1 })

def addNeedColHandle (d : Int) : MS Unit := fun s =>
  .ok ((), { s with needColHandle := s.needColHandle + d })

def getSub : MS SubState := fun s => .ok (s, s)

def appendVisit (v : VisitInfo) : MS Unit := fun s =>
  .ok ((), { s with visitInfo := s.visitInfo ++ [v] })

def setColMapper (m : List (ColumnName × Nat)) : MS Unit := fun s =>
  .ok ((), { s with colMapper := m })

/-- A Go method call `p.Schema()` (or any other dereference) on a possibly
nil plan interface. -/
def getPlan (p : Option Plan) : MS Plan :=
  match p with
  | some q => pure q
  | none => crash .nilDeref

def getPlanM (p : Option Plan) : M Plan :=
  match p with
  | some q => pure q
  | none => crashM .nilDeref

/-- The ubiquitous `if b.err != nil { return nil }` check-and-bail. -/
def bail (k : M (Option Plan)) : M (Option Plan) := fun s =>
  if s.sub.err.isSome then .ok (none, s) else k s

/-- A check-and-bail that the source only performs when the preceding step
ran (`if sel.X != nil { ...; if b.err != nil { return nil } }`). -/
def bailIf (cond : Bool) (k : M (Option Plan)) : M (Option Plan) := fun s =>
  if cond && s.sub.err.isSome then .ok (none, s) else k s

/-- The substate-level check-and-bail. -/
def bailS (k : MS (Option Plan)) : MS (Option Plan) := fun s =>
  if s.err.isSome then .ok (none, s) else k s

/-- The substate-level conditional check-and-bail. -/
def bailIfS (cond : Bool) (k : MS (Option Plan)) : MS (Option Plan) := fun s =>
  if cond && s.err.isSome then .ok (none, s) else k s

/-! ## Pure helpers of the builder (src/plan/logical_plan_builder.go) -/

/-- `colMatch(a, b)`: `a` matches `b` when every qualifier `a` carries agrees
with `b`'s and their names agree (lines 676-683). -/
def colMatch (a b : ColumnName) : Bool :=
  if a.schema.l == "" || a.schema.l == b.schema.l then
    if a.table.l == "" || a.table.l == b.table.l then
      a.name.l == b.name.l
    else false
  else false

/-- `matchField(f, col, ignoreAsName)` (lines 685-698). -/
def matchField (f : SelectField) (col : ColumnName) (ignoreAsName : Bool) : Bool :=
  if col.table.l == "" then
    if f.asName.l == "" || ignoreAsName then
      match f.expr with
      | .columnNameExpr curCol _ => curCol.name.l == col.name.l
      | _ => false
    else
      f.asName.l == col.name.l
  else false

/-- The loop body state of `resolveFromSelectFields`: the first matched
column reference and the index kept so far. -/
def resolveFromSelectFieldsLoop (v : ColumnName) (ignoreAsName : Bool) :
    List (Nat × SelectField) → Option ColumnName → Int → Except Err Int
  | [], _, index => .ok index
  | (i, field) :: rest, matchedExpr, index =>
    if field.auxiliary then
      resolveFromSelectFieldsLoop v ignoreAsName rest matchedExpr index
    else if matchField field v ignoreAsName then
      match field.expr with
      | .columnNameExpr curCol _ =>
        match matchedExpr with
        | none => resolveFromSelectFieldsLoop v ignoreAsName rest (some curCol) (Int.ofNat i)
        | some m =>
          if !colMatch m curCol && !colMatch curCol m then
            .error (.ambiguous curCol.name.l)
          else
            resolveFromSelectFieldsLoop v ignoreAsName rest matchedExpr index
      | _ => .ok (Int.ofNat i)
    else
      resolveFromSelectFieldsLoop v ignoreAsName rest matchedExpr index

/-- `resolveFromSelectFields(v, fields, ignoreAsName)` (lines 700-722):
returns the resolved field index, `-1` for not found, or the ambiguity
error. -/
def resolveFromSelectFields (v : ColumnName) (fields : List SelectField)
    (ignoreAsName : Bool) : Except Err Int :=
  resolveFromSelectFieldsLoop v ignoreAsName fields.enum none (-1)

/-- `getUintForLimitOffset(sc, val)` (lines 626-639). -/
def getUintForLimitOffset (env : Env) (val : Datum) : Except Err Nat :=
  match val with
  | .u64 v => .ok v
  | .i64 v => if v ≥ 0 then .ok v.toNat else .error .invalidLimitType
  | .str s =>
    match env.strToUint s with
    | .ok uVal => .ok uVal
    | .error e => .error e
  | _ => .error .invalidLimitType

/-- Modelled from the spec: `getInnerFromParentheses` (repository code not
under src/) strips `ParenthesesExpr` wrappers from an AST expression. -/
def getInnerFromParentheses : AstExpr → AstExpr
  | .paren e => getInnerFromParentheses e
  | e => e

/-- Modelled from the spec: `splitWhere` (repository code not under src/)
splits an expression at top-level `AND` into conjuncts, flattening nested
conjunction trees and parentheses; a nil expression yields no conjuncts. -/
def splitWhereExpr : AstExpr → List AstExpr
  | .binOp op l r =>
    if op == LogicAnd then splitWhereExpr l ++ splitWhereExpr r
    else [.binOp op l r]
  | .paren e => splitWhereExpr e
  | e => [e]

def splitWhere : Option AstExpr → List AstExpr
  | none => []
  | some e => splitWhereExpr e

/-- `extractOnCondition(conditions, left, right)` (lines 164-203): split the
ON conditions into equal / left-pushable / right-pushable / other. -/
def extractOnCondition (conditions : List Expr) (left right : Plan) :
    List Expr × List Expr × List Expr × List Expr := Id.run do
  let mut eqCond : List Expr := []
  let mut leftCond : List Expr := []
  let mut rightCond : List Expr := []
  let mut otherCond : List Expr := []
  for expr in conditions do
    let mut classified := false
    match expr with
    | .scalar fname tp args =>
      if fname == EQname then
        match args with
        | [.column ln, .column rn] =>
          if left.schema.contains ln && right.schema.contains rn then
            eqCond := eqCond ++ [expr]
            classified := true
          else if left.schema.contains rn && right.schema.contains ln then
            eqCond := eqCond ++ [.scalar EQname (NewFieldType TypeTiny) [.column rn, .column ln]]
            classified := true
          else pure ()
        | _ => pure ()
      else pure ()
      let _ := tp
    | _ => pure ()
    if !classified then
      let columns := ExtractColumns expr
      let allFromLeft := columns.all fun col => left.schema.contains col
      let allFromRight := columns.all fun col => right.schema.contains col
      if allFromRight then
        rightCond := rightCond ++ [expr]
      else if allFromLeft then
        leftCond := leftCond ++ [expr]
      else
        otherCond := otherCond ++ [expr]
  return (eqCond, leftCond, rightCond, otherCond)

/-- Modelled from the spec: `LogicalJoin.attachOnConds` (repository code not
under src/): classify with `extractOnCondition` over the join's two children
and prepend/append to the join's condition lists. -/
def attachOnConds (p : Plan) (onConds : List Expr) : Except Crash Plan :=
  match p.children with
  | [l, r] =>
    let (eq, lc, rc, oc) := extractOnCondition onConds l r
    .ok <| p.setInfo fun i =>
      { i with
        equalConditions := eq ++ i.equalConditions
        leftConditions := lc ++ i.leftConditions
        rightConditions := rc ++ i.rightConditions
        otherConditions := oc ++ i.otherConditions }
  | _ => .error .nilDeref

/-- The `resolveFieldsFirst` decision of
`havingAndOrderbyExprResolver.Leave` for a `ColumnNameExpr` (lines 794-806):
the group-by comparison runs only outside aggregates and outside the ORDER
BY phase. -/
def hoResolveFieldsFirst (inAggFunc orderBy inExpr : Bool)
    (gbyItems : List ByItem) (v : ColumnName) : Bool :=
  let rff := if inAggFunc || (orderBy && inExpr) then false else true
  if !inAggFunc && !orderBy then
    if gbyItems.any fun item =>
        match item.expr with
        | .columnNameExpr nm _ => colMatch v nm || colMatch nm v
        | _ => false
    then false else rff
  else rff

/-! ## USING / NATURAL join coalescing (lines 298-386) -/

/-- The USING name filter (`map[string]bool`): insertion-ordered association
list with map semantics (inserting an existing key overwrites). -/
def filterSet (f : List (String × Bool)) (k : String) (v : Bool) : List (String × Bool) :=
  if f.any fun p => p.1 == k then
    f.map fun p => if p.1 == k then (p.1, v) else p
  else f ++ [(k, v)]

/-- Map lookup with Go's zero value `false` for a missing key. -/
def filterGet (f : List (String × Bool)) (k : String) : Bool :=
  match f.find? fun p => p.1 == k with
  | some p => p.2
  | none => false

/-- `col := xs[k]; copy(xs[c+1:k+1], xs[c:k]); xs[c] = col`: rotate the
element at `k` to slot `c`, shifting `xs[c:k]` right by one.  Out-of-range
slicing is a Go panic. -/
def rotateToFront (xs : List Column) (c k : Nat) : Except Crash (List Column) :=
  if h : k < xs.length then
    if c ≤ k then
      .ok (xs.take c ++ [xs.get ⟨k, h⟩] ++ (xs.drop c).take (k - c) ++ xs.drop (k + 1))
    else .error .bounds
  else .error .bounds

/-- The inner scan `for j := commonLen; ...` of `coalesceCommonColumns`
(lines 333-345) over the enumerated tail of the right column list: the
first name match, filtered through the USING filter; a name match rejected
by the filter `break`s out with no match. -/
def coalesceFindMatch (lname : String) (filter : List (String × Bool)) :
    List (Nat × Column) → Option (Nat × List (String × Bool))
  | [] => none
  | (j, c) :: rest =>
    if c.colName.l != lname then coalesceFindMatch lname filter rest
    else if filter.length > 0 then
      if !(filterGet filter lname) then none
      else some (j, filterSet filter lname false)
    else some (j, filter)

/-- The outer walk `for i, lCol := range lColumns` of
`coalesceCommonColumns` (lines 331-357), transliterated from the source: on
a match at right index `j`, the source rotates `rColumns[i]` (the *left*
walk index) to the right common slot and `lColumns[j]` (the *right* match
index) to the left common slot. -/
def coalesceLoop :
    Nat → List Column → List Column → Nat → List (String × Bool) → Nat →
    Except Crash (List Column × List Column × Nat × List (String × Bool))
  | 0, lCols, rCols, commonLen, filter, _ => .ok (lCols, rCols, commonLen, filter)
  | count + 1, lCols, rCols, commonLen, filter, i =>
    if h : i < lCols.length then
      let lCol := lCols.get ⟨i, h⟩
      match coalesceFindMatch lCol.colName.l filter (rCols.enum.drop commonLen) with
      | none => coalesceLoop count lCols rCols commonLen filter (i + 1)
      | some (j, filter2) =>
        match rotateToFront rCols commonLen i with
        | .error c => .error c
        | .ok rCols2 =>
          match rotateToFront lCols commonLen j with
          | .error c => .error c
          | .ok lCols2 => coalesceLoop count lCols2 rCols2 (commonLen + 1) filter2 (i + 1)
    else .ok (lCols, rCols, commonLen, filter)

/-- The equality-condition synthesis loop (lines 371-379), over
`lsc.Columns[i] = rsc.Columns[i]` for `i < commonLen`. -/
def coalesceConds (env : Env) (lscCols rscCols : List Column) :
    Nat → Except Crash (Except Err (List Expr))
  | 0 => .ok (.ok [])
  | n + 1 =>
    match coalesceConds env lscCols rscCols n with
    | .error c => .error c
    | .ok (.error e) => .ok (.error e)
    | .ok (.ok conds) =>
      match lscCols.get? n, rscCols.get? n with
      | some lc, some rc =>
        match env.newFunction EQname (NewFieldType TypeTiny) [.column lc, .column rc] with
        | .error e => .ok (.error e)
        | .ok cond => .ok (.ok (conds ++ [cond]))
      | _, _ => .error .bounds

/-- The first still-unseen USING filter entry (lines 359-365). -/
def firstUnseen (filter : List (String × Bool)) : Option String :=
  match filter.find? fun p => p.2 with
  | some p => some p.1
  | none => none

/-- `coalesceCommonColumns(p, leftPlan, rightPlan, rightJoin, filter)`
(lines 321-386). -/
def coalesceCommonColumns (env : Env) (p leftPlan rightPlan : Plan)
    (rightJoin : Bool) (filter : List (String × Bool)) : Except Crash (Except Err Plan) :=
  let lsc := leftPlan.schema.clone
  let rsc := rightPlan.schema.clone
  let (lCols0, rCols0) :=
    if rightJoin then (rsc.columns, lsc.columns) else (lsc.columns, rsc.columns)
  match coalesceLoop lCols0.length lCols0 rCols0 0 filter 0 with
  | .error c => .error c
  | .ok (lCols, rCols, commonLen, filter2) =>
    match
      (if filter2.length > 0 && filter2.length ≠ commonLen then firstUnseen filter2 else none)
    with
    | some col => .ok (.error (.unknownColumn col "from clause"))
    | none =>
      let schemaCols := lCols ++ rCols.drop commonLen
      let lscCols := if rightJoin then rCols else lCols
      let rscCols := if rightJoin then lCols else rCols
      match coalesceConds env lscCols rscCols commonLen with
      | .error c => .error c
      | .ok (.error e) => .ok (.error e)
      | .ok (.ok conds) =>
        let p2 := (p.setSchema (NewSchema schemaCols)).setInfo fun inf =>
          { inf with
            redundantSchema :=
              MergeSchema inf.redundantSchema (some (NewSchema (rCols.take commonLen)))
            equalConditions := conds ++ inf.equalConditions }
        .ok (.ok p2)

/-- `buildUsingClause` (lines 303-309). -/
def buildUsingClause (env : Env) (p leftPlan rightPlan : Plan) (join : AstJoin) :
    Except Crash (Except Err Plan) :=
  let filter := (join.usingCols.getD []).foldl (fun f c => filterSet f c.name.l true) []
  coalesceCommonColumns env p leftPlan rightPlan (join.tp == .right) filter

/-- `buildNaturalJoin` (lines 317-319). -/
def buildNaturalJoin (env : Env) (p leftPlan rightPlan : Plan) (join : AstJoin) :
    Except Crash (Except Err Plan) :=
  coalesceCommonColumns env p leftPlan rightPlan (join.tp == .right) []

/-- The walk of `coalesceCommonColumns` as the spec words it (claim C1):
on a match, the matched *left* column (walk index `i`) is rotated to the
left common slot and the matched *right* column (match index `j`) to the
right common slot.  Differs from `coalesceLoop` only in the two rotation
indices. -/
def coalesceLoopSpec :
    Nat → List Column → List Column → Nat → List (String × Bool) → Nat →
    Except Crash (List Column × List Column × Nat × List (String × Bool))
  | 0, lCols, rCols, commonLen, filter, _ => .ok (lCols, rCols, commonLen, filter)
  | count + 1, lCols, rCols, commonLen, filter, i =>
    if h : i < lCols.length then
      let lCol := lCols.get ⟨i, h⟩
      match coalesceFindMatch lCol.colName.l filter (rCols.enum.drop commonLen) with
      | none => coalesceLoopSpec count lCols rCols commonLen filter (i + 1)
      | some (j, filter2) =>
        match rotateToFront lCols commonLen i with
        | .error c => .error c
        | .ok lCols2 =>
          match rotateToFront rCols commonLen j with
          | .error c => .error c
          | .ok rCols2 => coalesceLoopSpec count lCols2 rCols2 (commonLen + 1) filter2 (i + 1)
    else .ok (lCols, rCols, commonLen, filter)

/-! ## The having/order-by resolver (lines 724-890) -/

/-- The state of `havingAndOrderbyExprResolver`. -/
structure HOSt where
  inAggFunc : Bool
  inExpr : Bool
  orderBy : Bool
  err : Option Err
  p : Option Plan
  selectFields : List SelectField
  aggMapper : AggMapper
  colMapper : List (ColumnName × Nat)
  gbyItems : List ByItem
  outerSchemas : List Schema

/-- Pointer-map update for the aggregate mapper (structural key). -/
def aggMapperSet (m : AggMapper) (k : AstExpr) (v : Nat) : AggMapper :=
  if m.any fun p => p.1 == k then
    m.map fun p => if p.1 == k then (p.1, v) else p
  else m ++ [(k, v)]

/-- Pointer-map update for the column mapper (structural key). -/
def colMapperSet (m : List (ColumnName × Nat)) (k : ColumnName) (v : Nat) :
    List (ColumnName × Nat) :=
  if m.any fun p => p.1 == k then
    m.map fun p => if p.1 == k then (p.1, v) else p
  else m ++ [(k, v)]

/-- `havingAndOrderbyExprResolver.resolveFromSchema` (lines 755-780). -/
def hoResolveFromSchema (env : Env) (st : HOSt) (v : ColumnName) :
    Except Crash (Int × Option Err × HOSt) :=
  match st.p with
  | none => .error .nilDeref
  | some pl =>
    match env.findColumn pl.schema v with
    | .error e => .ok (-1, some e, st)
    | .ok none => .ok (-1, none, st)
    | .ok (some col) =>
      let newColName : ColumnName := ⟨col.dbName, col.tblName, col.colName⟩
      match st.selectFields.enum.find? fun q =>
          match q.2.expr with
          | .columnNameExpr c _ => colMatch newColName c
          | _ => false
        with
      | some q => .ok (Int.ofNat q.1, none, st)
      | none =>
        let sf : SelectField :=
          ⟨.columnNameExpr newColName (some col.retTp), NewCIStr "", true, none, ""⟩
        .ok (Int.ofNat st.selectFields.length, none,
          { st with selectFields := st.selectFields ++ [sf] })

/-- `havingAndOrderbyExprResolver.Enter` (lines 740-753): the updated state
and the skip-children flag. -/
def hoEnter (st : HOSt) (e : AstExpr) : HOSt × Bool :=
  match e with
  | .aggregateFunc _ _ _ => ({ st with inAggFunc := true }, false)
  | .paramMarker => (st, false)
  | .columnNameExpr _ _ => (st, false)
  | .subquery => (st, true)
  | .existsSubquery => (st, true)
  | _ => ({ st with inExpr := true }, false)

/-- The `*ast.ColumnNameExpr` branch of `havingAndOrderbyExprResolver.Leave`
(lines 793-845). -/
def hoLeaveColumn (env : Env) (st : HOSt) (n : AstExpr) (v : ColumnName) :
    Except Crash (AstExpr × Bool × HOSt) :=
  let rff := hoResolveFieldsFirst st.inAggFunc st.orderBy st.inExpr st.gbyItems v
  let step : Except Crash (Int × HOSt) :=
    if rff then
      match resolveFromSelectFields v st.selectFields false with
      | .error e => .ok (-1, { st with err := some e })
      | .ok index =>
        if index == -1 then
          if st.orderBy then
            match hoResolveFromSchema env st v with
            | .error c => .error c
            | .ok (idx2, e2, st2) => .ok (idx2, { st2 with err := e2 })
          else
            match resolveFromSelectFields v st.selectFields true with
            | .error e => .ok (-1, { st with err := some e })
            | .ok idx2 => .ok (idx2, st)
        else .ok (index, st)
    else
      match hoResolveFromSchema env st v with
      | .error c => .error c
      | .ok (index, _, st2) =>
        if index == -1 then
          match resolveFromSelectFields v st2.selectFields false with
          | .error e => .ok (-1, { st2 with err := some e })
          | .ok idx2 => .ok (idx2, st2)
        else .ok (index, st2)
  match step with
  | .error c => .error c
  | .ok (index, st1) =>
    if st1.err.isSome then .ok (n, false, st1)
    else if index == -1 then
      if st1.outerSchemas.any fun schema =>
          match env.findColumn schema v with
          | .ok (some _) => true
          | _ => false
      then .ok (n, true, st1)
      else .ok (n, false, { st1 with err := some (.unknownColumnResolver v.name.l) })
    else if st1.inAggFunc then
      match st1.selectFields.get? index.toNat with
      | some f => .ok (f.expr, true, st1)
      | none => .error .bounds
    else
      .ok (n, true, { st1 with colMapper := colMapperSet st1.colMapper v index.toNat })

/-- `havingAndOrderbyExprResolver.Leave` (lines 783-847). -/
def hoLeave (env : Env) (st : HOSt) (n : AstExpr) : Except Crash (AstExpr × Bool × HOSt) :=
  match n with
  | .aggregateFunc _ _ _ =>
    let st2 :=
      { st with
        inAggFunc := false
        aggMapper := aggMapperSet st.aggMapper n st.selectFields.length
        selectFields := st.selectFields ++
          [⟨n, NewCIStr ("sel_agg_" ++ toString st.selectFields.length), true, none, ""⟩] }
    .ok (n, true, st2)
  | .columnNameExpr v _ => hoLeaveColumn env st n v
  | _ => .ok (n, true, st)

mutual

/-- `(ast.Node).Accept(havingAndOrderbyExprResolver)`: the standard
enter/children/leave protocol of the AST package, aborting on a `false`
result from a child.  The nodes with children (aggregate calls, binary
operations, parentheses) recurse into them; for every other node shape
Enter is followed directly by Leave. -/
def hoAccept (env : Env) (st : HOSt) : AstExpr → Except Crash (AstExpr × Bool × HOSt)
  | .aggregateFunc f args d =>
    let (st1, skip) := hoEnter st (.aggregateFunc f args d)
    if skip then hoLeave env st1 (.aggregateFunc f args d)
    else
      match hoAcceptList env st1 args with
      | .error c => .error c
      | .ok (args2, ok, st2) =>
        if ok then hoLeave env st2 (.aggregateFunc f args2 d)
        else .ok (.aggregateFunc f args2 d, false, st2)
  | .binOp op l r =>
    let (st1, skip) := hoEnter st (.binOp op l r)
    if skip then hoLeave env st1 (.binOp op l r)
    else
      match hoAccept env st1 l with
      | .error c => .error c
      | .ok (l2, okl, st2) =>
        if okl then
          match hoAccept env st2 r with
          | .error c => .error c
          | .ok (r2, okr, st3) =>
            if okr then hoLeave env st3 (.binOp op l2 r2)
            else .ok (.binOp op l2 r2, false, st3)
        else .ok (.binOp op l2 r, false, st2)
  | .paren inner =>
    let (st1, skip) := hoEnter st (.paren inner)
    if skip then hoLeave env st1 (.paren inner)
    else
      match hoAccept env st1 inner with
      | .error c => .error c
      | .ok (inner2, ok, st2) =>
        if ok then hoLeave env st2 (.paren inner2)
        else .ok (.paren inner2, false, st2)
  | e1 =>
    let (st1, _) := hoEnter st e1
    hoLeave env st1 e1
termination_by e => sizeOf e
decreasing_by all_goals (simp_wf <;> omega)

def hoAcceptList (env : Env) (st : HOSt) :
    List AstExpr → Except Crash (List AstExpr × Bool × HOSt)
  | [] => .ok ([], true, st)
  | e :: es =>
    match hoAccept env st e with
    | .error c => .error c
    | .ok (e2, ok, st2) =>
      if ok then
        match hoAcceptList env st2 es with
        | .error c => .error c
        | .ok (es2, ok2, st3) => .ok (e2 :: es2, ok2, st3)
      else .ok (e2 :: es, false, st2)
termination_by es => sizeOf es
decreasing_by all_goals (simp_wf <;> omega)

end

/-! ## The group-by resolver (lines 907-953) -/

/-- The state of `gbyResolver`. -/
structure GSt where
  fields : List SelectField
  schema : Schema
  err : Option Err
  inExpr : Bool

/-- `gbyResolver.Enter` (lines 915-924). -/
def gbyEnter (st : GSt) (e : AstExpr) : GSt × Bool :=
  match e with
  | .subquery => (st, true)
  | .compareSubquery => (st, true)
  | .existsSubquery => (st, true)
  | .value _ _ => (st, false)
  | .columnNameExpr _ _ => (st, false)
  | .paren _ => (st, false)
  | _ => ({ st with inExpr := true }, false)

/-- `gbyResolver.Leave` (lines 926-953). -/
def gbyLeave (env : Env) (st : GSt) (n : AstExpr) : Except Crash (AstExpr × Bool × GSt) :=
  match n with
  | .columnNameExpr v _ =>
    match env.findColumn st.schema v with
    | .error fe =>
      -- col is nil when FindColumn fails
      colAbsent st n v (some fe)
    | .ok none => colAbsent st n v none
    | .ok (some _) =>
      if !st.inExpr then
        match resolveFromSelectFields v st.fields false with
        | .error e => .ok (n, false, { st with err := some e })
        | .ok _ => .ok (n, true, st)
      else .ok (n, true, st)
  | .positionExpr nPos =>
    if nPos ≥ 1 && nPos ≤ st.fields.length then
      match st.fields.get? (nPos - 1) with
      | some f => .ok (f.expr, true, st)
      | none => .error .bounds
    else .ok (n, false, { st with err := some (.unknownPositionInGroup nPos) })
  | _ => .ok (n, true, st)
where
  /-- The `col == nil || !g.inExpr` body when the column is absent from the
  input schema. -/
  colAbsent (st : GSt) (n : AstExpr) (v : ColumnName) (fcErr : Option Err) :
      Except Crash (AstExpr × Bool × GSt) :=
    match resolveFromSelectFields v st.fields false with
    | .error e => .ok (n, false, { st with err := some e })
    | .ok index =>
      if index != -1 then
        match st.fields.get? index.toNat with
        | some f => .ok (f.expr, true, st)
        | none => .error .bounds
      else .ok (n, false, { st with err := fcErr })

mutual

/-- `(ast.Node).Accept(gbyResolver)`: the same enter/children/leave
protocol as `hoAccept`. -/
def gbyAccept (env : Env) (st : GSt) : AstExpr → Except Crash (AstExpr × Bool × GSt)
  | .aggregateFunc f args d =>
    let (st1, skip) := gbyEnter st (.aggregateFunc f args d)
    if skip then gbyLeave env st1 (.aggregateFunc f args d)
    else
      match gbyAcceptList env st1 args with
      | .error c => .error c
      | .ok (args2, ok, st2) =>
        if ok then gbyLeave env st2 (.aggregateFunc f args2 d)
        else .ok (.aggregateFunc f args2 d, false, st2)
  | .binOp op l r =>
    let (st1, skip) := gbyEnter st (.binOp op l r)
    if skip then gbyLeave env st1 (.binOp op l r)
    else
      match gbyAccept env st1 l with
      | .error c => .error c
      | .ok (l2, okl, st2) =>
        if okl then
          match gbyAccept env st2 r with
          | .error c => .error c
          | .ok (r2, okr, st3) =>
            if okr then gbyLeave env st3 (.binOp op l2 r2)
            else .ok (.binOp op l2 r2, false, st3)
        else .ok (.binOp op l2 r, false, st2)
  | .paren inner =>
    let (st1, skip) := gbyEnter st (.paren inner)
    if skip then gbyLeave env st1 (.paren inner)
    else
      match gbyAccept env st1 inner with
      | .error c => .error c
      | .ok (inner2, ok, st2) =>
        if ok then gbyLeave env st2 (.paren inner2)
        else .ok (.paren inner2, false, st2)
  | e1 =>
    let (st1, _) := gbyEnter st e1
    gbyLeave env st1 e1
termination_by e => sizeOf e
decreasing_by all_goals (simp_wf <;> omega)

def gbyAcceptList (env : Env) (st : GSt) :
    List AstExpr → Except Crash (List AstExpr × Bool × GSt)
  | [] => .ok ([], true, st)
  | e :: es =>
    match gbyAccept env st e with
    | .error c => .error c
    | .ok (e2, ok, st2) =>
      if ok then
        match gbyAcceptList env st2 es with
        | .error c => .error c
        | .ok (es2, ok2, st3) => .ok (e2 :: es2, ok2, st3)
      else .ok (e2 :: es, false, st2)
termination_by es => sizeOf es
decreasing_by all_goals (simp_wf <;> omega)

end

/-! ## Substate-level builder operations -/

def liftExcept {a : Type} (e : Except Crash a) : MS a := fun s =>
  match e with
  | .error c => .error c
  | .ok v => .ok (v, s)

/-- Pointer-map update for `aggIndexMap` and friends. -/
def natMapSet (m : List (Nat × Nat)) (k v : Nat) : List (Nat × Nat) :=
  if m.any fun p => p.1 == k then
    m.map fun p => if p.1 == k then (p.1, v) else p
  else m ++ [(k, v)]

/-- Go map lookup with the zero value for a missing key. -/
def natMapGet (m : List (Nat × Nat)) (k : Nat) : Nat :=
  match m.find? fun p => p.1 == k with
  | some p => p.2
  | none => 0

/-- The per-conjunct loop of `buildSelection` (lines 393-404). -/
def buildSelectionLoop (env : Env) (mapper : Option AggMapper) :
    List AstExpr → Option Plan → List Expr → MS (Option (List Expr × Option Plan))
  | [], p, acc => pure (some (acc, p))
  | cond :: rest, p, acc => do
    let pl ← getPlan p
    let r := env.rewrite cond pl mapper false
    match r.err with
    | some e => do
      setErr e
      pure none
    | none =>
      match r.expr with
      | .nilExpr => buildSelectionLoop env mapper rest (some r.plan) acc
      | expr => buildSelectionLoop env mapper rest (some r.plan) (acc ++ env.splitCNFItems expr)

/-- `buildSelection(p, where, AggMapper)` (lines 388-412). -/
def buildSelection (env : Env) (p : Option Plan) (whereE : Option AstExpr)
    (aggMapper : Option AggMapper) : MS (Option Plan) := do
  orOptFlag flagPredicatePushDown
  let conditions := splitWhere whereE
  let selId ← allocID "Selection"
  match ← buildSelectionLoop env aggMapper conditions p [] with
  | none => pure none
  | some (expressions, pFinal) =>
    if expressions.length == 0 then pure pFinal
    else do
      let pl ← getPlan pFinal
      pure (some (Plan.node .selection selId pl.schema.clone [pl] { conditions := expressions }))

/-- The per-item loop of `buildSort` (lines 608-616). -/
def buildSortLoop (env : Env) (aggMapper : Option AggMapper) :
    List ByItem → Option Plan → List (Expr × Bool) → MS (Option (List (Expr × Bool) × Option Plan))
  | [], p, acc => pure (some (acc, p))
  | item :: rest, p, acc => do
    let pl ← getPlan p
    let r := env.rewrite item.expr pl aggMapper true
    match r.err with
    | some e => do
      setErr e
      pure none
    | none => buildSortLoop env aggMapper rest (some r.plan) (acc ++ [(r.expr, item.desc)])

/-- `buildSort(p, byItems, aggMapper)` (lines 605-621). -/
def buildSort (env : Env) (p : Option Plan) (byItems : List ByItem)
    (aggMapper : Option AggMapper) : MS (Option Plan) := do
  let sortId ← allocID "Sort"
  match ← buildSortLoop env aggMapper byItems p [] with
  | none => pure none
  | some (exprs, pFinal) => do
    let pl ← getPlan pFinal
    pure (some (Plan.node .sort sortId pl.schema.clone [pl] { byItems := exprs }))

/-- The OFFSET / COUNT value of a limit clause: absent means `0`
(lines 646-650 and 656-660). -/
def limitValue (env : Env) (d : Option Datum) : Except Err Nat :=
  match d with
  | none => .ok 0
  | some v => getUintForLimitOffset env v

/-- `buildLimit(src, limit)` (lines 641-672). -/
def buildLimit (env : Env) (src : Option Plan) (limit : LimitClause) : MS (Option Plan) :=
  (if env.useDAG then orOptFlag flagPushDownTopN else pure ()) >>= fun _ =>
  match limitValue env limit.offset with
  | .error _ => do
    setErr .wrongArguments
    pure none
  | .ok offset =>
    match limitValue env limit.count with
    | .error _ => do
      setErr .wrongArguments
      pure none
    | .ok count => do
      let liId ← allocID "Limit"
      let pl ← getPlan src
      pure (some (Plan.node .limit liId pl.schema.clone [pl] { offset := offset, count := count }))

/-- `collectGroupByColumns` (lines 51-58). -/
def collectGroupByCols (items : List Expr) : List Column :=
  items.filterMap fun e =>
    match e with
    | .column c => some c
    | _ => none

/-- `buildDistinct(child, length)` (lines 507-521). -/
def buildDistinct (child : Option Plan) (length : Nat) : MS (Option Plan) := do
  orOptFlag flagBuildKeyInfo
  orOptFlag flagAggregationOptimize
  let pl ← getPlan child
  if length ≤ pl.schema.clone.columns.length then do
    let gbyItems := Column2Exprs (pl.schema.clone.columns.take length)
    let aggId ← allocID "Aggregation"
    let aggFuncs := pl.schema.columns.map fun col => AggFunc.mk AggFuncFirstRow [.column col] false
    pure (some (Plan.node .aggregation aggId pl.schema.clone [pl]
      { groupByItems := gbyItems, groupByCols := collectGroupByCols gbyItems,
        aggFuncs := aggFuncs }))
  else crash .bounds

/-- The argument-rewrite loop of `buildAggregation` (lines 69-78). -/
def buildAggArgsLoop (env : Env) :
    List AstExpr → Option Plan → List Expr → MS (Option (List Expr × Option Plan))
  | [], p, acc => pure (some (acc, p))
  | arg :: rest, p, acc => do
    let pl ← getPlan p
    let r := env.rewrite arg pl none true
    match r.err with
    | some e => do
      setErr e
      pure none
    | none => buildAggArgsLoop env rest (some r.plan) (acc ++ [r.expr])

/-- The fresh aggregate output column appended by `buildAggregation`
(lines 92-97), owned by the aggregation node. -/
def aggOutCol (env : Env) (aggId : String) (f : String) (newArgList : List Expr)
    (dist : Bool) (position : Nat) : Column :=
  { fromID := aggId
    colName := NewCIStr (aggId ++ "_col_" ++ toString position)
    tblName := NewCIStr ""
    dbName := NewCIStr ""
    retTp := env.aggFuncType f newArgList dist
    position := position
    isAggOrSubq := true
    id := 0
    index := 0 }

/-- The aggregate-deduplication loop of `buildAggregation` (lines 68-99). -/
def buildAggregationLoop (env : Env) (aggId : String) :
    List (Nat × AstExpr) → Option Plan → List AggFunc → List Column → List (Nat × Nat) →
    MS (Option (Option Plan × List AggFunc × List Column × List (Nat × Nat)))
  | [], p, funcs, schemaCols, idxMap => pure (some (p, funcs, schemaCols, idxMap))
  | (i, aggAst) :: rest, p, funcs, schemaCols, idxMap =>
    match aggAst with
    | .aggregateFunc f args dist =>
      buildAggArgsLoop env args p [] >>= fun step =>
      match step with
      | none => pure none
      | some (newArgList, p2) =>
        match funcs.enum.find? fun q => env.aggEqual q.2 ⟨f, newArgList, dist⟩ with
        | some q =>
          buildAggregationLoop env aggId rest p2 funcs schemaCols (natMapSet idxMap i q.1)
        | none =>
          buildAggregationLoop env aggId rest p2 (funcs ++ [⟨f, newArgList, dist⟩])
            (schemaCols ++ [aggOutCol env aggId f newArgList dist funcs.length])
            (natMapSet idxMap i funcs.length)
    | _ => crash .typeAssert

/-- The final Aggregation node of `buildAggregation` (lines 100-109): the
deduplicated aggregates followed by one FIRST_ROW per child schema column,
and the output schema made of the fresh aggregate columns followed by
clones of the child's columns. -/
def aggMakePlan (aggId : String) (funcs : List AggFunc) (schemaCols : List Column)
    (gbyItems : List Expr) (pl : Plan) : Plan :=
  Plan.node .aggregation aggId
    (NewSchema (schemaCols ++ pl.schema.columns.map Column.clone)) [pl]
    { aggFuncs := funcs ++ pl.schema.columns.map fun col =>
        AggFunc.mk AggFuncFirstRow [.column col.clone] false
      groupByItems := gbyItems
      groupByCols := collectGroupByCols gbyItems }

/-- `buildAggregation(p, aggFuncList, gbyItems)` (lines 60-110): the plan and
the old-to-new aggregate index map. -/
def buildAggregation (env : Env) (p : Option Plan) (aggFuncList : List AstExpr)
    (gbyItems : List Expr) : MS (Option Plan × List (Nat × Nat)) :=
  orOptFlag flagBuildKeyInfo >>= fun _ =>
  orOptFlag flagAggregationOptimize >>= fun _ =>
  allocID "Aggregation" >>= fun aggId =>
  buildAggregationLoop env aggId aggFuncList.enum p [] [] [] >>= fun r =>
  match r with
  | none => pure (none, [])
  | some (p2, funcs, schemaCols, idxMap) =>
    getPlan p2 >>= fun pl =>
    pure (some (aggMakePlan aggId funcs schemaCols gbyItems pl), idxMap)

/-- `buildProjectionFieldNameFromColumns` (lines 415-420). -/
def buildProjectionFieldNameFromColumns (field : SelectField) (c : Column) : CIStr × CIStr :=
  match getInnerFromParentheses field.expr with
  | .columnNameExpr nm _ => (nm.name, nm.table)
  | _ => (c.colName, c.tblName)

/-- `buildProjectionFieldNameFromExpressions` (lines 423-456). -/
def buildProjectionFieldNameFromExpressions (env : Env) (field : SelectField) :
    Except Crash CIStr :=
  let isFirstRowAgg :=
    match field.expr with
    | .aggregateFunc f _ _ => f == AggFuncFirstRow
    | _ => false
  if isFirstRowAgg then
    match field.expr with
    | .aggregateFunc _ args _ =>
      match args with
      | .columnNameExpr nm _ :: _ => .ok nm.name
      | _ :: _ => .error .typeAssert
      | [] => .error .bounds
    | _ => .error .typeAssert
  else
    match getInnerFromParentheses field.expr with
    | .value d text =>
      match d with
      | .str s => .ok (NewCIStr (env.trimNonGraphic s))
      | .null => .ok (NewCIStr "NULL")
      | _ => .ok (NewCIStr (if text != "" then text else field.text))
    | _ => .ok (NewCIStr (env.trimComment field.text))

/-- `buildProjectionField(id, position, field, expr)` (lines 459-478). -/
def buildProjectionField (env : Env) (id : String) (position : Nat) (field : SelectField)
    (expr : Expr) : Except Crash Column := do
  let names : CIStr × CIStr ←
    if field.asName.l != "" then .ok (field.asName, NewCIStr "")
    else
      match expr with
      | .column c =>
        if !c.isAggOrSubq then .ok (buildProjectionFieldNameFromColumns field c)
        else do
          let nm ← buildProjectionFieldNameFromExpressions env field
          .ok (nm, NewCIStr "")
      | _ => do
        let nm ← buildProjectionFieldNameFromExpressions env field
        .ok (nm, NewCIStr "")
  match expr.getTypeOpt with
  | none => .error .nilDeref
  | some tp =>
    .ok
      { fromID := id
        colName := names.1
        tblName := names.2
        dbName := NewCIStr ""
        retTp := tp
        position := position
        isAggOrSubq := false
        id := 0
        index := 0 }

/-- The per-field loop of `buildProjection` (lines 486-501). -/
def buildProjectionLoop (env : Env) (projId : String) (mapper : Option AggMapper) :
    List SelectField → Option Plan → List Expr → List Column → Nat →
    MS (Option (List Expr × List Column × Option Plan) × Nat)
  | [], p, exprs, cols, oldLen => pure (some (exprs, cols, p), oldLen)
  | field :: rest, p, exprs, cols, oldLen => do
    let pl ← getPlan p
    let r := env.rewrite field.expr pl mapper true
    match r.err with
    | some e => do
      setErr e
      pure (none, oldLen)
    | none => do
      let col ← liftExcept (buildProjectionField env projId (cols.length + 1) field r.expr)
      buildProjectionLoop env projId mapper rest (some r.plan) (exprs ++ [r.expr])
        (cols ++ [col]) (if !field.auxiliary then oldLen + 1 else oldLen)

/-- `buildProjection(p, fields, mapper)` (lines 481-505): the plan and the
non-auxiliary prefix length. -/
def buildProjection (env : Env) (p : Option Plan) (fields : List SelectField)
    (mapper : Option AggMapper) : MS (Option Plan × Nat) := do
  orOptFlag flagEliminateProjection
  let projId ← allocID "Projection"
  match ← buildProjectionLoop env projId mapper fields p [] [] 0 with
  | (none, oldLen) => pure (none, oldLen)
  | (some (exprs, cols, p2), oldLen) =>
    pure (some (addChild (Plan.node .projection projId (NewSchema cols) [] { exprs := exprs }) p2),
      oldLen)

/-- `buildTableDual` (lines 1155-1159). -/
def buildTableDual : MS (Option Plan) := do
  let dualId ← allocID "Dual"
  pure (some (Plan.node .tableDual dualId (NewSchema []) [] { rowCount := 1 }))

/-- Modelled from the spec: `buildSelectLock` (repository code not under
src/) wraps the child in a `SelectLock` node carrying the child's schema:
the lock step of the §2 pipeline is a pass-through. -/
def buildSelectLock (src : Option Plan) (lock : LockType) : MS (Option Plan) := do
  let lockId ← allocID "Lock"
  let pl ← getPlan src
  pure (some (Plan.node .selectLock lockId pl.schema [pl] { lock := lock }))

/-- The expansion of one wildcard field over the current schema
(lines 989-1004). -/
def wildExpandColumns (wc : WildCard) (schema : Schema) : List SelectField :=
  schema.columns.filterMap fun col =>
    if (wc.schema.l == "" || wc.schema.l == col.dbName.l) &&
        (wc.table.l == "" || wc.table.l == col.tblName.l) &&
        col.id != ExtraHandleID then
      some
        { expr := .columnNameExpr ⟨col.dbName, col.tblName, col.colName⟩ (some col.retTp)
          asName := NewCIStr ""
          auxiliary := false
          wildCard := none
          text := col.colName.o }
    else none

/-- The per-field loop of `unfoldWildStar` (lines 978-1005), over the
enumerated field list (`i` is the position in the original list). -/
def unfoldWildStarLoop (p : Option Plan) :
    List (Nat × SelectField) → List SelectField → MS (List SelectField)
  | [], acc => pure acc
  | (i, field) :: rest, acc =>
    match field.wildCard with
    | none => unfoldWildStarLoop p rest (acc ++ [field])
    | some wc =>
      if wc.table.l == "" && i > 0 then do
        setErr .invalidWildCard
        pure acc
      else do
        let pl ← getPlan p
        unfoldWildStarLoop p rest (acc ++ wildExpandColumns wc pl.schema)

/-- `unfoldWildStar(p, selectFields)` (lines 977-1007). -/
def unfoldWildStar (p : Option Plan) (selectFields : List SelectField) :
    MS (List SelectField) :=
  unfoldWildStarLoop p selectFields.enum []

/-- `extractAggFuncs(fields)` (lines 892-905): one `AggregateFuncExtractor`
(an oracle: its code is outside src/) walks all field expressions in order;
the collected aggregates are numbered left to right. -/
def extractAggFuncs (env : Env) (fields : List SelectField) :
    List SelectField × List AstExpr × AggMapper :=
  let processed := fields.map fun f =>
    let r := env.aggExtract f.expr
    ({ f with expr := r.1 }, r.2)
  let aggList := (processed.map Prod.snd).flatten
  let totalMap := aggList.enum.foldl (fun m q => aggMapperSet m q.2 q.1) []
  (processed.map Prod.fst, aggList, totalMap)

/-- The per-item loop of `resolveGbyExprs` (lines 958-973). -/
def resolveGbyExprsLoop (env : Env) :
    List ByItem → GSt → Option Plan → List Expr → List ByItem →
    MS (Option (Option Plan × List Expr × List ByItem))
  | [], _, p, exprs, itemsAcc => pure (some (p, exprs, itemsAcc))
  | item :: rest, gst, p, exprs, itemsAcc => do
    let gst1 := { gst with inExpr := false }
    let r ← liftExcept (gbyAccept env gst1 item.expr)
    match r.2.2.err with
    | some e => do
      setErr e
      pure none
    | none => do
      let retExpr := r.1
      let pl ← getPlan p
      let rw := env.rewrite retExpr pl none true
      match rw.err with
      | some e => do
        setErr e
        pure none
      | none =>
        resolveGbyExprsLoop env rest r.2.2 (some rw.plan) (exprs ++ [rw.expr])
          (itemsAcc ++ [{ item with expr := retExpr }])

/-- `resolveGbyExprs(p, gby, fields)` (lines 955-975): the updated plan, the
rewritten group-by expressions, and the (mutated) group-by item list. -/
def resolveGbyExprs (env : Env) (p : Option Plan) (gbyItems : List ByItem)
    (fields : List SelectField) : MS (Option (Option Plan × List Expr × List ByItem)) := do
  let pl ← getPlan p
  let gst : GSt := ⟨fields, pl.schema, none, false⟩
  resolveGbyExprsLoop env gbyItems gst (some pl) [] []

/-- The ORDER BY item loop of `resolveHavingAndOrderBy` (lines 878-887). -/
def hoOrderLoop (env : Env) :
    List ByItem → HOSt → List ByItem → Except Crash (List ByItem × Bool × HOSt)
  | [], st, acc => .ok (acc, true, st)
  | item :: rest, st, acc =>
    match hoAccept env st item.expr with
    | .error c => .error c
    | .ok (n, ok, st2) =>
      if ok then hoOrderLoop env rest st2 (acc ++ [{ item with expr := n }])
      else .ok (acc ++ [item] ++ rest, false, st2)

/-- `resolveHavingAndOrderBy(sel, p)` (lines 852-890): returns the updated
select fields, HAVING expression and ORDER BY items together with the
having and order aggregate mappers.  On a resolver failure the select
fields are left as passed in (line 888 is skipped) and the builder error
is latched; the column mapper (shared with the builder) keeps the writes
made so far. -/
def resolveHavingAndOrderBy (env : Env) (fields : List SelectField)
    (gby : Option (List ByItem)) (having : Option AstExpr)
    (orderBy : Option (List ByItem)) (p : Option Plan) :
    MS (List SelectField × Option AstExpr × Option (List ByItem) × AggMapper × AggMapper) := do
  let sub ← getSub
  let st0 : HOSt :=
    { inAggFunc := false, inExpr := false, orderBy := false, err := none, p := p
      selectFields := fields, aggMapper := [], colMapper := sub.colMapper
      gbyItems := gby.getD [], outerSchemas := sub.outerSchemas }
  let havingPhase : Except Crash (Option (Option AstExpr × HOSt) × Option HOSt) :=
    match having with
    | none => .ok (some (none, st0), none)
    | some hv =>
      match hoAccept env st0 hv with
      | .error c => .error c
      | .ok (n, ok, st1) =>
        if ok then .ok (some (some n, st1), none)
        else .ok (none, some st1)
  match ← liftExcept havingPhase with
  | (none, some stFail) => do
    setColMapper stFail.colMapper
    setErrOpt stFail.err
    pure (fields, having, orderBy, [], [])
  | (none, none) => crash .nilDeref
  | (some (having2, st1), _) => do
    let havingAggMapper := st1.aggMapper
    let st2 := { st1 with aggMapper := [], orderBy := true, inExpr := false }
    match orderBy with
    | none => do
      setColMapper st2.colMapper
      pure (st2.selectFields, having2, none, havingAggMapper, st2.aggMapper)
    | some items =>
      match ← liftExcept (hoOrderLoop env items st2 []) with
      | (items2, ok, st3) =>
        if ok then do
          setColMapper st3.colMapper
          pure (st3.selectFields, having2, some items2, havingAggMapper, st3.aggMapper)
        else do
          setColMapper st3.colMapper
          setErrOpt st3.err
          pure (fields, having2, some items2, [], [])

/-! ## The hint processor (lines 1009-1041) -/

/-- The hint-table collection of `pushTableHints` (lines 1010-1020). -/
def collectHintTables (hints : List TableHint) : List CIStr × List CIStr :=
  hints.foldl
    (fun acc h =>
      if h.hintName.l == TiDBMergeJoin then (acc.1 ++ h.tables, acc.2)
      else if h.hintName.l == TiDBIndexNestedLoopJoin then (acc.1, acc.2 ++ h.tables)
      else acc)
    ([], [])

/-- `pushTableHints(hints)` (lines 1009-1029). -/
def pushTableHints (hints : List TableHint) : M Bool := fun s =>
  let r := collectHintTables hints
  if r.1.length != 0 || r.2.length != 0 then
    .ok (true, { s with tableHintInfo := s.tableHintInfo ++ [⟨r.1, r.2⟩] })
  else .ok (false, s)

/-- `popTableHints` (lines 1031-1033); popping an empty stack is a Go
slice-bounds panic. -/
def popTableHints : M Unit := fun s =>
  if s.tableHintInfo.isEmpty then .error .bounds
  else .ok ((), { s with tableHintInfo := s.tableHintInfo.dropLast })

/-- `TableHints()` (lines 1036-1041). -/
def tableHintsTop : M (Option TableHintInfo) := fun s =>
  if s.tableHintInfo.isEmpty then .ok (none, s)
  else .ok (s.tableHintInfo.getLast?, s)

/-- Modelled from the spec: `tableHintInfo.ifPreferMergeJoin` (repository
code not under src/): true when any given table alias appears in the
hint's merge-join tables. -/
def ifPreferMergeJoin (info : TableHintInfo) (aliases : List (Option CIStr)) : Bool :=
  aliases.any fun a =>
    match a with
    | some nm => info.sortMergeJoinTables.any fun t => t.l == nm.l
    | none => false

/-- Modelled from the spec: `tableHintInfo.ifPreferINLJ` (repository code
not under src/): true when the alias appears in the hint's
index-nested-loop-join tables. -/
def ifPreferINLJ (info : TableHintInfo) (a : Option CIStr) : Bool :=
  match a with
  | some nm => info.indexNestedLoopJoinTables.any fun t => t.l == nm.l
  | none => false

/-- `extractTableAlias(p)` (lines 205-217): on a nil plan the Go type
assertion yields false and the subsequent `p.Schema()` call panics. -/
def extractTableAlias (p : Option Plan) : Except Crash (Option CIStr) :=
  match p with
  | none => .error .nilDeref
  | some pl =>
    if pl.kind == .dataSource then
      if pl.info.tableAsName.l != "" then .ok (some pl.info.tableAsName)
      else .ok (some pl.info.tableInfoName)
    else
      match pl.schema.columns.head? with
      | some c => if c.tblName.l != "" then .ok (some c.tblName) else .ok none
      | none => .ok none

/-- The schema qualification of `buildDataSource` (lines 1163-1166). -/
def dsSchemaName (env : Env) (tn : TableName) : CIStr :=
  if tn.schema.l == "" then NewCIStr env.currentDB else tn.schema

/-- The pure plan-node computation of `buildDataSource` (lines 1179-1253):
every return path of the source past the catalog lookup yields a non-nil
`DataSource` node; which of the three shapes is returned depends on the
column-handle counter, the transaction state and the primary-key column. -/
def dsMakePlan (env : Env) (sub : SubState) (tbl : TableMeta) (dsId : String)
    (schemaName : CIStr) : Plan :=
  let statsPseudo := !env.statsHandlePresent
  let columns := if sub.inUpdateStmt then tbl.writableCols else tbl.cols
  let schemaCols := columns.enum.map fun q =>
    Column.mk dsId q.2.name tbl.name schemaName q.2.fieldTp q.1 false q.2.id 0
  let pkCol : Option Column :=
    if tbl.pkIsHandle then
      (schemaCols.zip columns).filterMap
        (fun q => if q.2.priKeyFlag then some q.1 else none) |>.getLast?
    else none
  let dsCols := columns.map fun c => ColumnInfo.mk c.id c.name
  let baseInfo : PlanInfo :=
    { tableInfoName := tbl.name, tableInfoID := tbl.id, dbName := schemaName
      dsColumns := dsCols, needColHandle := sub.needColHandle > 0
      statsPseudo := statsPseudo }
  let needUnionScan := env.txnPresent && !env.txnReadOnly
  if sub.needColHandle == 0 && !needUnionScan then
    Plan.node .dataSource dsId (NewSchema schemaCols) [] baseInfo
  else
    let uss : Option Schema := if needUnionScan then some (NewSchema schemaCols) else none
    match pkCol with
    | none =>
      let idCol : Column :=
        { fromID := dsId
          colName := NewCIStr "_rowid"
          tblName := tbl.name
          dbName := schemaName
          retTp := NewFieldType TypeLonglong
          position := schemaCols.length
          isAggOrSubq := false
          id := ExtraHandleID
          index := schemaCols.length }
      let uss2 :=
        if needUnionScan && sub.needColHandle > 0 then
          uss.map fun u => ⟨u.columns ++ [idCol], [(tbl.id, [idCol])]⟩
        else uss
      let info2 :=
        { baseInfo with
          dsColumns := dsCols ++ [ColumnInfo.mk ExtraHandleID (NewCIStr "_rowid")]
          unionScanSchema := uss2 }
      Plan.node .dataSource dsId ⟨schemaCols ++ [idCol], [(tbl.id, [idCol])]⟩ [] info2
    | some pk =>
      let uss2 :=
        if needUnionScan && sub.needColHandle > 0 then
          uss.map fun u => ⟨u.columns, [(tbl.id, [pk])]⟩
        else uss
      Plan.node .dataSource dsId
        ⟨schemaCols, [(tbl.id, [pk])]⟩ [] { baseInfo with unionScanSchema := uss2 }

/-- `buildDataSource(tn)` (lines 1161-1254): the catalog lookup latches its
error; otherwise an id is allocated, the visit recorded, and the node built
by `dsMakePlan` from the substate read at this point. -/
def buildDataSource (env : Env) (tn : TableName) : MS (Option Plan) := do
  let schemaName := dsSchemaName env tn
  match env.tableByName schemaName tn.name with
  | .error e => do
    setErr e
    pure none
  | .ok tbl => do
    let dsId ← allocID "DataSource"
    appendVisit ⟨"SelectPriv", schemaName.l, tbl.name.l, ""⟩
    let sub ← getSub
    pure (some (dsMakePlan env sub tbl dsId schemaName))

/-! ## Union helpers (lines 523-589) -/

/-- The per-child type merge of `buildUnion` (lines 551-568): the first
schema's column types absorb this child's column types (the decimal
update happens before the width update, as in the source). -/
def mergeUnionTypes (env : Env) (firstCols selCols : List Column) : List Column :=
  (firstCols.zip selCols).map fun q =>
    let schemaTp := q.1.retTp
    let colTp := q.2.retTp
    let d2 := max colTp.decimal schemaTp.decimal
    let f2 := max (colTp.flen - colTp.decimal) (schemaTp.flen - d2) + d2
    { q.1 with retTp := ⟨env.mergeFieldType schemaTp.tp colTp.tp, f2, d2⟩ }

/-- One iteration of the arity-check/wrap/merge loop of `buildUnion`
(lines 533-570): arity mismatch latches the union-arity error; a
non-projection child is wrapped in a projection owning fresh columns. -/
def unionMergeChild (env : Env) (firstSchema : Schema) (child : Option Plan) :
    MS (Option (Plan × Schema)) := do
  let pl ← getPlan child
  if firstSchema.len != pl.schema.len then do
    setErr .unionArity
    pure none
  else do
    let sel2 ←
      if pl.kind != .projection then do
        orOptFlag flagEliminateProjection
        let projId ← allocID "Projection"
        let schema := pl.schema.clone
        let schema2 : Schema :=
          ⟨schema.columns.map fun c => { c with fromID := projId }, schema.tblID2Handle⟩
        pure (Plan.node .projection projId schema2 [pl] { exprs := Column2Exprs pl.schema.columns })
      else pure pl
    pure (some (sel2, ⟨mergeUnionTypes env firstSchema.columns sel2.schema.columns,
      firstSchema.tblID2Handle⟩))

/-- The fold of `unionMergeChild` over all children. -/
def unionChildrenLoop (env : Env) :
    List (Option Plan) → Schema → List Plan → MS (Option (List Plan × Schema))
  | [], fs, acc => pure (some (acc, fs))
  | c :: rest, fs, acc => do
    match ← unionMergeChild env fs c with
    | none => pure none
    | some r => unionChildrenLoop env rest r.2 (acc ++ [r.1])

/-! ## The mutually recursive builder core (fuel-indexed) -/

/-- The trailing block of `buildSelect` (lines 1140-1152): the lock
counter release and the auxiliary-column trim projection. -/
def buildSelectFinal (sel : SelectStmt) (oldLen : Nat) (p8 : Option Plan) :
    MS (Option Plan) :=
  (if sel.lockTp == .forUpdate then addNeedColHandle (-1) else pure ()) >>= fun _ =>
  getPlan p8 >>= fun pl =>
  if oldLen != pl.schema.len then
    if oldLen > pl.schema.columns.length then crash .bounds
    else
      allocID "Projection" >>= fun projId =>
      let cols := pl.schema.clone.columns.take oldLen
      let schema : Schema := ⟨cols.map fun c => { c with fromID := projId }, []⟩
      pure (some (Plan.node .projection projId schema [pl]
        { exprs := Column2Exprs (pl.schema.columns.take oldLen) }))
  else pure (some pl)

/-- The HAVING / distinct / sort / limit steps of `buildSelect`
(lines 1115-1139), entered after the check-and-bail that follows the
projection: each step runs exactly when its clause is present, and a
check-and-bail follows exactly the steps that ran. -/
def buildSelectTail (env : Env) (sel : SelectStmt) (having2 : Option AstExpr)
    (order2 : Option (List ByItem)) (havingMap orderMap : AggMapper)
    (oldLen : Nat) (p4 : Option Plan) : MS (Option Plan) :=
  (match having2 with
    | some hv => buildSelection env p4 (some hv) (some havingMap)
    | none => pure p4) >>= fun p5 =>
  bailIfS having2.isSome
  ((if sel.distinct then buildDistinct p5 oldLen else pure p5) >>= fun p6 =>
  bailIfS sel.distinct
  ((match order2 with
    | some items => buildSort env p6 items (some orderMap)
    | none => pure p6) >>= fun p7 =>
  bailIfS order2.isSome
  ((match sel.limit with
    | some lim => buildLimit env p7 lim
    | none => pure p7) >>= fun p8 =>
  bailIfS sel.limit.isSome
  (buildSelectFinal sel oldLen p8))))

/-- The part of `buildSelect`'s body after the FROM clause has been built
(lines 1070-1152): wildcard expansion, group-by resolution, having/order-by
resolution, WHERE, lock, aggregation, projection and the
`buildSelectTail` steps, with the source's check-and-bail placement. -/
def buildSelectRest (env : Env) (sel : SelectStmt) (hasAgg : Bool) (p0 : Option Plan) :
    MS (Option Plan) :=
  bailS
  (unfoldWildStar p0 sel.fields >>= fun fields1 =>
  bailS
  ((match sel.groupBy with
    | some items =>
      resolveGbyExprs env p0 items fields1 >>= fun r =>
      (match r with
        | none => pure ((none : Option Plan), ([] : List Expr), some items)
        | some (p2, gbyCols, items2) => pure (p2, gbyCols, some items2))
    | none => pure (p0, [], none)) >>= fun gbyStep =>
  bailS
  (resolveHavingAndOrderBy env fields1 gbyStep.2.2 sel.having sel.orderBy gbyStep.1 >>=
    fun hoStep =>
  (match sel.whereExpr with
    | some w => buildSelection env gbyStep.1 (some w) none
    | none => pure gbyStep.1) >>= fun p2 =>
  bailIfS sel.whereExpr.isSome
  ((if sel.lockTp != LockType.none then buildSelectLock p2 sel.lockTp
    else pure p2) >>= fun p3 =>
  (if hasAgg then
      pure (let r := extractAggFuncs env hoStep.1; (r.1, r.2.1, some r.2.2))
    else pure (hoStep.1, ([] : List AstExpr), (none : Option AggMapper))) >>= fun aggStep =>
  bailIfS hasAgg
  ((match aggStep.2.2 with
    | some totalMap =>
      buildAggregation env p3 aggStep.2.1 gbyStep.2.1 >>= fun r =>
      pure (r.1, some (totalMap.map fun q => (q.1, natMapGet r.2 q.2)))
    | none => pure (p3, (none : Option AggMapper))) >>= fun p4totalMap =>
  bailIfS hasAgg
  (buildProjection env p4totalMap.1 aggStep.1 p4totalMap.2 >>= fun projStep =>
  bailS
  (buildSelectTail env sel hoStep.2.1 hoStep.2.2.1 hoStep.2.2.2.1 hoStep.2.2.2.2
    projStep.2 projStep.1)))))))

/-- The tail of `buildResultSetNode`'s `*ast.TableSource` case
(lines 129-141): the check-and-bail, the `TableAsName` assignment and the
alias renaming of the schema columns. -/
def rsnTableSourceRest (asName : CIStr) (p : Option Plan) : MS (Option Plan) := do
  let e ← getErr
  if e.isSome then pure none
  else
    let p2 := p.map fun pl =>
      if pl.kind == .dataSource then pl.setInfo fun i => { i with tableAsName := asName }
      else pl
    if asName.l != "" then
      match p2 with
      | none => crash .nilDeref
      | some pl =>
        pure (some (pl.setSchema
          ⟨pl.schema.columns.map fun c => { c with tblName := asName, dbName := NewCIStr "" },
            pl.schema.tblID2Handle⟩))
    else pure p2

/-- The natural/using/on/cartesian condition step of `buildJoin`
(lines 246-283): exactly one of the four condition treatments runs on the
hinted join node. -/
def buildJoinCondStep (env : Env) (join : AstJoin) (lpl rpl : Plan)
    (joinPlan1 : Plan) : MS (Option Plan) :=
  if join.natural then
    liftExcept (buildNaturalJoin env joinPlan1 lpl rpl join) >>= fun r =>
    match r with
    | .error e => setErr e >>= fun _ => pure none
    | .ok jp => pure (some jp)
  else if join.usingCols.isSome then
    liftExcept (buildUsingClause env joinPlan1 lpl rpl join) >>= fun r =>
    match r with
    | .error e => setErr e >>= fun _ => pure none
    | .ok jp => pure (some jp)
  else
    match join.onExpr with
    | some onAst =>
      (match (env.rewrite onAst joinPlan1 none false).err with
        | some e => setErr e >>= fun _ => pure none
        | none =>
          match (env.rewrite onAst joinPlan1 none false).expr with
          | .nilExpr => crash .nilDeref
          | onE =>
            if onE.isCorrelated then setErr .onConditionSubquery >>= fun _ => pure none
            else
              match attachOnConds joinPlan1 (env.splitCNFItems onE) with
              | .error c => crash c
              | .ok jp => pure (some jp))
    | none =>
      if joinPlan1.info.joinType == JoinType.inner then
        pure (some (joinPlan1.setInfo fun i => { i with cartesianJoin := true }))
      else pure (some joinPlan1)

/-- The join-type assignment of `buildJoin` (lines 284-295). -/
def buildJoinFinish (join : AstJoin) (lpl rpl : Plan) (joinPlan2 : Plan) : Plan :=
  if join.tp == .left then
    joinPlan2.setInfo fun i =>
      { i with joinType := .leftOuter, defaultValuesLen := rpl.schema.len }
  else if join.tp == .right then
    joinPlan2.setInfo fun i =>
      { i with joinType := .rightOuter, defaultValuesLen := lpl.schema.len }
  else
    joinPlan2.setInfo fun i => { i with joinType := .inner }

/-- The condition and join-type steps of `buildJoin` after the hint
preferences are settled (lines 246-295). -/
def buildJoinConds (env : Env) (join : AstJoin) (lpl rpl : Plan)
    (joinPlan1 : Plan) : MS (Option Plan) :=
  buildJoinCondStep env join lpl rpl joinPlan1 >>= fun conded =>
  match conded with
  | none => pure none
  | some joinPlan2 => pure (some (buildJoinFinish join lpl rpl joinPlan2))

/-- The index-nested-loop-join preference bits of `buildJoin`
(lines 238-243): bit 1 for the left child, bit 2 for the right child. -/
def joinPINLJ (hint : TableHintInfo) (leftAlias rightAlias : Option CIStr) : Nat :=
  (if ifPreferINLJ hint leftAlias then 1 else 0) |||
  (if ifPreferINLJ hint rightAlias then 2 else 0)

/-- The hint-preference step of `buildJoin` (lines 234-245): with no
innermost hint frame the node passes through; conflicting preferences latch
the error. -/
def buildJoinHinted (joinPlan0 : Plan) (topHint : Option TableHintInfo)
    (leftAlias rightAlias : Option CIStr) : MS (Option Plan) :=
  match topHint with
  | none => pure (some joinPlan0)
  | some hint =>
    if ifPreferMergeJoin hint [leftAlias, rightAlias] &&
        joinPINLJ hint leftAlias rightAlias > 0 then
      setErr .conflictHints >>= fun _ => pure none
    else
      pure (some (joinPlan0.setInfo fun i =>
        { i with preferMergeJoin := ifPreferMergeJoin hint [leftAlias, rightAlias]
                 preferINLJ := joinPINLJ hint leftAlias rightAlias }))

/-- The part of `buildJoin` after both children are built and the innermost
hint frame has been read (lines 229-295): schema merge, redundant-schema
propagation, `buildJoinHinted`, then `buildJoinConds`. -/
def buildJoinRest (env : Env) (join : AstJoin) (lpl rpl : Plan) (joinId : String)
    (topHint : Option TableHintInfo) (leftAlias rightAlias : Option CIStr) :
    MS (Option Plan) :=
  let newSchema := (MergeSchema (some lpl.schema) (some rpl.schema)).getD (NewSchema [])
  let lRedundant := if lpl.kind == .join then lpl.info.redundantSchema else none
  let rRedundant := if rpl.kind == .join then rpl.info.redundantSchema else none
  let joinPlan0 := Plan.node .join joinId newSchema [lpl, rpl]
    { redundantSchema := MergeSchema lRedundant rRedundant }
  buildJoinHinted joinPlan0 topHint leftAlias rightAlias >>= fun hinted =>
  match hinted with
  | none => pure none
  | some joinPlan1 => buildJoinConds env join lpl rpl joinPlan1

/-- The union node over the merged children (lines 571-576): the merged
first schema's columns re-owned by the union id. -/
def unionPlanNode (uId : String) (merged : List Plan × Schema) : Plan :=
  Plan.node .union uId
    ⟨merged.2.columns.map fun c => { c with fromID := uId, dbName := NewCIStr "" },
      merged.2.tblID2Handle⟩ merged.1 {}

/-- The part of `buildUnion` after all branches are built (lines 532-588):
arity checks, projection wraps, type merging, the union schema, and the
optional distinct/sort/limit on top. -/
def buildUnionRest (env : Env) (union : UnionStmt) (uId : String)
    (children : List (Option Plan)) : MS (Option Plan) :=
  (match children with
    | [] => crash .bounds
    | c :: _ => getPlan c) >>= fun c0 =>
  unionChildrenLoop env children c0.schema.clone [] >>= fun r =>
  match r with
  | none => pure none
  | some merged =>
    (if union.distinct then
        buildDistinct (some (unionPlanNode uId merged)) (unionPlanNode uId merged).schema.len
      else pure (some (unionPlanNode uId merged))) >>= fun p1 =>
    (match union.orderBy with
      | some items => buildSort env p1 items none
      | none => pure p1) >>= fun p2 =>
    (match union.limit with
      | some lim => buildLimit env p2 lim
      | none => pure p2)

/-- The six mutually recursive builder entries, tied through an explicit
fuel-indexed fixpoint: `rec` holds the entries one fuel level down. -/
structure BuildFns where
  select : SelectStmt → M (Option Plan)
  selectBody : SelectStmt → M (Option Plan)
  rsn : RSNode → M (Option Plan)
  join : AstJoin → M (Option Plan)
  unionSelects : List SelectStmt → M (Option (List (Option Plan)))
  union : UnionStmt → M (Option Plan)

/-- The zero-fuel entries: recursion depth exhausted. -/
def crashFns : BuildFns :=
  ⟨fun _ => crashM .outOfFuel, fun _ => crashM .outOfFuel, fun _ => crashM .outOfFuel,
    fun _ => crashM .outOfFuel, fun _ => crashM .outOfFuel, fun _ => crashM .outOfFuel⟩

/-- One unfolding of the mutual recursion. -/
def buildStep (env : Env) (rec : BuildFns) : BuildFns where
  /- `buildSelect(sel)` (lines 1043-1153): hint-frame push, the pipeline
  body, and the deferred hint-frame pop (which Go's `defer` runs on every
  return path of the body). -/
  select sel :=
    (match sel.tableHints with
      | [] => pure false
      | hs => pushTableHints hs) >>= fun pushed =>
    rec.selectBody sel >>= fun r =>
    (if pushed then popTableHints else pure ()) >>= fun _ =>
    pure r
  /- The body of `buildSelect` between the hint push and the deferred pop
  (lines 1051-1152): the lock counter, agg detection and the FROM build,
  followed by the substate-level pipeline `buildSelectRest`. -/
  selectBody sel := do
    if sel.lockTp == .forUpdate then liftS (addNeedColHandle 1)
    let hasAgg := env.detectSelectAgg sel
    let p0 ←
      match sel.fromRefs with
      | some refs => rec.rsn (.join refs)
      | none => liftS buildTableDual
    liftS (buildSelectRest env sel hasAgg p0)
  /- `buildResultSetNode(node)` (lines 112-150). -/
  rsn node :=
    match node with
    | .join j => rec.join j
    | .selectStmt s => rec.select s
    | .unionStmt u => rec.union u
    | .unsupported => do
      liftS (setErr .unsupportedType)
      pure none
    | .tableSource src asName => do
      let p ←
        match src with
        | .selectStmt s => rec.select s
        | .unionStmt u => rec.union u
        | .tableName t => liftS (buildDataSource env t)
        | .unsupported => do
          liftS (setErr .unsupportedType)
          pure none
      if src matches .unsupported then pure none
      else liftS (rsnTableSourceRest asName p)
  /- `buildJoin(join)` (lines 219-296).  Note that the source checks
  `b.err` nowhere in this function: a failed child build leaves a nil child
  plan that `extractTableAlias` dereferences. -/
  join j :=
    match j.right with
    | none => rec.rsn j.left
    | some rightNode => do
      liftS (orOptFlag flagPredicatePushDown)
      let leftPlan ← rec.rsn j.left
      let rightPlan ← rec.rsn rightNode
      let leftAlias ← liftS (liftExcept (extractTableAlias leftPlan))
      let rightAlias ← liftS (liftExcept (extractTableAlias rightPlan))
      let lpl ← getPlanM leftPlan
      let rpl ← getPlanM rightPlan
      let joinId ← liftS (allocID "Join")
      let topHint ← tableHintsTop
      liftS (buildJoinRest env j lpl rpl joinId topHint leftAlias rightAlias)
  /- The child-build loop of `buildUnion` (lines 526-531). -/
  unionSelects sels :=
    match sels with
    | [] => pure (some [])
    | sel :: rest => do
      let c ← rec.select sel
      let e ← getErrM
      if e.isSome then pure none
      else do
        match ← rec.unionSelects rest with
        | none => pure none
        | some cs => pure (some (c :: cs))
  /- `buildUnion(union)` (lines 523-589). -/
  union u := do
    let uId ← liftS (allocID "Union")
    match ← rec.unionSelects u.selects with
    | none => pure none
    | some children => liftS (buildUnionRest env u uId children)

/-- The fuel-indexed builder entries. -/
def buildFns (env : Env) : Nat → BuildFns
  | 0 => crashFns
  | fuel + 1 => buildStep env (buildFns env fuel)

def buildSelect (env : Env) (fuel : Nat) (sel : SelectStmt) : M (Option Plan) :=
  (buildFns env fuel).select sel

def buildSelectBody (env : Env) (fuel : Nat) (sel : SelectStmt) : M (Option Plan) :=
  (buildFns env fuel).selectBody sel

def buildResultSetNode (env : Env) (fuel : Nat) (node : RSNode) : M (Option Plan) :=
  (buildFns env fuel).rsn node

def buildJoin (env : Env) (fuel : Nat) (j : AstJoin) : M (Option Plan) :=
  (buildFns env fuel).join j

def buildUnionSelects (env : Env) (fuel : Nat) (sels : List SelectStmt) :
    M (Option (List (Option Plan))) :=
  (buildFns env fuel).unionSelects sels

def buildUnion (env : Env) (fuel : Nat) (u : UnionStmt) : M (Option Plan) :=
  (buildFns env fuel).union u

/-! ## The spec-side resolve-fields-first policy (claim C3) -/

/-- The resolve-fields-first decision as the spec words it: fields first iff
not inside an aggregate, and not in the ORDER BY phase inside a compound
expression, and the column does not also name a GROUP BY item. -/
def specResolveFieldsFirst (inAggFunc orderBy inExpr : Bool)
    (gbyItems : List ByItem) (v : ColumnName) : Bool :=
  !inAggFunc && !(orderBy && inExpr) &&
    !(gbyItems.any fun item =>
        match item.expr with
        | .columnNameExpr nm _ => colMatch v nm || colMatch nm v
        | _ => false)

/-! ## Proof-kit predicates -/

/-- Hint-stack preservation of a full-state computation. -/
def HintPres {α : Type} (m : M α) : Prop :=
  ∀ s a s1, m s = .ok (a, s1) → s1.tableHintInfo = s.tableHintInfo

/-- A nil plan result exactly when the latched error is set on return. -/
def ResInv (m : MS (Option Plan)) : Prop := ∀ s p s1, m s = .ok (p, s1) →
  (p = none → s1.err ≠ none) ∧ (p ≠ none → s1.err = none)

/-- `ResInv`, guaranteed only from an error-free start. -/
def FreeResInv (m : MS (Option Plan)) : Prop := ∀ s, s.err = none → ∀ p s1,
    m s = .ok (p, s1) →
  (p = none → s1.err ≠ none) ∧ (p ≠ none → s1.err = none)

/-- A nil plan result only with the latched error set, and a non-nil plan
result only with the latched error untouched — at every entry state. -/
def NilErr (m : MS (Option Plan)) : Prop := ∀ s p s1, m s = .ok (p, s1) →
  (p = none → s1.err ≠ none) ∧ (p ≠ none → s1.err = s.err)

/-- The latched-error discipline of a full-state plan builder: entered with
the error latched it yields a nil plan and keeps the latch; entered clean it
yields a nil plan exactly when it latches an error. -/
def POk (m : M (Option Plan)) : Prop := ∀ s p s1, m s = .ok (p, s1) →
  (s.sub.err ≠ none → p = none ∧ s1.sub.err ≠ none) ∧
  (s.sub.err = none → (p = none → s1.sub.err ≠ none) ∧ (p ≠ none → s1.sub.err = none))

/-- The latched-error discipline of the union child-build loop (whose
result is a list of child plans; on an error-latched entry with a non-empty
select list it yields `none`, and with an empty list `some []`). -/
def POkList (m : M (Option (List (Option Plan)))) : Prop := ∀ s r s1, m s = .ok (r, s1) →
  (s.sub.err ≠ none → s1.sub.err ≠ none ∧ (r = none ∨ r = some [])) ∧
  (s.sub.err = none → (r = none → s1.sub.err ≠ none) ∧ (r ≠ none → s1.sub.err = none))

/-- `POk`/`POkList` for all six builder entries of a `BuildFns` tuple. -/
def RecOK (r : BuildFns) : Prop :=
  (∀ sel, POk (r.select sel)) ∧ (∀ sel, POk (r.selectBody sel)) ∧
  (∀ node, POk (r.rsn node)) ∧ (∀ j, POk (r.join j)) ∧
  (∀ sels, POkList (r.unionSelects sels)) ∧ (∀ u, POk (r.union u))

/-! ## Concrete sample inputs for the claim instances -/

/-- An environment whose oracles answer trivially: the rewriter returns a
null constant and leaves the plan alone, the catalog is empty. -/
def defaultEnv : Env :=
  { rewrite := fun _ p _ _ => ⟨.constant .null (NewFieldType 0), p, none⟩
    splitCNFItems := fun e => [e]
    newFunction := fun f tp args => .ok (.scalar f tp args)
    mergeFieldType := fun a _ => a
    findColumn := fun _ _ => .ok none
    strToUint := fun _ => .error (.external "nan")
    tableByName := fun _ _ => .error (.external "no table")
    statsHandlePresent := true
    currentDB := "test"
    txnPresent := false
    txnReadOnly := true
    useDAG := false
    detectSelectAgg := fun _ => false
    aggExtract := fun e => (e, [])
    trimComment := fun s => s
    trimNonGraphic := fun s => s
    aggFuncType := fun _ _ _ => NewFieldType 0
    aggEqual := fun _ _ => false }

/-- A `CIStr` whose text is already lowercase, written literally so that the
sample runs below evaluate definitionally. -/
def LitCIStr (s : String) : CIStr := ⟨s, s⟩

def mkCol (owner nm : String) (pos : Nat) : Column :=
  ⟨owner, LitCIStr nm, LitCIStr "t", LitCIStr "", NewFieldType 0, pos, false, 0, 0⟩

/-- A two-column left child: columns `x`, `a`. -/
def lp1 : Plan := Plan.node .dataSource "dsl" (NewSchema [mkCol "dsl" "x" 0, mkCol "dsl" "a" 1]) [] {}

/-- A two-column right child: columns `a`, `y`. -/
def rp1 : Plan := Plan.node .dataSource "dsr" (NewSchema [mkCol "dsr" "a" 0, mkCol "dsr" "y" 1]) [] {}

/-- A one-column plan (for the union arity mismatch). -/
def rp2 : Plan := Plan.node .dataSource "dsr2" (NewSchema [mkCol "dsr2" "z" 0]) [] {}

/-- A bare join node for the coalescing step. -/
def jp1 : Plan := Plan.node .join "j" (NewSchema []) [] {}

/-- A one-column table `t` in the catalog. -/
def tmeta : TableMeta := ⟨LitCIStr "t", 7, false, [⟨LitCIStr "c1", NewFieldType 3, false, 11⟩], []⟩

/-- `defaultEnv` with table `t` resolvable. -/
def envDS : Env := { defaultEnv with tableByName := fun _ _ => .ok tmeta }

def tn0 : TableName := ⟨LitCIStr "", LitCIStr "t", 7⟩

/-- The unqualified column name `a`. -/
def cnA : ColumnName := ⟨LitCIStr "", LitCIStr "", LitCIStr "a"⟩

/-- `GROUP BY a`. -/
def gbyA : ByItem := ⟨.columnNameExpr cnA none, false⟩

/-- A substate with an error already latched. -/
def errSub : SubState := { err := some (.external "boom") }

/-- The pair `buildDataSource` returns from the empty (error-free) substate
on the one-table catalog (the run never Go-panics). -/
def dsPairOk : Option Plan × SubState :=
  match buildDataSource envDS tn0 {} with
  | .ok pr => pr
  | .error _ => (none, {})

/-- The pair `buildDataSource` returns from the error-latched substate. -/
def dsPairErr : Option Plan × SubState :=
  match buildDataSource envDS tn0 errSub with
  | .ok pr => pr
  | .error _ => (none, errSub)

/-- The output schema column names of the natural join of `lp1` (columns
`x`, `a`) with `rp1` (columns `a`, `y`), as the code computes them. -/
def c1CodeNames : List String :=
  match coalesceCommonColumns defaultEnv jp1 lp1 rp1 false [] with
  | .ok (.ok p2) => p2.schema.columns.map fun c => c.colName.l
  | _ => []

/-- The same output names with the rotation as the spec words it (matched
left column at the walk index, matched right column at the match index). -/
def c1SpecNames : List String :=
  match coalesceLoopSpec lp1.schema.clone.columns.length lp1.schema.clone.columns
      rp1.schema.clone.columns 0 [] 0 with
  | .ok (lCols, rCols, commonLen, _) =>
    (lCols ++ rCols.drop commonLen).map fun c => c.colName.l
  | .error _ => []

/-- The run of `buildAggregation` with no aggregates over `lp1`, from the
empty substate. -/
def c2Run : (Option Plan × List (Nat × Nat)) × SubState :=
  match buildAggregation defaultEnv (some lp1) [] [] {} with
  | .ok pr => pr
  | .error _ => ((none, []), {})

/-- The Aggregation plan that run returns. -/
def c2Plan : Plan :=
  match c2Run.1.1 with
  | some q => q
  | none => jp1

/-- An empty UNION statement shell (no ORDER BY / LIMIT, ALL semantics). -/
def u0 : UnionStmt := .mk [] false none none

/-- `buildUnionRest` on a two-column first branch and a one-column second
branch: the arity mismatch. -/
def c5Pair : Option Plan × SubState :=
  match buildUnionRest defaultEnv u0 "Union_1" [some lp1, some rp2] {} with
  | .ok pr => pr
  | .error _ => (none, {})

/-- A LIMIT clause with a negative signed OFFSET. -/
def lim1 : LimitClause := ⟨some (.i64 (-1)), none⟩

/-- The run of `buildLimit` on that clause from the empty substate. -/
def c6Pair : Option Plan × SubState :=
  match buildLimit defaultEnv (some lp1) lim1 {} with
  | .ok pr => pr
  | .error _ => (none, {})

/-- An environment whose rewriter erases every conjunct (nil result). -/
def envNil : Env := { defaultEnv with rewrite := fun _ p _ _ => ⟨.nilExpr, p, none⟩ }

/-- A sample conjunct. -/
def w1 : AstExpr := .value (.i64 1) "1"

/-- `buildSelection` under the erasing rewriter on `w1 AND w1`. -/
def c7Pair : Option Plan × SubState :=
  match buildSelection envNil (some lp1) (some (.binOp LogicAnd w1 w1)) none {} with
  | .ok pr => pr
  | .error _ => (none, {})

/-- An auxiliary (builder-added) select field. -/
def auxF : SelectField := ⟨w1, LitCIStr "", true, none, ""⟩

/-- A bare-star wildcard and a select field carrying it. -/
def wcBare : WildCard := ⟨LitCIStr "", LitCIStr ""⟩

def starF : SelectField := ⟨w1, LitCIStr "", false, some wcBare, ""⟩

/-! ## Proof kit: running the monads -/

theorem MS_bind_apply {α β : Type} (m : MS α) (k : α → MS β) (s : SubState) :
    (m >>= k) s =
      match m s with
      | .error e => .error e
      | .ok (a, s1) => k a s1 := rfl

theorem MS_pure_apply {α : Type} (a : α) (s : SubState) : (pure a : MS α) s = .ok (a, s) := rfl

theorem MS_bind_ok {α β : Type} {m : MS α} {k : α → MS β} {s : SubState} {a : α}
    {t : SubState} (h1 : m s = .ok (a, t)) : (m >>= k) s = k a t := by
  show (match m s with
    | .error e => .error e
    | .ok (a, s1) => k a s1) = k a t
  rw [h1]

theorem M_bind_apply {α β : Type} (m : M α) (k : α → M β) (s : BState) :
    (m >>= k) s =
      match m s with
      | .error e => .error e
      | .ok (a, s1) => k a s1 := rfl

theorem M_pure_apply {α : Type} (a : α) (s : BState) : (pure a : M α) s = .ok (a, s) := rfl

theorem M_pure_bind_apply {α β : Type} (a : α) (k : α → M β) (s : BState) :
    ((pure a : M α) >>= k) s = k a s := rfl

theorem liftS_apply {α : Type} (m : MS α) (s : BState) :
    liftS m s =
      match m s.sub with
      | .error e => .error e
      | .ok (a, sb) => .ok (a, { s with sub := sb }) := rfl

theorem HintPres.bind {α β : Type} {m : M α} {k : α → M β}
    (hm : HintPres m) (hk : ∀ a, HintPres (k a)) : HintPres (m >>= k) := by
  intro s b s2 h
  rw [M_bind_apply] at h
  cases h1 : m s with
  | error e => rw [h1] at h; cases h
  | ok v =>
    rw [h1] at h
    exact (hk v.1 v.2 b s2 h).trans (hm s v.1 v.2 h1)

theorem HintPres.pure {α : Type} (a : α) : HintPres (pure a : M α) := by
  intro s b s2 h
  cases h
  rfl

theorem HintPres.liftS {α : Type} (m : MS α) : HintPres (TidbPlan.liftS m) := by
  intro s a s1 h
  rw [liftS_apply] at h
  cases h1 : m s.sub with
  | error e => rw [h1] at h; cases h
  | ok v => rw [h1] at h; cases h; rfl

theorem HintPres.crashM {α : Type} (e : Crash) : HintPres (TidbPlan.crashM e : M α) := by
  intro s a s1 h
  cases h

theorem HintPres.getPlanM (p : Option Plan) : HintPres (TidbPlan.getPlanM p) := by
  intro s a s1 h
  cases p with
  | none => cases h
  | some q => cases h; rfl

theorem HintPres.getErrM : HintPres TidbPlan.getErrM := HintPres.liftS _

theorem HintPres.tableHintsTop : HintPres TidbPlan.tableHintsTop := by
  intro s a s1 h
  unfold TidbPlan.tableHintsTop at h
  by_cases he : s.tableHintInfo.isEmpty <;> simp [he] at h <;> rw [← h.2]

theorem HintPres.bail {k : M (Option Plan)} (hk : HintPres k) : HintPres (TidbPlan.bail k) := by
  intro s a s1 h
  unfold TidbPlan.bail at h
  by_cases he : s.sub.err.isSome
  · simp [he] at h
    rw [← h.2]
  · simp [he] at h
    exact hk s a s1 h

theorem HintPres.bailIf {c : Bool} {k : M (Option Plan)} (hk : HintPres k) :
    HintPres (TidbPlan.bailIf c k) := by
  intro s a s1 h
  unfold TidbPlan.bailIf at h
  by_cases he : c && s.sub.err.isSome
  · simp [he] at h
    rw [← h.2]
  · simp [he] at h
    exact hk s a s1 h

theorem HintPres.ite {α : Type} {c : Prop} [Decidable c] {m k : M α}
    (hm : HintPres m) (hk : HintPres k) : HintPres (if c then m else k) := by
  by_cases h : c <;> simp [h] <;> assumption

/-- The push of `pushTableHints` appends one frame exactly when a
recognized hint contributed a table. -/
theorem pushTableHints_spec (hints : List TableHint) (s : BState) (b : Bool) (s1 : BState)
    (h : pushTableHints hints s = .ok (b, s1)) :
    (b = true →
        s1.tableHintInfo = s.tableHintInfo ++
          [⟨(collectHintTables hints).1, (collectHintTables hints).2⟩] ∧
        ((collectHintTables hints).1 ≠ [] ∨ (collectHintTables hints).2 ≠ [])) ∧
    (b = false → s1 = s) := by
  unfold pushTableHints at h
  by_cases hc : ((collectHintTables hints).1.length != 0 ||
      (collectHintTables hints).2.length != 0) = true
  · rw [if_pos hc] at h
    have h2 := Except.ok.inj h
    have hb : true = b := congrArg Prod.fst h2
    have hs := congrArg Prod.snd h2
    dsimp only at hs
    constructor
    · intro _
      constructor
      · rw [← hs]
      · have hc2 : ¬((collectHintTables hints).1.length = 0 ∧
            (collectHintTables hints).2.length = 0) := by
          intro hcon
          simp [hcon.1, hcon.2] at hc
        by_cases h1 : (collectHintTables hints).1.length = 0
        · right
          intro he
          exact hc2 ⟨h1, by simp [he]⟩
        · left
          intro he
          exact h1 (by simp [he])
    · intro hb2
      rw [← hb] at hb2
      cases hb2
  · rw [if_neg hc] at h
    have h2 := Except.ok.inj h
    have hb : false = b := congrArg Prod.fst h2
    have hs := congrArg Prod.snd h2
    dsimp only at hs
    constructor
    · intro hb2
      rw [← hb] at hb2
      cases hb2
    · intro _
      rw [← hs]

theorem ok_pair_inj {α σ : Type} {x : α × σ} {a : α} {s1 : σ}
    (h : (Except.ok x : Except Crash (α × σ)) = .ok (a, s1)) : x.1 = a ∧ x.2 = s1 := by
  have h2 := Except.ok.inj h
  constructor
  · exact congrArg Prod.fst h2
  · exact congrArg Prod.snd h2

theorem popTableHints_spec (s : BState) (u : Unit) (s1 : BState)
    (h : popTableHints s = .ok (u, s1)) :
    s1.tableHintInfo = s.tableHintInfo.dropLast := by
  unfold popTableHints at h
  by_cases he : s.tableHintInfo.isEmpty
  · rw [if_pos he] at h
    cases h
  · rw [if_neg he] at h
    have h2 := (ok_pair_inj h).2
    rw [← h2]


/-- Hint-stack preservation of every builder entry, by fuel induction:
`buildSelect` pushes at most one frame and its deferred pop removes exactly
that frame; everything else either lives in the substate or only reads the
stack. -/
theorem hintPres_all (env : Env) : ∀ fuel : Nat,
    (∀ sel, HintPres ((buildFns env fuel).select sel)) ∧
    (∀ sel, HintPres ((buildFns env fuel).selectBody sel)) ∧
    (∀ node, HintPres ((buildFns env fuel).rsn node)) ∧
    (∀ j, HintPres ((buildFns env fuel).join j)) ∧
    (∀ sels, HintPres ((buildFns env fuel).unionSelects sels)) ∧
    (∀ u, HintPres ((buildFns env fuel).union u)) := by
  intro fuel
  induction fuel with
  | zero =>
    exact ⟨fun _ => HintPres.crashM _, fun _ => HintPres.crashM _, fun _ => HintPres.crashM _,
      fun _ => HintPres.crashM _, fun _ => HintPres.crashM _, fun _ => HintPres.crashM _⟩
  | succ fuel ih =>
    obtain ⟨ihS, ihB, ihR, ihJ, ihUS, ihU⟩ := ih
    have hBody : ∀ sel, HintPres ((buildFns env (fuel + 1)).selectBody sel) := by
      intro sel
      simp only [buildFns, buildStep]
      apply HintPres.ite <;>
        · apply HintPres.bind
          · first
            | exact HintPres.liftS _
            | exact HintPres.pure _
          intro u
          cases sel.fromRefs with
          | some refs =>
            apply HintPres.bind (ihR _)
            intro p0
            exact HintPres.liftS _
          | none =>
            apply HintPres.bind (HintPres.liftS _)
            intro p0
            exact HintPres.liftS _
    have hSel : ∀ sel, HintPres ((buildFns env (fuel + 1)).select sel) := by
      intro sel
      intro s a s1 h
      simp only [buildFns, buildStep] at h
      rw [M_bind_apply] at h
      cases hts : sel.tableHints with
      | nil =>
        rw [hts] at h
        dsimp only at h
        rw [M_bind_apply] at h
        cases hb : (buildFns env fuel).selectBody sel s with
        | error e =>
          rw [hb] at h
          cases h
        | ok v =>
          rw [hb] at h
          have hv := ihB sel s v.1 v.2 (by rw [hb])
          simp only [Bool.false_eq_true, if_false] at h
          rw [M_pure_bind_apply, M_pure_apply] at h
          have := (ok_pair_inj h).2
          rw [← this]
          exact hv
      | cons h0 hrest =>
        rw [hts] at h
        dsimp only at h
        cases hp : pushTableHints (h0 :: hrest) s with
        | error e =>
          unfold pushTableHints at hp
          by_cases hc : ((collectHintTables (h0 :: hrest)).1.length != 0 ||
              (collectHintTables (h0 :: hrest)).2.length != 0) = true
          · rw [if_pos hc] at hp
            cases hp
          · rw [if_neg hc] at hp
            cases hp
        | ok v =>
          rw [hp] at h
          obtain ⟨pushed, s2⟩ := v
          have hspec := pushTableHints_spec (h0 :: hrest) s pushed s2 hp
          dsimp only at h
          rw [M_bind_apply] at h
          cases hb : (buildFns env fuel).selectBody sel s2 with
          | error e =>
            rw [hb] at h
            cases h
          | ok w =>
            rw [hb] at h
            obtain ⟨r, s3⟩ := w
            have hw : s3.tableHintInfo = s2.tableHintInfo := ihB sel s2 r s3 hb
            cases pushed with
            | false =>
              simp only [Bool.false_eq_true, if_false] at h
              rw [M_pure_bind_apply, M_pure_apply] at h
              have := (ok_pair_inj h).2
              rw [← this, hw, (hspec.2 rfl)]
            | true =>
              simp only [if_true] at h
              rw [M_bind_apply] at h
              cases hpop : popTableHints s3 with
              | error e =>
                rw [hpop] at h
                cases h
              | ok pv =>
                rw [hpop] at h
                dsimp only at h
                rw [M_pure_apply] at h
                have h4 := (ok_pair_inj h).2
                have h5 := popTableHints_spec s3 pv.1 pv.2 hpop
                rw [← h4, h5, hw, (hspec.1 rfl).1]
                exact List.dropLast_concat
    have hRSN : ∀ node, HintPres ((buildFns env (fuel + 1)).rsn node) := by
      intro node
      cases node with
      | join j => simpa only [buildFns, buildStep] using ihJ j
      | selectStmt s => simpa only [buildFns, buildStep] using ihS s
      | unionStmt u => simpa only [buildFns, buildStep] using ihU u
      | unsupported =>
        simp only [buildFns, buildStep]
        exact HintPres.bind (HintPres.liftS _) fun _ => HintPres.pure _
      | tableSource src asName =>
        simp only [buildFns, buildStep]
        cases src with
        | selectStmt s =>
          apply HintPres.bind (ihS s)
          intro p
          exact HintPres.ite (HintPres.pure _) (HintPres.liftS _)
        | unionStmt u =>
          apply HintPres.bind (ihU u)
          intro p
          exact HintPres.ite (HintPres.pure _) (HintPres.liftS _)
        | tableName t =>
          apply HintPres.bind (HintPres.liftS _)
          intro p
          exact HintPres.ite (HintPres.pure _) (HintPres.liftS _)
        | unsupported =>
          apply HintPres.bind (HintPres.liftS _)
          intro u
          apply HintPres.bind (HintPres.pure _)
          intro p
          exact HintPres.ite (HintPres.pure _) (HintPres.liftS _)
    have hJoin : ∀ j, HintPres ((buildFns env (fuel + 1)).join j) := by
      intro j
      simp only [buildFns, buildStep]
      split
      · exact ihR _
      · apply HintPres.bind (HintPres.liftS _)
        intro _
        apply HintPres.bind (ihR _)
        intro leftPlan
        apply HintPres.bind (ihR _)
        intro rightPlan
        apply HintPres.bind (HintPres.liftS _)
        intro leftAlias
        apply HintPres.bind (HintPres.liftS _)
        intro rightAlias
        apply HintPres.bind (HintPres.getPlanM _)
        intro lpl
        apply HintPres.bind (HintPres.getPlanM _)
        intro rpl
        apply HintPres.bind (HintPres.liftS _)
        intro joinId
        apply HintPres.bind HintPres.tableHintsTop
        intro topHint
        exact HintPres.liftS _
    have hUS : ∀ sels, HintPres ((buildFns env (fuel + 1)).unionSelects sels) := by
      intro sels
      cases sels with
      | nil =>
        simp only [buildFns, buildStep]
        exact HintPres.pure _
      | cons sel rest =>
        simp only [buildFns, buildStep]
        apply HintPres.bind (ihS sel)
        intro c
        apply HintPres.bind HintPres.getErrM
        intro e
        split
        · exact HintPres.pure _
        · apply HintPres.bind (ihUS rest)
          intro r
          split
          · exact HintPres.pure _
          · exact HintPres.pure _
    have hU : ∀ u, HintPres ((buildFns env (fuel + 1)).union u) := by
      intro u
      simp only [buildFns, buildStep]
      apply HintPres.bind (HintPres.liftS _)
      intro uId
      apply HintPres.bind (ihUS _)
      intro r
      split
      · exact HintPres.pure _
      · exact HintPres.liftS _
    exact ⟨hSel, hBody, hRSN, hJoin, hUS, hU⟩

/-! ## Proof kit: the latched error versus the returned plan -/

theorem MS_pure_bind_apply {α β : Type} (a : α) (k : α → MS β) (s : SubState) :
    ((pure a : MS α) >>= k) s = k a s := rfl

theorem bailIfS_true (k : MS (Option Plan)) : bailIfS true k = bailS k := rfl

theorem bailIfS_false (k : MS (Option Plan)) : bailIfS false k = k := rfl

theorem ResInv.freeResInv {m : MS (Option Plan)} (h : ResInv m) : FreeResInv m :=
  fun s _ => h s

theorem ResInv.bind_right {α : Type} {m : MS α} {k : α → MS (Option Plan)}
    (hk : ∀ a, ResInv (k a)) : ResInv (m >>= k) := by
  intro s p s1 h
  rw [MS_bind_apply] at h
  cases h1 : m s with
  | error e =>
    rw [h1] at h
    cases h
  | ok v =>
    rw [h1] at h
    exact hk v.1 v.2 p s1 h

theorem ResInv.bailS {k : MS (Option Plan)} (hk : FreeResInv k) :
    ResInv (TidbPlan.bailS k) := by
  intro s p s1 h
  unfold TidbPlan.bailS at h
  by_cases he : s.err.isSome = true
  · rw [if_pos he] at h
    obtain ⟨h1, h2⟩ := ok_pair_inj h
    constructor
    · intro _
      rw [← h2]
      exact Option.isSome_iff_ne_none.mp he
    · intro hp
      exact absurd h1.symm hp
  · rw [if_neg he] at h
    exact hk s (Option.not_isSome_iff_eq_none.mp (by simpa using he)) p s1 h

theorem ResInv.chainBail {α : Type} {m : MS α} {k : α → MS (Option Plan)}
    (hk : ∀ a, FreeResInv (k a)) : ResInv (m >>= fun a => TidbPlan.bailS (k a)) :=
  ResInv.bind_right fun a => ResInv.bailS (hk a)

/-- Small substate operations, as rewriting equations. -/
theorem setErr_apply (e : Err) (s : SubState) :
    setErr e s = .ok ((), { s with err := some e }) := rfl

theorem getErr_apply (s : SubState) : getErr s = .ok (s.err, s) := rfl

theorem orOptFlag_apply (f : Nat) (s : SubState) :
    orOptFlag f s = .ok ((), { s with optFlag := s.optFlag ||| f }) := rfl

theorem allocID_apply (tag : String) (s : SubState) :
    allocID tag s =
      .ok (tag ++ "_" ++ toString (s.allocated + 1), { s with allocated := s.allocated + 1 }) :=
  rfl

theorem addNeedColHandle_apply (d : Int) (s : SubState) :
    addNeedColHandle d s = .ok ((), { s with needColHandle := s.needColHandle + d }) := rfl

theorem getSub_apply (s : SubState) : getSub s = .ok (s, s) := rfl

theorem appendVisit_apply (v : VisitInfo) (s : SubState) :
    appendVisit v s = .ok ((), { s with visitInfo := s.visitInfo ++ [v] }) := rfl

theorem setColMapper_apply (m : List (ColumnName × Nat)) (s : SubState) :
    setColMapper m s = .ok ((), { s with colMapper := m }) := rfl

theorem getPlan_some_apply (q : Plan) (s : SubState) : getPlan (some q) s = .ok (q, s) := rfl

theorem getPlan_none_apply (s : SubState) : getPlan (none : Option Plan) s = .error .nilDeref :=
  rfl

theorem liftExcept_apply {α : Type} (e : Except Crash α) (s : SubState) :
    liftExcept e s =
      match e with
      | .error c => .error c
      | .ok v => .ok (v, s) := rfl

/-- `splitWhereExpr` never yields an empty conjunct list. -/
theorem splitWhereExpr_ne_nil : ∀ e : AstExpr, splitWhereExpr e ≠ []
  | .binOp op l r => by
    rw [splitWhereExpr]
    by_cases hop : (op == LogicAnd) = true
    · rw [if_pos hop]
      intro hc
      exact splitWhereExpr_ne_nil l (List.append_eq_nil.mp hc).1
    · rw [if_neg hop]
      simp
  | .paren inner => by
    rw [splitWhereExpr]
    exact splitWhereExpr_ne_nil inner
  | .columnNameExpr nm tp => by simp [splitWhereExpr]
  | .aggregateFunc f args d => by simp [splitWhereExpr]
  | .value d t => by simp [splitWhereExpr]
  | .subquery => by simp [splitWhereExpr]
  | .existsSubquery => by simp [splitWhereExpr]
  | .compareSubquery => by simp [splitWhereExpr]
  | .paramMarker => by simp [splitWhereExpr]
  | .positionExpr n => by simp [splitWhereExpr]
  | .other t => by simp [splitWhereExpr]

theorem NilErr.toFreeResInv {m : MS (Option Plan)} (h : NilErr m) : FreeResInv m :=
  fun s hs p s1 hm =>
    ⟨(h s p s1 hm).1, fun hp => ((h s p s1 hm).2 hp).trans hs⟩

/-- A conditional check-and-bail in front of a `ResInv` computation only adds
one more nil-with-error exit. -/
theorem ResInv.bailIfS {c : Bool} {k : MS (Option Plan)} (hk : ResInv k) :
    ResInv (TidbPlan.bailIfS c k) := by
  intro s p s1 h
  unfold TidbPlan.bailIfS at h
  by_cases hc : (c && s.err.isSome) = true
  · rw [if_pos hc] at h
    obtain ⟨h1, h2⟩ := ok_pair_inj h
    constructor
    · intro _
      rw [← h2]
      exact Option.isSome_iff_ne_none.mp (Bool.and_elim_right hc)
    · intro hp
      exact absurd h1.symm hp
  · rw [if_neg hc] at h
    exact hk s p s1 h

/-- One conditional step of the `buildSelect` tail: the step either did not
run (the condition is false and the step is a pure pass-through) or it ran
and the matching check-and-bail follows it. -/
theorem FreeResInv.selStep {c : Bool} {m : MS (Option Plan)}
    {k : Option Plan → MS (Option Plan)} {p : Option Plan}
    (hb : c = false → m = pure p) (hk : ∀ q, FreeResInv (k q)) :
    FreeResInv (m >>= fun q => TidbPlan.bailIfS c (k q)) := by
  cases c with
  | true => exact ResInv.freeResInv (ResInv.chainBail hk)
  | false =>
    rw [hb rfl]
    intro s hs p1 s1 h
    rw [MS_pure_bind_apply] at h
    exact hk p s hs p1 s1 h

/-- Sequencing an always-succeeding, error-preserving step in front of a
`FreeResInv` continuation. -/
theorem FreeResInv.bind_pre {α : Type} {m : MS α} {k : α → MS (Option Plan)}
    (hm : ∀ s, ∃ a s', m s = .ok (a, s') ∧ s'.err = s.err)
    (hk : ∀ a, FreeResInv (k a)) : FreeResInv (m >>= k) := by
  intro s hs p s1 h
  rw [MS_bind_apply] at h
  obtain ⟨a, s', hrun, herr⟩ := hm s
  rw [hrun] at h
  exact hk a s' (herr.trans hs) p s1 h

/-- The trailing block of `buildSelect` never writes the latched error and
never returns a nil plan. -/
theorem buildSelectFinal_free (sel : SelectStmt) (oldLen : Nat) (p8 : Option Plan) :
    FreeResInv (buildSelectFinal sel oldLen p8) := by
  unfold buildSelectFinal
  apply FreeResInv.bind_pre
  · intro s
    by_cases hl : (sel.lockTp == LockType.forUpdate) = true
    · exact ⟨(), { s with needColHandle := s.needColHandle + (-1) },
        by rw [if_pos hl]; exact addNeedColHandle_apply _ _, rfl⟩
    · exact ⟨(), s, by rw [if_neg hl]; exact MS_pure_apply _ _, rfl⟩
  intro a
  cases p8 with
  | none =>
    intro s hs p s1 h
    exact Except.noConfusion h
  | some pl =>
    intro s hs p s1 h
    simp only [MS_bind_apply, getPlan_some_apply] at h
    split at h
    · split at h
      · exact Except.noConfusion h
      · simp only [MS_bind_apply, allocID_apply, MS_pure_apply] at h
        obtain ⟨h1, h2⟩ := ok_pair_inj h
        subst h1
        refine ⟨fun hpn => Option.noConfusion hpn, fun _ => ?_⟩
        rw [← h2]
        exact hs
    · simp only [MS_pure_apply] at h
      obtain ⟨h1, h2⟩ := ok_pair_inj h
      subst h1
      refine ⟨fun hpn => Option.noConfusion hpn, fun _ => ?_⟩
      rw [← h2]
      exact hs

/-- Entered error-free, the having/distinct/sort/limit tail of `buildSelect`
returns a nil plan exactly when it latches an error: each of its steps runs
exactly when its clause is present, and a check-and-bail follows exactly the
steps that ran. -/
theorem buildSelectTail_free (env : Env) (sel : SelectStmt) (having2 : Option AstExpr)
    (order2 : Option (List ByItem)) (havingMap orderMap : AggMapper)
    (oldLen : Nat) (p4 : Option Plan) :
    FreeResInv (buildSelectTail env sel having2 order2 havingMap orderMap oldLen p4) := by
  unfold buildSelectTail
  apply FreeResInv.selStep
  · intro hc
    cases having2 with
    | none => rfl
    | some hv => simp at hc
  intro p5
  apply FreeResInv.selStep
  · intro hc
    rw [hc]
    rfl
  intro p6
  apply FreeResInv.selStep
  · intro hc
    cases order2 with
    | none => rfl
    | some items => simp at hc
  intro p7
  apply FreeResInv.selStep
  · intro hc
    cases hl : sel.limit with
    | none => rfl
    | some lim => rw [hl] at hc; simp at hc
  intro p8
  exact buildSelectFinal_free sel oldLen p8

/-- The whole post-FROM pipeline of `buildSelect` returns a nil plan exactly
when the latched error is set on return, at every entry state: the leading
check-and-bail covers an error-latched entry, and the unconditional
check-and-bail after the projection covers every error latched by the
unchecked resolver steps before it. -/
theorem buildSelectRest_resInv (env : Env) (sel : SelectStmt) (hasAgg : Bool)
    (p0 : Option Plan) : ResInv (buildSelectRest env sel hasAgg p0) := by
  unfold buildSelectRest
  apply ResInv.bailS
  apply ResInv.freeResInv
  apply ResInv.chainBail
  intro fields1
  apply ResInv.freeResInv
  apply ResInv.chainBail
  intro gbyStep
  apply ResInv.freeResInv
  apply ResInv.bind_right
  intro hoStep
  apply ResInv.bind_right
  intro p2
  apply ResInv.bailIfS
  apply ResInv.bind_right
  intro p3
  apply ResInv.bind_right
  intro aggStep
  apply ResInv.bailIfS
  apply ResInv.bind_right
  intro p4totalMap
  apply ResInv.bailIfS
  apply ResInv.chainBail
  intro projStep
  exact buildSelectTail_free env sel hoStep.2.1 hoStep.2.2.1 hoStep.2.2.2.1 hoStep.2.2.2.2
    projStep.2 projStep.1

/-- `buildDataSource` returns a nil plan only after latching the catalog
error, and a non-nil plan without touching the latched error — in
particular it performs no check of an error latched before it ran. -/
theorem buildDataSource_nilErr (env : Env) (tn : TableName) :
    NilErr (buildDataSource env tn) := by
  intro s p s1 h
  unfold buildDataSource at h
  revert h
  cases htb : env.tableByName (dsSchemaName env tn) tn.name with
  | error e =>
    intro h
    obtain ⟨h1, h2⟩ := ok_pair_inj h
    subst h1
    constructor
    · intro _
      rw [← h2]
      simp
    · intro hp
      exact absurd rfl hp
  | ok tbl =>
    intro h
    obtain ⟨h1, h2⟩ := ok_pair_inj h
    subst h1
    refine ⟨fun hpn => Option.noConfusion hpn, fun _ => ?_⟩
    rw [← h2]

/-- Running the `*ast.TableSource` tail: the check-and-bail, then the
renaming, as one state-level equation. -/
theorem rsnTableSourceRest_run (asName : CIStr) (p : Option Plan) (s : SubState) :
    rsnTableSourceRest asName p s =
      if s.err.isSome then .ok (none, s)
      else
        let p2 := p.map fun pl =>
          if pl.kind == .dataSource then pl.setInfo fun i => { i with tableAsName := asName }
          else pl
        if asName.l != "" then
          match p2 with
          | none => .error .nilDeref
          | some pl =>
            .ok (some (pl.setSchema
              ⟨pl.schema.columns.map fun c => { c with tblName := asName, dbName := NewCIStr "" },
                pl.schema.tblID2Handle⟩), s)
        else .ok (p2, s) := by
  unfold rsnTableSourceRest
  by_cases he : s.err.isSome
  · simp [MS_bind_apply, getErr_apply, he, MS_pure_apply]
  · cases p with
    | none =>
      by_cases ha : (asName.l != "") = true <;>
        simp [MS_bind_apply, getErr_apply, he, ha, crash, MS_pure_apply]
    | some pl =>
      by_cases ha : (asName.l != "") = true <;>
        simp [MS_bind_apply, getErr_apply, he, ha, crash, MS_pure_apply]

/-- The `*ast.TableSource` tail returns a nil plan only with the error
latched, provided a nil child plan implies the error is already latched
(which the builds of the child guarantee); a non-nil result leaves the
latched error untouched. -/
theorem rsnTableSourceRest_inv (asName : CIStr) (p : Option Plan) :
    ∀ s q s1, rsnTableSourceRest asName p s = .ok (q, s1) →
      (p = none → s.err ≠ none) →
      (q = none → s1.err ≠ none) ∧ (q ≠ none → s1.err = s.err) := by
  intro s q s1 h hp
  rw [rsnTableSourceRest_run] at h
  split at h
  next he =>
    obtain ⟨h1, h2⟩ := ok_pair_inj h
    subst h1
    refine ⟨fun _ => ?_, fun hq => absurd rfl hq⟩
    rw [← h2]
    exact Option.isSome_iff_ne_none.mp he
  next he =>
    cases p with
    | none =>
      exact absurd (hp rfl) (by simpa using he)
    | some pl =>
      simp only [Option.map_some] at h
      split at h
      · split at h
        · exact Except.noConfusion h
        · obtain ⟨h1, h2⟩ := ok_pair_inj h
          subst h1
          refine ⟨fun hq => Option.noConfusion hq, fun _ => ?_⟩
          rw [← h2]
      · obtain ⟨h1, h2⟩ := ok_pair_inj h
        subst h1
        refine ⟨fun hq => Option.noConfusion hq, fun _ => ?_⟩
        rw [← h2]

/-- The correlation check and condition attachment for a non-nil rewritten
ON expression: a nil result only after latching the error, a non-nil result
with the latch untouched. -/
theorem joinOnCond_nilErr_aux (env : Env) (jp1 : Plan) (onE : Expr) :
    ∀ s p s1,
      (if onE.isCorrelated then setErr .onConditionSubquery >>= fun _ => pure none
       else
         match attachOnConds jp1 (env.splitCNFItems onE) with
         | .error c => crash c
         | .ok jp => (pure (some jp) : MS (Option Plan))) s = .ok (p, s1) →
      (p = none → s1.err ≠ none) ∧ (p ≠ none → s1.err = s.err) := by
  intro s p s1 h
  split at h
  · obtain ⟨h1, h2⟩ := ok_pair_inj h
    subst h1
    refine ⟨fun _ => ?_, fun hq => absurd rfl hq⟩
    rw [← h2]
    simp
  · revert h
    cases hat : attachOnConds jp1 (env.splitCNFItems onE) with
    | error c =>
      intro h
      exact Except.noConfusion h
    | ok jp =>
      intro h
      obtain ⟨h1, h2⟩ := ok_pair_inj h
      subst h1
      refine ⟨fun hq => Option.noConfusion hq, fun _ => ?_⟩
      rw [← h2]

/-- The condition step of `buildJoin` returns a nil plan only after latching
an error and a non-nil plan only with the latched error untouched. -/
theorem buildJoinCondStep_nilErr (env : Env) (join : AstJoin) (lpl rpl jp1 : Plan) :
    NilErr (buildJoinCondStep env join lpl rpl jp1) := by
  intro s p s1 h
  unfold buildJoinCondStep at h
  split at h
  · revert h
    cases hn : buildNaturalJoin env jp1 lpl rpl join with
    | error c =>
      intro h
      exact Except.noConfusion h
    | ok inner =>
      intro h
      cases inner with
      | error e =>
        obtain ⟨h1, h2⟩ := ok_pair_inj h
        subst h1
        refine ⟨fun _ => ?_, fun hq => absurd rfl hq⟩
        rw [← h2]
        simp
      | ok jp =>
        obtain ⟨h1, h2⟩ := ok_pair_inj h
        subst h1
        refine ⟨fun hq => Option.noConfusion hq, fun _ => ?_⟩
        rw [← h2]
  · split at h
    · revert h
      cases hn : buildUsingClause env jp1 lpl rpl join with
      | error c =>
        intro h
        exact Except.noConfusion h
      | ok inner =>
        intro h
        cases inner with
        | error e =>
          obtain ⟨h1, h2⟩ := ok_pair_inj h
          subst h1
          refine ⟨fun _ => ?_, fun hq => absurd rfl hq⟩
          rw [← h2]
          simp
        | ok jp =>
          obtain ⟨h1, h2⟩ := ok_pair_inj h
          subst h1
          refine ⟨fun hq => Option.noConfusion hq, fun _ => ?_⟩
          rw [← h2]
    · cases ho : join.onExpr with
      | none =>
        rw [ho] at h
        simp only [] at h
        split at h
        · obtain ⟨h1, h2⟩ := ok_pair_inj h
          subst h1
          refine ⟨fun hq => Option.noConfusion hq, fun _ => ?_⟩
          rw [← h2]
        · obtain ⟨h1, h2⟩ := ok_pair_inj h
          subst h1
          refine ⟨fun hq => Option.noConfusion hq, fun _ => ?_⟩
          rw [← h2]
      | some onAst =>
        rw [ho] at h
        simp only [] at h
        cases hre : (env.rewrite onAst jp1 none false).err with
        | some e =>
          rw [hre] at h
          obtain ⟨h1, h2⟩ := ok_pair_inj h
          subst h1
          refine ⟨fun _ => ?_, fun hq => absurd rfl hq⟩
          rw [← h2]
          simp
        | none =>
          rw [hre] at h
          simp only [] at h
          cases hrx : (env.rewrite onAst jp1 none false).expr with
          | nilExpr =>
            rw [hrx] at h
            exact Except.noConfusion h
          | column c =>
            rw [hrx] at h
            exact joinOnCond_nilErr_aux env jp1 (.column c) s p s1 h
          | correlated c =>
            rw [hrx] at h
            exact joinOnCond_nilErr_aux env jp1 (.correlated c) s p s1 h
          | scalar f tp args =>
            rw [hrx] at h
            exact joinOnCond_nilErr_aux env jp1 (.scalar f tp args) s p s1 h
          | constant d tp =>
            rw [hrx] at h
            exact joinOnCond_nilErr_aux env jp1 (.constant d tp) s p s1 h

/-- The condition and join-type steps together keep the `NilErr` discipline. -/
theorem buildJoinConds_nilErr (env : Env) (join : AstJoin) (lpl rpl jp1 : Plan) :
    NilErr (buildJoinConds env join lpl rpl jp1) := by
  intro s p s1 h
  unfold buildJoinConds at h
  rw [MS_bind_apply] at h
  cases hstep : buildJoinCondStep env join lpl rpl jp1 s with
  | error e =>
    rw [hstep] at h
    exact Except.noConfusion h
  | ok v =>
    rw [hstep] at h
    obtain ⟨conded, s'⟩ := v
    have hinv := buildJoinCondStep_nilErr env join lpl rpl jp1 s conded s' hstep
    cases conded with
    | none =>
      obtain ⟨h1, h2⟩ := ok_pair_inj h
      subst h1
      refine ⟨fun _ => ?_, fun hq => absurd rfl hq⟩
      rw [← h2]
      exact hinv.1 rfl
    | some jp2 =>
      obtain ⟨h1, h2⟩ := ok_pair_inj h
      subst h1
      refine ⟨fun hq => Option.noConfusion hq, fun _ => ?_⟩
      rw [← h2]
      exact hinv.2 (fun hc => Option.noConfusion hc)

/-- The hint-preference step: a nil result only with the conflict error
latched; a non-nil result leaves the state untouched. -/
theorem buildJoinHinted_run (joinPlan0 : Plan) (topHint : Option TableHintInfo)
    (leftAlias rightAlias : Option CIStr) :
    ∀ s r s1, buildJoinHinted joinPlan0 topHint leftAlias rightAlias s = .ok (r, s1) →
      (r = none → s1.err ≠ none) ∧ (r ≠ none → s1 = s) := by
  intro s r s1 h
  unfold buildJoinHinted at h
  cases topHint with
  | none =>
    obtain ⟨h1, h2⟩ := ok_pair_inj h
    subst h1
    exact ⟨fun hq => Option.noConfusion hq, fun _ => h2.symm⟩
  | some hint =>
    simp only [] at h
    split at h
    · obtain ⟨h1, h2⟩ := ok_pair_inj h
      subst h1
      refine ⟨fun _ => ?_, fun hq => absurd rfl hq⟩
      rw [← h2]
      simp
    · obtain ⟨h1, h2⟩ := ok_pair_inj h
      subst h1
      exact ⟨fun hq => Option.noConfusion hq, fun _ => h2.symm⟩

theorem buildJoinRest_nilErr (env : Env) (join : AstJoin) (lpl rpl : Plan)
    (joinId : String) (topHint : Option TableHintInfo)
    (leftAlias rightAlias : Option CIStr) :
    NilErr (buildJoinRest env join lpl rpl joinId topHint leftAlias rightAlias) := by
  intro s p s1 h
  unfold buildJoinRest at h
  rw [MS_bind_apply] at h
  split at h
  · exact Except.noConfusion h
  · rename_i a t heq
    have hrun := buildJoinHinted_run _ topHint leftAlias rightAlias s a t heq
    cases a with
    | none =>
      obtain ⟨h1, h2⟩ := ok_pair_inj h
      subst h1
      refine ⟨fun _ => ?_, fun hq => absurd rfl hq⟩
      rw [← h2]
      exact hrun.1 rfl
    | some jp1 =>
      have ht : t = s := hrun.2 (fun hq => Option.noConfusion hq)
      subst ht
      exact buildJoinConds_nilErr env join lpl rpl jp1 t p s1 h

/-- Sequencing an always-succeeding, error-preserving step in front of a
`NilErr` continuation. -/
theorem NilErr.bindPre {α : Type} {m : MS α} {k : α → MS (Option Plan)}
    (hm : ∀ s, ∃ a s', m s = .ok (a, s') ∧ s'.err = s.err)
    (hk : ∀ a, NilErr (k a)) : NilErr (m >>= k) := by
  intro s p s1 h
  rw [MS_bind_apply] at h
  obtain ⟨a, s', hrun, herr⟩ := hm s
  rw [hrun] at h
  obtain ⟨hnil, hsome⟩ := hk a s' p s1 h
  exact ⟨hnil, fun hp => (hsome hp).trans herr⟩

/-- The sort-item loop: a `none` result only after latching a rewrite error,
a `some` result leaving the latched error untouched. -/
theorem buildSortLoop_run (env : Env) (agg : Option AggMapper) :
    ∀ (items : List ByItem) (p : Option Plan) (acc : List (Expr × Bool)) s r s1,
      buildSortLoop env agg items p acc s = .ok (r, s1) →
      (r = none → s1.err ≠ none) ∧ (∀ v, r = some v → s1.err = s.err)
  | [], p, acc, s, r, s1 => by
    intro h
    obtain ⟨h1, h2⟩ := ok_pair_inj h
    subst h1
    exact ⟨fun hq => Option.noConfusion hq, fun v _ => by rw [← h2]⟩
  | item :: rest, p, acc, s, r, s1 => by
    intro h
    cases p with
    | none => exact Except.noConfusion h
    | some pl =>
      simp only [buildSortLoop, MS_bind_apply, getPlan_some_apply] at h
      revert h
      cases hre : (env.rewrite item.expr pl agg true).err with
      | some e =>
        intro h
        obtain ⟨h1, h2⟩ := ok_pair_inj h
        subst h1
        refine ⟨fun _ => ?_, fun v hv => Option.noConfusion hv⟩
        rw [← h2]
        simp
      | none =>
        intro h
        exact buildSortLoop_run env agg rest _ _ s r s1 h

/-- `buildSort` keeps the `NilErr` discipline. -/
theorem buildSort_nilErr (env : Env) (p : Option Plan) (items : List ByItem)
    (agg : Option AggMapper) : NilErr (buildSort env p items agg) := by
  intro s q s1 h
  unfold buildSort at h
  simp only [MS_bind_apply, allocID_apply] at h
  split at h
  · exact Except.noConfusion h
  · rename_i r t heq
    have hloop := buildSortLoop_run env agg items p []
      { s with allocated := s.allocated + 1 } r t heq
    cases r with
    | none =>
      obtain ⟨h1, h2⟩ := ok_pair_inj h
      subst h1
      refine ⟨fun _ => ?_, fun hq => absurd rfl hq⟩
      rw [← h2]
      exact hloop.1 rfl
    | some v =>
      obtain ⟨exprs, pf⟩ := v
      cases pf with
      | none => exact Except.noConfusion h
      | some pl =>
        obtain ⟨h1, h2⟩ := ok_pair_inj h
        subst h1
        refine ⟨fun hq => Option.noConfusion hq, fun _ => ?_⟩
        rw [← h2]
        exact hloop.2 _ rfl

/-- `buildDistinct` keeps the `NilErr` discipline (it only ever returns a
non-nil aggregation node or panics). -/
theorem buildDistinct_nilErr (child : Option Plan) (length : Nat) :
    NilErr (buildDistinct child length) := by
  intro s q s1 h
  unfold buildDistinct at h
  simp only [MS_bind_apply, orOptFlag_apply] at h
  cases child with
  | none => exact Except.noConfusion h
  | some pl =>
    simp only [getPlan_some_apply] at h
    split at h
    · simp only [MS_bind_apply, allocID_apply, MS_pure_apply] at h
      obtain ⟨h1, h2⟩ := ok_pair_inj h
      subst h1
      refine ⟨fun hq => Option.noConfusion hq, fun _ => ?_⟩
      rw [← h2]
    · exact Except.noConfusion h

/-- `buildLimit` keeps the `NilErr` discipline: a nil result only with the
wrong-arguments error latched, a non-nil result with the latch untouched. -/
theorem buildLimit_nilErr (env : Env) (src : Option Plan) (lim : LimitClause) :
    NilErr (buildLimit env src lim) := by
  intro s q s1 h
  unfold buildLimit at h
  rw [MS_bind_apply] at h
  obtain ⟨a, s', hrun, herr⟩ :
      ∃ a s', ((if env.useDAG then orOptFlag flagPushDownTopN else pure ()) : MS Unit) s =
        .ok (a, s') ∧ s'.err = s.err := by
    by_cases hd : env.useDAG = true
    · exact ⟨(), { s with optFlag := s.optFlag ||| flagPushDownTopN },
        by rw [if_pos hd]; exact orOptFlag_apply _ _, rfl⟩
    · exact ⟨(), s, by rw [if_neg hd]; exact MS_pure_apply _ _, rfl⟩
  rw [hrun] at h
  have hgen : (q = none → s1.err ≠ none) ∧ (q ≠ none → s1.err = s'.err) →
      (q = none → s1.err ≠ none) ∧ (q ≠ none → s1.err = s.err) :=
    fun hp => ⟨hp.1, fun hq => (hp.2 hq).trans herr⟩
  apply hgen
  revert h
  cases ho : limitValue env lim.offset with
  | error e =>
    intro h
    obtain ⟨h1, h2⟩ := ok_pair_inj h
    subst h1
    refine ⟨fun _ => ?_, fun hq => absurd rfl hq⟩
    rw [← h2]
    simp
  | ok off =>
    cases hc : limitValue env lim.count with
    | error e =>
      intro h
      obtain ⟨h1, h2⟩ := ok_pair_inj h
      subst h1
      refine ⟨fun _ => ?_, fun hq => absurd rfl hq⟩
      rw [← h2]
      simp
    | ok cnt =>
      intro h
      cases src with
      | none => exact Except.noConfusion h
      | some pl =>
        obtain ⟨h1, h2⟩ := ok_pair_inj h
        subst h1
        refine ⟨fun hq => Option.noConfusion hq, fun _ => ?_⟩
        rw [← h2]

/-- `buildDistinct` can only return a non-nil plan. -/
theorem buildDistinct_some (child : Option Plan) (length : Nat) :
    ∀ s r s1, buildDistinct child length s = .ok (r, s1) → ∃ q, r = some q := by
  intro s r s1 h
  unfold buildDistinct at h
  simp only [MS_bind_apply, orOptFlag_apply] at h
  cases child with
  | none => exact Except.noConfusion h
  | some pl =>
    simp only [getPlan_some_apply] at h
    split at h
    · simp only [MS_bind_apply, allocID_apply, MS_pure_apply] at h
      obtain ⟨h1, h2⟩ := ok_pair_inj h
      exact ⟨_, h1.symm⟩
    · exact Except.noConfusion h

/-- `buildLimit` on a nil source either panics or returns a nil plan (after
a failed offset/count parse). -/
theorem buildLimit_none (env : Env) (lim : LimitClause) :
    ∀ s r s1, buildLimit env none lim s = .ok (r, s1) → r = none := by
  intro s r s1 h
  unfold buildLimit at h
  rw [MS_bind_apply] at h
  obtain ⟨a, s', hrun, herr⟩ :
      ∃ a s', ((if env.useDAG then orOptFlag flagPushDownTopN else pure ()) : MS Unit) s =
        .ok (a, s') ∧ s'.err = s.err := by
    by_cases hd : env.useDAG = true
    · exact ⟨(), { s with optFlag := s.optFlag ||| flagPushDownTopN },
        by rw [if_pos hd]; exact orOptFlag_apply _ _, rfl⟩
    · exact ⟨(), s, by rw [if_neg hd]; exact MS_pure_apply _ _, rfl⟩
  rw [hrun] at h
  revert h
  cases ho : limitValue env lim.offset with
  | error e =>
    intro h
    exact ((ok_pair_inj h).1).symm
  | ok off =>
    cases hc : limitValue env lim.count with
    | error e =>
      intro h
      exact ((ok_pair_inj h).1).symm
    | ok cnt =>
      intro h
      exact Except.noConfusion h

/-- One union child merge: on an arity mismatch the union-arity error is
latched and nothing is returned; otherwise the merged first schema keeps
its length and the state is untouched. -/
theorem unionMergeChild_run (env : Env) (fs : Schema) (child : Option Plan) :
    ∀ s r s1, unionMergeChild env fs child s = .ok (r, s1) →
      ∃ pl, child = some pl ∧
        ((fs.len ≠ pl.schema.len ∧ r = none ∧ s1.err = some .unionArity) ∨
         (fs.len = pl.schema.len ∧ s1.err = s.err ∧
           ∃ v, r = some v ∧ Schema.len v.2 = fs.len)) := by
  intro s r s1 h
  unfold unionMergeChild at h
  cases child with
  | none => exact Except.noConfusion h
  | some pl =>
    refine ⟨pl, rfl, ?_⟩
    simp only [MS_bind_apply, getPlan_some_apply] at h
    split at h
    next hne =>
      obtain ⟨h1, h2⟩ := ok_pair_inj h
      subst h1
      left
      refine ⟨by simpa using hne, rfl, ?_⟩
      rw [← h2]
    next hne =>
      have heqlen : fs.len = pl.schema.len := by simpa using hne
      split at h
      · obtain ⟨h1, h2⟩ := ok_pair_inj h
        subst h1
        right
        refine ⟨heqlen, ?_, _, rfl, ?_⟩
        · rw [← h2]
        · rcases pl with ⟨k, pid, sch, ch, inf⟩
          simp [Schema.len, mergeUnionTypes, Schema.clone, Plan.schema, Plan.node] at heqlen ⊢
          omega
      · obtain ⟨h1, h2⟩ := ok_pair_inj h
        subst h1
        right
        refine ⟨heqlen, ?_, _, rfl, ?_⟩
        · rw [← h2]
        · rcases pl with ⟨k, pid, sch, ch, inf⟩
          simp [Schema.len, mergeUnionTypes, Plan.schema, Plan.node] at heqlen ⊢
          omega

/-- The union child-merge loop: a `none` result only with the union-arity
error latched, a `some` result with the latched error untouched. -/
theorem unionChildrenLoop_run (env : Env) :
    ∀ (children : List (Option Plan)) (fs : Schema) (acc : List Plan) s r s1,
      unionChildrenLoop env children fs acc s = .ok (r, s1) →
      (r = none → s1.err ≠ none) ∧ (∀ v, r = some v → s1.err = s.err)
  | [], fs, acc, s, r, s1 => by
    intro h
    obtain ⟨h1, h2⟩ := ok_pair_inj h
    subst h1
    exact ⟨fun hq => Option.noConfusion hq, fun v _ => by rw [← h2]⟩
  | c :: rest, fs, acc, s, r, s1 => by
    intro h
    simp only [unionChildrenLoop, MS_bind_apply] at h
    split at h
    · exact Except.noConfusion h
    · rename_i a t heq
      obtain ⟨pl, hc, hd⟩ := unionMergeChild_run env fs c s a t heq
      cases a with
      | none =>
        obtain ⟨h1, h2⟩ := ok_pair_inj h
        subst h1
        refine ⟨fun _ => ?_, fun v hv => Option.noConfusion hv⟩
        rw [← h2]
        rcases hd with ⟨_, _, herr⟩ | ⟨_, _, v, hv, _⟩
        · rw [herr]
          simp
        · exact absurd hv.symm (fun hx => Option.noConfusion hx)
      | some r2 =>
        have hrec := unionChildrenLoop_run env rest r2.2 (acc ++ [r2.1]) t r s1 h
        rcases hd with ⟨_, hr, _⟩ | ⟨_, herr, v, hv, _⟩
        · exact absurd hr (fun hx => Option.noConfusion hx)
        · exact ⟨hrec.1, fun w hw => (hrec.2 w hw).trans herr⟩

/-- Entered error-free, `buildUnionRest` returns a nil plan exactly when it
latches an error (union arity, a sort rewrite failure, or a limit parse
failure). -/
theorem buildUnionRest_free (env : Env) (u : UnionStmt) (uId : String)
    (children : List (Option Plan)) : FreeResInv (buildUnionRest env u uId children) := by
  intro s hs p s1 h
  unfold buildUnionRest at h
  rw [MS_bind_apply] at h
  cases children with
  | nil => exact Except.noConfusion h
  | cons c rest =>
    cases c with
    | none => exact Except.noConfusion h
    | some c0 =>
      split at h
      · exact Except.noConfusion h
      · rename_i a t heq
        obtain ⟨g1, g2⟩ := ok_pair_inj heq
        subst g1
        subst g2
        rw [MS_bind_apply] at h
        split at h
        · exact Except.noConfusion h
        · rename_i b t2 heq2
          have hloop := unionChildrenLoop_run env (some c0 :: rest) _ [] _ b t2 heq2
          cases b with
          | none =>
            obtain ⟨h1, h2⟩ := ok_pair_inj h
            subst h1
            refine ⟨fun _ => ?_, fun hq => absurd rfl hq⟩
            rw [← h2]
            exact hloop.1 rfl
          | some merged =>
            have ht2 : t2.err = none := by
              have hx := hloop.2 merged rfl
              rw [hx]
              exact hs
            simp only [] at h
            rw [MS_bind_apply] at h
            split at h
            · exact Except.noConfusion h
            · rename_i p1 t3 heq3
              have hp1 : (∃ q1, p1 = some q1) ∧ t3.err = t2.err := by
                split at heq3
                · have hsm := buildDistinct_some _ _ t2 p1 t3 heq3
                  have hn := buildDistinct_nilErr _ _ t2 p1 t3 heq3
                  obtain ⟨q1, hq1⟩ := hsm
                  exact ⟨⟨q1, hq1⟩, hn.2 (by simp [hq1])⟩
                · obtain ⟨e1, e2⟩ := ok_pair_inj heq3
                  exact ⟨⟨_, e1.symm⟩, by rw [← e2]⟩
              obtain ⟨⟨q1, hq1⟩, ht3⟩ := hp1
              subst hq1
              rw [MS_bind_apply] at h
              split at h
              · exact Except.noConfusion h
              · rename_i p2 t4 heq4
                have hp2 : (p2 = none → t4.err ≠ none) ∧ (p2 ≠ none → t4.err = t3.err) := by
                  cases ho : u.orderBy with
                  | some items =>
                    rw [ho] at heq4
                    exact buildSort_nilErr env (some q1) items none t3 p2 t4 heq4
                  | none =>
                    rw [ho] at heq4
                    obtain ⟨e1, e2⟩ := ok_pair_inj heq4
                    subst e1
                    exact ⟨fun hq => Option.noConfusion hq, fun _ => by rw [← e2]⟩
                cases hl : u.limit with
                | none =>
                  rw [hl] at h
                  obtain ⟨h1, h2⟩ := ok_pair_inj h
                  subst h1
                  constructor
                  · intro hpn
                    rw [← h2]
                    exact hp2.1 hpn
                  · intro hpn
                    rw [← h2]
                    exact ((hp2.2 hpn).trans ht3).trans ht2
                | some lim =>
                  rw [hl] at h
                  have hbl := buildLimit_nilErr env p2 lim t4 p s1 h
                  constructor
                  · exact hbl.1
                  · intro hpn
                    cases p2 with
                    | none =>
                      exact absurd (buildLimit_none env lim t4 p s1 h) hpn
                    | some q2 =>
                      have h4 := hbl.2 hpn
                      rw [h4]
                      exact ((hp2.2 (fun hx => Option.noConfusion hx)).trans ht3).trans ht2

/-- `buildUnion` of no branches panics in `buildUnionRest` (index 0 of an
empty child list). -/
theorem buildUnionRest_nil (env : Env) (u : UnionStmt) (uId : String) :
    ∀ s v, buildUnionRest env u uId [] s ≠ .ok v := by
  intro s v h
  exact Except.noConfusion h

/-- With the latched error set, the leading check-and-bail of the
`buildSelect` pipeline returns immediately. -/
theorem buildSelectRest_latched (env : Env) (sel : SelectStmt) (hasAgg : Bool)
    (p0 : Option Plan) : ∀ s : SubState, s.err ≠ none →
      buildSelectRest env sel hasAgg p0 s = .ok (none, s) := by
  intro s hserr
  unfold buildSelectRest
  unfold TidbPlan.bailS
  rw [if_pos (Option.isSome_iff_ne_none.mpr hserr)]

/-- A non-nil plan always yields an alias answer (never an error). -/
theorem extractTableAlias_some (pl : Plan) :
    ∃ al, extractTableAlias (some pl) = .ok al := by
  have hred : extractTableAlias (some pl) =
      (if pl.kind == .dataSource then
        if pl.info.tableAsName.l != "" then .ok (some pl.info.tableAsName)
        else .ok (some pl.info.tableInfoName)
      else
        match pl.schema.columns.head? with
        | some c => if c.tblName.l != "" then .ok (some c.tblName) else .ok none
        | none => .ok none) := rfl
  rw [hred]
  split
  · split
    · exact ⟨_, rfl⟩
    · exact ⟨_, rfl⟩
  · split
    · split
      · exact ⟨_, rfl⟩
      · exact ⟨_, rfl⟩
    · exact ⟨_, rfl⟩

/-- `TableHints()` never changes the state. -/
theorem tableHintsTop_run : ∀ s, ∃ a, tableHintsTop s = .ok (a, s) := by
  intro s
  unfold tableHintsTop
  split
  · exact ⟨_, rfl⟩
  · exact ⟨_, rfl⟩

/-- `pushTableHints` always succeeds and leaves the substate untouched. -/
theorem pushTableHints_sub (hints : List TableHint) : ∀ s : BState,
    ∃ b s', pushTableHints hints s = .ok (b, s') ∧ s'.sub = s.sub := by
  intro s
  by_cases hc : ((collectHintTables hints).1.length != 0 ||
      (collectHintTables hints).2.length != 0) = true
  · exact ⟨true, { s with tableHintInfo := s.tableHintInfo ++
      [⟨(collectHintTables hints).1, (collectHintTables hints).2⟩] },
      by unfold pushTableHints; rw [if_pos hc], rfl⟩
  · exact ⟨false, s, by unfold pushTableHints; rw [if_neg hc], rfl⟩

/-- The hint push of `buildSelect` leaves the substate untouched. -/
theorem selectPush_run (sel : SelectStmt) : ∀ s : BState,
    ∃ b s', (match sel.tableHints with
      | [] => (pure false : M Bool)
      | hs => pushTableHints hs) s = .ok (b, s') ∧ s'.sub = s.sub := by
  intro s
  cases sel.tableHints with
  | nil => exact ⟨false, s, rfl, rfl⟩
  | cons hh tt =>
    obtain ⟨b, s', hrun, hsub⟩ := pushTableHints_sub (hh :: tt) s
    exact ⟨b, s', hrun, hsub⟩

/-- The deferred hint pop of `buildSelect` leaves the substate untouched
whenever it returns. -/
theorem selectPop_sub (b : Bool) : ∀ (t s2 : BState) (u : Unit),
    ((if b then popTableHints else pure ()) : M Unit) t = .ok (u, s2) → s2.sub = t.sub := by
  intro t s2 u heq
  by_cases hb : b = true
  · rw [if_pos hb] at heq
    unfold popTableHints at heq
    split at heq
    · exact Except.noConfusion heq
    · obtain ⟨e1, e2⟩ := ok_pair_inj heq
      rw [← e2]
  · rw [if_neg hb] at heq
    obtain ⟨e1, e2⟩ := ok_pair_inj heq
    rw [← e2]

/-- One step of the mutual recursion: `buildSelect` keeps the latched-error
discipline if the entries one level down do. -/
theorem buildStep_select_POk (env : Env) (rec : BuildFns) (hrec : RecOK rec)
    (sel : SelectStmt) : POk ((buildStep env rec).select sel) := by
  intro s p s1 h
  simp only [buildStep] at h
  rw [M_bind_apply] at h
  obtain ⟨b, s', hrun, hsub⟩ := selectPush_run sel s
  rw [hrun] at h
  simp only [] at h
  rw [M_bind_apply] at h
  split at h
  · exact Except.noConfusion h
  · rename_i r t heq
    have hbody := hrec.2.1 sel s' r t heq
    rw [hsub] at hbody
    rw [M_bind_apply] at h
    split at h
    · exact Except.noConfusion h
    · rename_i u s2 heq2
      have hsub2 : s2.sub = t.sub := selectPop_sub b t s2 u heq2
      obtain ⟨h1, h2⟩ := ok_pair_inj h
      have hp : p = r := h1.symm
      have hs1 : s1 = s2 := h2.symm
      subst hp
      subst hs1
      constructor
      · intro hserr
        obtain ⟨hrn, hre⟩ := hbody.1 hserr
        refine ⟨hrn, ?_⟩
        rw [hsub2]
        exact hre
      · intro hserr
        obtain ⟨hc1, hc2⟩ := hbody.2 hserr
        constructor
        · intro hpn
          rw [hsub2]
          exact hc1 hpn
        · intro hpn
          rw [hsub2]
          exact hc2 hpn

/-- One step of the mutual recursion: the `buildSelect` body keeps the
latched-error discipline if the entries one level down do. -/
theorem buildStep_selectBody_POk (env : Env) (rec : BuildFns) (hrec : RecOK rec)
    (sel : SelectStmt) : POk ((buildStep env rec).selectBody sel) := by
  intro s p s1 h
  simp only [buildStep] at h
  have main : ∀ t : BState, t.sub.err = s.sub.err →
      ((match sel.fromRefs with
        | some refs => rec.rsn (.join refs) >>= fun y =>
            liftS (buildSelectRest env sel (env.detectSelectAgg sel) y)
        | none => liftS buildTableDual >>= fun y =>
            liftS (buildSelectRest env sel (env.detectSelectAgg sel) y)) : M (Option Plan)) t =
          .ok (p, s1) →
      (s.sub.err ≠ none → p = none ∧ s1.sub.err ≠ none) ∧
      (s.sub.err = none → (p = none → s1.sub.err ≠ none) ∧ (p ≠ none → s1.sub.err = none)) := by
    intro t ht h
    cases hf : sel.fromRefs with
    | some refs =>
      rw [hf] at h
      simp only [] at h
      rw [M_bind_apply] at h
      split at h
      · exact Except.noConfusion h
      · rename_i p0 t2 heq
        have hrsn := hrec.2.2.1 (.join refs) t p0 t2 heq
        rw [liftS_apply] at h
        split at h
        · exact Except.noConfusion h
        · rename_i q sb heq2
          have hrest := buildSelectRest_resInv env sel (env.detectSelectAgg sel) p0
            t2.sub q sb heq2
          obtain ⟨h1, h2⟩ := ok_pair_inj h
          have hp : p = q := h1.symm
          have hs1 : s1 = { t2 with sub := sb } := h2.symm
          subst hp
          subst hs1
          constructor
          · intro hserr
            have ht' : t.sub.err ≠ none := by rw [ht]; exact hserr
            obtain ⟨hp0, ht2⟩ := hrsn.1 ht'
            have hlat := buildSelectRest_latched env sel (env.detectSelectAgg sel) p0
              t2.sub ht2
            rw [heq2] at hlat
            obtain ⟨g1, g2⟩ := ok_pair_inj hlat
            refine ⟨g1, ?_⟩
            show sb.err ≠ none
            rw [show sb = t2.sub from g2]
            exact ht2
          · intro hserr
            exact ⟨fun hq => hrest.1 hq, fun hq => hrest.2 hq⟩
    | none =>
      rw [hf] at h
      simp only [] at h
      rw [M_bind_apply] at h
      have hdual : liftS buildTableDual t =
          .ok (some (Plan.node .tableDual ("Dual_" ++ toString (t.sub.allocated + 1))
            (NewSchema []) [] { rowCount := 1 }),
            { t with sub := { t.sub with allocated := t.sub.allocated + 1 } }) := rfl
      rw [hdual] at h
      simp only [] at h
      rw [liftS_apply] at h
      split at h
      · exact Except.noConfusion h
      · rename_i q sb heq2
        have hrest := buildSelectRest_resInv env sel (env.detectSelectAgg sel) _
          _ q sb heq2
        obtain ⟨h1, h2⟩ := ok_pair_inj h
        have hp : p = q := h1.symm
        subst hp
        constructor
        · intro hserr
          have hlat := buildSelectRest_latched env sel (env.detectSelectAgg sel)
            (some (Plan.node .tableDual ("Dual_" ++ toString (t.sub.allocated + 1))
              (NewSchema []) [] { rowCount := 1 }))
            { t.sub with allocated := t.sub.allocated + 1 } (by rw [ht]; exact hserr)
          rw [heq2] at hlat
          obtain ⟨g1, g2⟩ := ok_pair_inj hlat
          refine ⟨g1, ?_⟩
          have hs1 : s1 = { t with sub := sb } := h2.symm
          subst hs1
          show sb.err ≠ none
          rw [show sb = { t.sub with allocated := t.sub.allocated + 1 } from g2]
          show t.sub.err ≠ none
          rw [ht]
          exact hserr
        · intro hserr
          have hs1 : s1 = { t with sub := sb } := h2.symm
          subst hs1
          exact ⟨fun hq => hrest.1 hq, fun hq => hrest.2 hq⟩
  by_cases hl : (sel.lockTp == LockType.forUpdate) = true
  · rw [if_pos hl] at h
    rw [M_bind_apply] at h
    have hlift : liftS (addNeedColHandle 1) s =
        .ok ((), { s with sub := { s.sub with needColHandle := s.sub.needColHandle + 1 } }) :=
      rfl
    rw [hlift] at h
    simp only [] at h
    exact main { s with sub := { s.sub with needColHandle := s.sub.needColHandle + 1 } } rfl h
  · rw [if_neg hl] at h
    rw [M_pure_bind_apply] at h
    exact main s rfl h

/-- What the table-source tail needs of a child build: it keeps a latched
error latched, and from a clean entry a nil child means a latched error. -/
def ChildOK (child : M (Option Plan)) : Prop := ∀ t c t1, child t = .ok (c, t1) →
  (t.sub.err ≠ none → t1.sub.err ≠ none) ∧
  (t.sub.err = none → (c = none → t1.sub.err ≠ none) ∧ (c ≠ none → t1.sub.err = none))

theorem POk.childOK {m : M (Option Plan)} (h : POk m) : ChildOK m :=
  fun t c t1 hx => ⟨fun he => ((h t c t1 hx).1 he).2, fun he => (h t c t1 hx).2 he⟩

theorem NilErr.liftChildOK {m : MS (Option Plan)} (h : NilErr m) : ChildOK (liftS m) := by
  intro t c t1 hx
  rw [liftS_apply] at hx
  revert hx
  cases hm : m t.sub with
  | error e =>
    intro hx
    exact Except.noConfusion hx
  | ok v =>
    intro hx
    obtain ⟨g1, g2⟩ := ok_pair_inj hx
    have hc : c = v.1 := g1.symm
    have ht1 : t1 = { t with sub := v.2 } := g2.symm
    subst hc
    subst ht1
    have hn := h t.sub v.1 v.2 (by rw [← hm])
    constructor
    · intro he
      cases hv : v.1 with
      | none =>
        exact hn.1 hv
      | some pl =>
        show v.2.err ≠ none
        rw [hn.2 (by rw [hv]; exact fun hx2 => Option.noConfusion hx2)]
        exact he
    · intro he
      exact ⟨fun hq => hn.1 hq, fun hq => (hn.2 hq).trans he⟩

/-- The table-source tail composed with any well-behaved child build keeps
the latched-error discipline. -/
theorem tableSourceTail_POk (asName : CIStr) (child : M (Option Plan))
    (hchild : ChildOK child) :
    POk (child >>= fun c => liftS (rsnTableSourceRest asName c)) := by
  intro t q2 t2 h
  rw [M_bind_apply] at h
  split at h
  · exact Except.noConfusion h
  · rename_i c t1 heq
    have hc := hchild t c t1 heq
    rw [liftS_apply] at h
    split at h
    · exact Except.noConfusion h
    · rename_i q sb heq2
      obtain ⟨h1, h2⟩ := ok_pair_inj h
      have hq2 : q2 = q := h1.symm
      have ht2 : t2 = { t1 with sub := sb } := h2.symm
      subst hq2
      subst ht2
      constructor
      · intro hserr
        have ht1 := hc.1 hserr
        have hrun2 := rsnTableSourceRest_run asName c t1.sub
        rw [heq2] at hrun2
        rw [if_pos (Option.isSome_iff_ne_none.mpr ht1)] at hrun2
        obtain ⟨g1, g2⟩ := ok_pair_inj hrun2
        refine ⟨g1, ?_⟩
        show sb.err ≠ none
        rw [show sb = t1.sub from g2]
        exact ht1
      · intro hserr
        obtain ⟨hinv1, hinv2⟩ := hc.2 hserr
        cases c with
        | none =>
          have ht1 := hinv1 rfl
          have hrun2 := rsnTableSourceRest_run asName none t1.sub
          rw [heq2] at hrun2
          rw [if_pos (Option.isSome_iff_ne_none.mpr ht1)] at hrun2
          obtain ⟨g1, g2⟩ := ok_pair_inj hrun2
          constructor
          · intro _
            show sb.err ≠ none
            rw [show sb = t1.sub from g2]
            exact ht1
          · intro hq
            exact absurd g1 hq
        | some pl =>
          have ht1 : t1.sub.err = none := hinv2 (fun hx => Option.noConfusion hx)
          have hrest := rsnTableSourceRest_inv asName (some pl) t1.sub q2 sb heq2
            (fun hx => Option.noConfusion hx)
          exact ⟨fun hq => hrest.1 hq, fun hq => (hrest.2 hq).trans ht1⟩

/-- One step of the mutual recursion: `buildResultSetNode` keeps the
latched-error discipline if the entries one level down do. -/
theorem buildStep_rsn_POk (env : Env) (rec : BuildFns) (hrec : RecOK rec)
    (node : RSNode) : POk ((buildStep env rec).rsn node) := by
  intro s p s1 h
  simp only [buildStep] at h
  cases node with
  | join j => exact hrec.2.2.2.1 j s p s1 h
  | selectStmt sel => exact hrec.1 sel s p s1 h
  | unionStmt u => exact hrec.2.2.2.2.2 u s p s1 h
  | unsupported =>
    obtain ⟨h1, h2⟩ := ok_pair_inj h
    have hp : p = none := h1.symm
    have hs1 : s1 = { s with sub := { s.sub with err := some .unsupportedType } } := h2.symm
    subst hp
    subst hs1
    constructor
    · intro _
      exact ⟨rfl, by simp⟩
    · intro _
      exact ⟨fun _ => by simp, fun hq => absurd rfl hq⟩
  | tableSource src asName =>
    cases src with
    | selectStmt sel =>
      replace h : (rec.select sel >>= fun c => liftS (rsnTableSourceRest asName c)) s =
          .ok (p, s1) := h
      exact tableSourceTail_POk asName (rec.select sel) (POk.childOK (hrec.1 sel)) s p s1 h
    | unionStmt u =>
      replace h : (rec.union u >>= fun c => liftS (rsnTableSourceRest asName c)) s =
          .ok (p, s1) := h
      exact tableSourceTail_POk asName (rec.union u)
        (POk.childOK (hrec.2.2.2.2.2 u)) s p s1 h
    | tableName t0 =>
      replace h : (liftS (buildDataSource env t0) >>= fun c =>
          liftS (rsnTableSourceRest asName c)) s = .ok (p, s1) := h
      exact tableSourceTail_POk asName (liftS (buildDataSource env t0))
        (NilErr.liftChildOK (buildDataSource_nilErr env t0)) s p s1 h
    | unsupported =>
      obtain ⟨h1, h2⟩ := ok_pair_inj h
      have hp : p = none := h1.symm
      have hs1 : s1 = { s with sub := { s.sub with err := some .unsupportedType } } := h2.symm
      subst hp
      subst hs1
      constructor
      · intro _
        exact ⟨rfl, by simp⟩
      · intro _
        exact ⟨fun _ => by simp, fun hq => absurd rfl hq⟩

theorem M_bind_ok {α β : Type} {m : M α} {k : α → M β} {s : BState} {a : α} {t : BState}
    (h : m s = .ok (a, t)) : (m >>= k) s = k a t := by
  rw [M_bind_apply, h]

/-- One step of the mutual recursion: `buildJoin` keeps the latched-error
discipline if the entries one level down do. -/
theorem buildStep_join_POk (env : Env) (rec : BuildFns) (hrec : RecOK rec)
    (j : AstJoin) : POk ((buildStep env rec).join j) := by
  intro s p s1 h
  simp only [buildStep] at h
  cases hr : j.right with
  | none =>
    rw [hr] at h
    exact hrec.2.2.1 j.left s p s1 h
  | some rightNode =>
    rw [hr] at h
    simp only [] at h
    rw [M_bind_ok (show liftS (orOptFlag flagPredicatePushDown) s =
      .ok ((), { s with sub :=
        { s.sub with optFlag := s.sub.optFlag ||| flagPredicatePushDown } }) from rfl)] at h
    rw [M_bind_apply] at h
    split at h
    · exact Except.noConfusion h
    · rename_i lp t1 heq1
      have hl := hrec.2.2.1 j.left
        { s with sub := { s.sub with optFlag := s.sub.optFlag ||| flagPredicatePushDown } }
        lp t1 heq1
      rw [M_bind_apply] at h
      split at h
      · exact Except.noConfusion h
      · rename_i rp t2 heq2
        have hrr := hrec.2.2.1 rightNode t1 rp t2 heq2
        cases lp with
        | none => exact Except.noConfusion h
        | some lpl0 =>
          obtain ⟨la, hla⟩ := extractTableAlias_some lpl0
          rw [hla] at h
          rw [M_bind_ok (show liftS (liftExcept (Except.ok la)) t2 = .ok (la, t2) from rfl)] at h
          cases rp with
          | none => exact Except.noConfusion h
          | some rpl0 =>
            obtain ⟨ra, hra⟩ := extractTableAlias_some rpl0
            rw [hra] at h
            rw [M_bind_ok (show liftS (liftExcept (Except.ok ra)) t2 = .ok (ra, t2) from rfl)] at h
            rw [M_bind_ok (show getPlanM (some lpl0) t2 = .ok (lpl0, t2) from rfl)] at h
            rw [M_bind_ok (show getPlanM (some rpl0) t2 = .ok (rpl0, t2) from rfl)] at h
            rw [M_bind_ok (show liftS (allocID "Join") t2 =
              .ok ("Join_" ++ toString (t2.sub.allocated + 1),
                { t2 with sub := { t2.sub with allocated := t2.sub.allocated + 1 } }) from rfl)] at h
            obtain ⟨th, hth⟩ := tableHintsTop_run
              { t2 with sub := { t2.sub with allocated := t2.sub.allocated + 1 } }
            rw [M_bind_ok hth] at h
            rw [liftS_apply] at h
            split at h
            · exact Except.noConfusion h
            · rename_i q sb heqJ
              have hJ := buildJoinRest_nilErr env j lpl0 rpl0
                ("Join_" ++ toString (t2.sub.allocated + 1)) th la ra
                { t2.sub with allocated := t2.sub.allocated + 1 } q sb heqJ
              obtain ⟨h1, h2⟩ := ok_pair_inj h
              have hp : p = q := h1.symm
              have hs1 : s1 = { t2 with sub := sb } := h2.symm
              subst hp
              subst hs1
              constructor
              · intro hserr
                exact absurd ((hl.1 hserr).1) (fun hx => Option.noConfusion hx)
              · intro hserr
                have ht1 : t1.sub.err = none :=
                  (hl.2 hserr).2 (fun hx => Option.noConfusion hx)
                have ht2 : t2.sub.err = none :=
                  (hrr.2 ht1).2 (fun hx => Option.noConfusion hx)
                constructor
                · intro hq
                  exact hJ.1 hq
                · intro hq
                  exact (hJ.2 hq).trans ht2

/-- One step of the mutual recursion: the union child-build loop keeps the
latched-error discipline if the entries one level down do. -/
theorem buildStep_unionSelects_POk (env : Env) (rec : BuildFns) (hrec : RecOK rec)
    (sels : List SelectStmt) : POkList ((buildStep env rec).unionSelects sels) := by
  intro s r s1 h
  simp only [buildStep] at h
  cases sels with
  | nil =>
    obtain ⟨h1, h2⟩ := ok_pair_inj h
    have hr : r = some [] := h1.symm
    have hs1 : s1 = s := h2.symm
    subst hr
    subst hs1
    constructor
    · intro hserr
      exact ⟨hserr, Or.inr rfl⟩
    · intro hserr
      exact ⟨fun hq => Option.noConfusion hq, fun _ => hserr⟩
  | cons sel rest =>
    simp only [] at h
    rw [M_bind_apply] at h
    split at h
    · exact Except.noConfusion h
    · rename_i c t heq
      have hsel := hrec.1 sel s c t heq
      rw [M_bind_ok (show getErrM t = .ok (t.sub.err, t) from rfl)] at h
      split at h
      next he =>
        obtain ⟨h1, h2⟩ := ok_pair_inj h
        have hrr : r = none := h1.symm
        have hs1 : s1 = t := h2.symm
        subst hrr
        subst hs1
        constructor
        · intro hserr
          exact ⟨Option.isSome_iff_ne_none.mp he, Or.inl rfl⟩
        · intro hserr
          exact ⟨fun _ => Option.isSome_iff_ne_none.mp he, fun hq => absurd rfl hq⟩
      next he =>
        have hte : t.sub.err = none := by simpa using he
        rw [M_bind_apply] at h
        split at h
        · exact Except.noConfusion h
        · rename_i o t2 heq2
          have hrest := hrec.2.2.2.2.1 rest t o t2 heq2
          cases o with
          | none =>
            obtain ⟨h1, h2⟩ := ok_pair_inj h
            have hrr : r = none := h1.symm
            have hs1 : s1 = t2 := h2.symm
            subst hrr
            subst hs1
            have ht2 : s1.sub.err ≠ none := (hrest.2 hte).1 rfl
            constructor
            · intro _
              exact ⟨ht2, Or.inl rfl⟩
            · intro _
              exact ⟨fun _ => ht2, fun hq => absurd rfl hq⟩
          | some cs =>
            obtain ⟨h1, h2⟩ := ok_pair_inj h
            have hrr : r = some (c :: cs) := h1.symm
            have hs1 : s1 = t2 := h2.symm
            subst hrr
            subst hs1
            have ht2 : s1.sub.err = none := (hrest.2 hte).2 (fun hx => Option.noConfusion hx)
            constructor
            · intro hserr
              exact absurd hte (hsel.1 hserr).2
            · intro _
              exact ⟨fun hq => Option.noConfusion hq, fun _ => ht2⟩

/-- One step of the mutual recursion: `buildUnion` keeps the latched-error
discipline if the entries one level down do. -/
theorem buildStep_union_POk (env : Env) (rec : BuildFns) (hrec : RecOK rec)
    (u : UnionStmt) : POk ((buildStep env rec).union u) := by
  intro s p s1 h
  simp only [buildStep] at h
  rw [M_bind_ok (show liftS (allocID "Union") s =
    .ok ("Union_" ++ toString (s.sub.allocated + 1),
      { s with sub := { s.sub with allocated := s.sub.allocated + 1 } }) from rfl)] at h
  rw [M_bind_apply] at h
  split at h
  · exact Except.noConfusion h
  · rename_i o t heq
    have hus := hrec.2.2.2.2.1 u.selects
      { s with sub := { s.sub with allocated := s.sub.allocated + 1 } } o t heq
    cases o with
    | none =>
      obtain ⟨h1, h2⟩ := ok_pair_inj h
      have hp : p = none := h1.symm
      have hs1 : s1 = t := h2.symm
      subst hp
      subst hs1
      constructor
      · intro hserr
        exact ⟨rfl, (hus.1 hserr).1⟩
      · intro hserr
        exact ⟨fun _ => (hus.2 hserr).1 rfl, fun hq => absurd rfl hq⟩
    | some children =>
      simp only [] at h
      rw [liftS_apply] at h
      split at h
      · exact Except.noConfusion h
      · rename_i q sb hequ
        obtain ⟨h1, h2⟩ := ok_pair_inj h
        have hp : p = q := h1.symm
        have hs1 : s1 = { t with sub := sb } := h2.symm
        subst hp
        subst hs1
        constructor
        · intro hserr
          obtain ⟨hterr, hor⟩ := hus.1 hserr
          rcases hor with hnone | hnil
          · exact Option.noConfusion hnone
          · have hch : children = [] := Option.some.inj hnil
            subst hch
            exact absurd hequ (buildUnionRest_nil env u _ t.sub (p, sb))
        · intro hserr
          have ht : t.sub.err = none := (hus.2 hserr).2 (fun hx => Option.noConfusion hx)
          have hfr := buildUnionRest_free env u _ children t.sub ht p sb hequ
          exact ⟨fun hq => hfr.1 hq, fun hq => hfr.2 hq⟩

/-- One step of the mutual recursion preserves the latched-error discipline
at all six builder entries. -/
theorem buildStep_RecOK (env : Env) (rec : BuildFns) (hrec : RecOK rec) :
    RecOK (buildStep env rec) :=
  ⟨buildStep_select_POk env rec hrec, buildStep_selectBody_POk env rec hrec,
    buildStep_rsn_POk env rec hrec, buildStep_join_POk env rec hrec,
    buildStep_unionSelects_POk env rec hrec, buildStep_union_POk env rec hrec⟩

/-- Every fuel level of the builder fixpoint obeys the discipline: at fuel 0
every entry crashes (no ok-run exists), and each successor level is one
`buildStep` over the previous. -/
theorem buildFns_RecOK (env : Env) : ∀ fuel, RecOK (buildFns env fuel)
  | 0 =>
    ⟨fun _ _ _ _ h => Except.noConfusion h, fun _ _ _ _ h => Except.noConfusion h,
      fun _ _ _ _ h => Except.noConfusion h, fun _ _ _ _ h => Except.noConfusion h,
      fun _ _ _ _ h => Except.noConfusion h, fun _ _ _ _ h => Except.noConfusion h⟩
  | fuel + 1 => buildStep_RecOK env (buildFns env fuel) (buildFns_RecOK env fuel)

/-- Ownership invariant of the aggregate-deduplication loop: if every
column already accumulated carries the aggregation's id, so does every
column of the final accumulator. -/
theorem buildAggregationLoop_owner (env : Env) (aggId : String) :
    ∀ (l : List (Nat × AstExpr)) (p : Option Plan) (funcs : List AggFunc)
      (schemaCols : List Column) (idxMap : List (Nat × Nat)) (s : SubState) r s1,
      buildAggregationLoop env aggId l p funcs schemaCols idxMap s = .ok (r, s1) →
      (∀ c ∈ schemaCols, c.fromID = aggId) →
      ∀ p2 funcs2 cols2 idx2, r = some (p2, funcs2, cols2, idx2) →
      ∀ c ∈ cols2, c.fromID = aggId := by
  intro l
  induction l with
  | nil =>
    intro p funcs schemaCols idxMap s r s1 h hsc p2 funcs2 cols2 idx2 hr
    obtain ⟨h1, h2⟩ := ok_pair_inj h
    have hrr : r = some (p, funcs, schemaCols, idxMap) := h1.symm
    rw [hrr] at hr
    have hq := Option.some.inj hr
    have hcols : schemaCols = cols2 := congrArg (fun q => q.2.2.1) hq
    intro c hc
    exact hsc c (hcols ▸ hc)
  | cons hd rest ih =>
    obtain ⟨i, aggAst⟩ := hd
    intro p funcs schemaCols idxMap s r s1 h hsc p2 funcs2 cols2 idx2 hr
    cases aggAst
    case aggregateFunc f args dist =>
      simp only [buildAggregationLoop] at h
      rw [MS_bind_apply] at h
      split at h
      · exact Except.noConfusion h
      · rename_i step t heq
        cases step with
        | none =>
          obtain ⟨h1, h2⟩ := ok_pair_inj h
          rw [← h1] at hr
          exact Option.noConfusion hr
        | some pr =>
          obtain ⟨newArgList, pnext⟩ := pr
          simp only [] at h
          cases hf : List.find? (fun q => env.aggEqual q.2 ⟨f, newArgList, dist⟩)
              funcs.enum with
          | some q =>
            rw [hf] at h
            simp only [] at h
            exact ih pnext funcs schemaCols (natMapSet idxMap i q.1) t r s1 h hsc
              p2 funcs2 cols2 idx2 hr
          | none =>
            rw [hf] at h
            simp only [] at h
            refine ih pnext (funcs ++ [⟨f, newArgList, dist⟩])
              (schemaCols ++ [aggOutCol env aggId f newArgList dist funcs.length])
              (natMapSet idxMap i funcs.length) t r s1 h ?_ p2 funcs2 cols2 idx2 hr
            intro c hc
            rcases List.mem_append.mp hc with hin | hone
            · exact hsc c hin
            · rw [List.mem_singleton.mp hone]
              rfl
    all_goals simp only [buildAggregationLoop] at h
    all_goals exact Except.noConfusion h

/-- Cloning keeps the schema arity. -/
theorem Schema.clone_len (sch : Schema) : sch.clone.len = sch.len := by
  simp [Schema.clone, Schema.len]

/-- If some child's arity differs from the running merged schema's, the
union child-merge loop returns `none` with the union-arity error latched. -/
theorem unionChildrenLoop_mismatch (env : Env) :
    ∀ (children : List (Option Plan)) (fs : Schema) (acc : List Plan) (s : SubState),
      (∃ pl, some pl ∈ children ∧ pl.schema.len ≠ fs.len) →
      ∀ r s1, unionChildrenLoop env children fs acc s = .ok (r, s1) →
      r = none ∧ s1.err = some Err.unionArity := by
  intro children
  induction children with
  | nil =>
    intro fs acc s hmm r s1 h
    obtain ⟨pl, hmem, -⟩ := hmm
    exact absurd hmem (List.not_mem_nil _)
  | cons c rest ih =>
    intro fs acc s hmm r s1 h
    simp only [unionChildrenLoop] at h
    rw [MS_bind_apply] at h
    split at h
    · exact Except.noConfusion h
    · rename_i r0 t heq
      obtain ⟨pl, hc, hdisj⟩ := unionMergeChild_run env fs c s r0 t heq
      cases r0 with
      | none =>
        obtain ⟨h1, h2⟩ := ok_pair_inj h
        refine ⟨h1.symm, ?_⟩
        rw [← h2]
        rcases hdisj with ⟨-, -, herr⟩ | ⟨-, -, v, hv, -⟩
        · exact herr
        · exact Option.noConfusion hv
      | some v =>
        simp only [] at h
        rcases hdisj with ⟨-, hv, -⟩ | ⟨heqlen, -, v', hv', hlen⟩
        · exact Option.noConfusion hv
        · have hvv : v = v' := Option.some.inj hv'
          subst hvv
          refine ih v.2 (acc ++ [v.1]) t ?_ r s1 h
          obtain ⟨pl', hmem', hne'⟩ := hmm
          rcases List.mem_cons.mp hmem' with hhd | htl
          · exfalso
            rw [hc] at hhd
            have : pl' = pl := Option.some.inj hhd
            subst this
            exact hne' heqlen.symm
          · exact ⟨pl', htl, by rw [hlen]; exact hne'⟩

/-- If every child's arity equals the running merged schema's, the loop
returns a merged result with the latched error untouched. -/
theorem unionChildrenLoop_allEqual (env : Env) :
    ∀ (children : List (Option Plan)) (fs : Schema) (acc : List Plan) (s : SubState),
      (∀ pl, some pl ∈ children → pl.schema.len = fs.len) →
      ∀ r s1, unionChildrenLoop env children fs acc s = .ok (r, s1) →
      (∃ v, r = some v) ∧ s1.err = s.err := by
  intro children
  induction children with
  | nil =>
    intro fs acc s hall r s1 h
    obtain ⟨h1, h2⟩ := ok_pair_inj h
    exact ⟨⟨(acc, fs), h1.symm⟩, h2.symm ▸ rfl⟩
  | cons c rest ih =>
    intro fs acc s hall r s1 h
    simp only [unionChildrenLoop] at h
    rw [MS_bind_apply] at h
    split at h
    · exact Except.noConfusion h
    · rename_i r0 t heq
      obtain ⟨pl, hc, hdisj⟩ := unionMergeChild_run env fs c s r0 t heq
      rcases hdisj with ⟨hne, -, -⟩ | ⟨-, herr, v', hv', hlen⟩
      · exfalso
        exact hne (hall pl (hc ▸ List.mem_cons_self c rest)).symm
      · cases r0 with
        | none => exact Option.noConfusion hv'
        | some v =>
          have hvv : v = v' := Option.some.inj hv'
          subst hvv
          simp only [] at h
          have hrec := ih v.2 (acc ++ [v.1]) t ?_ r s1 h
          · exact ⟨hrec.1, hrec.2.trans herr⟩
          · intro pl' hmem'
            rw [hlen]
            exact hall pl' (List.mem_cons_of_mem c hmem')

/-- `buildDistinct` keeps the latched error untouched on every ok-run. -/
theorem buildDistinct_err (child : Option Plan) (length : Nat) :
    ∀ s r s1, buildDistinct child length s = .ok (r, s1) → s1.err = s.err := by
  intro s r s1 h
  obtain ⟨q, hq⟩ := buildDistinct_some child length s r s1 h
  exact (buildDistinct_nilErr child length s r s1 h).2
    (by rw [hq]; exact fun hx => Option.noConfusion hx)

/-- The sort rewrite loop never latches the union-arity error when the
rewriter cannot produce it. -/
theorem buildSortLoop_arity (env : Env) (am : Option AggMapper)
    (hrw : ∀ e pl b, (env.rewrite e pl am b).err ≠ some Err.unionArity) :
    ∀ (items : List ByItem) (p : Option Plan) (acc : List (Expr × Bool)) (s : SubState),
      s.err ≠ some Err.unionArity → ∀ r s1,
      buildSortLoop env am items p acc s = .ok (r, s1) →
      s1.err ≠ some Err.unionArity
  | [], p, acc, s => by
    intro hs r s1 h
    obtain ⟨h1, h2⟩ := ok_pair_inj h
    rw [← h2]
    exact hs
  | item :: rest, p, acc, s => by
    intro hs r s1 h
    cases p with
    | none => exact Except.noConfusion h
    | some pl =>
      simp only [buildSortLoop, MS_bind_apply, getPlan_some_apply] at h
      revert h
      cases hre : (env.rewrite item.expr pl am true).err with
      | some e =>
        intro h
        obtain ⟨h1, h2⟩ := ok_pair_inj h
        rw [← h2]
        intro hx
        have he : e = Err.unionArity := Option.some.inj hx
        exact hrw item.expr pl true (he ▸ hre)
      | none =>
        intro h
        exact buildSortLoop_arity env am hrw rest _ _ _ hs r s1 h

/-- `buildSort` never latches the union-arity error when the rewriter
cannot produce it. -/
theorem buildSort_arity (env : Env) (p : Option Plan) (items : List ByItem)
    (am : Option AggMapper)
    (hrw : ∀ e pl b, (env.rewrite e pl am b).err ≠ some Err.unionArity) :
    ∀ s, s.err ≠ some Err.unionArity → ∀ r s1,
      buildSort env p items am s = .ok (r, s1) → s1.err ≠ some Err.unionArity := by
  intro s hs r s1 h
  unfold buildSort at h
  simp only [MS_bind_apply, allocID_apply] at h
  split at h
  · exact Except.noConfusion h
  · rename_i r0 t heq
    have hloop := buildSortLoop_arity env am hrw items p []
      { s with allocated := s.allocated + 1 } hs r0 t heq
    cases r0 with
    | none =>
      obtain ⟨h1, h2⟩ := ok_pair_inj h
      rw [← h2]
      exact hloop
    | some v =>
      obtain ⟨exprs, pf⟩ := v
      cases pf with
      | none => exact Except.noConfusion h
      | some pl =>
        obtain ⟨h1, h2⟩ := ok_pair_inj h
        rw [← h2]
        exact hloop

/-- `buildLimit` only ever latches the wrong-arguments error, never the
union-arity one. -/
theorem buildLimit_arity (env : Env) (src : Option Plan) (lim : LimitClause) :
    ∀ s, s.err ≠ some Err.unionArity → ∀ r s1,
      buildLimit env src lim s = .ok (r, s1) → s1.err ≠ some Err.unionArity := by
  intro s hs r s1 h
  unfold buildLimit at h
  rw [MS_bind_apply] at h
  obtain ⟨a, s', hrun, herr⟩ :
      ∃ a s', ((if env.useDAG then orOptFlag flagPushDownTopN else pure ()) : MS Unit) s =
        .ok (a, s') ∧ s'.err = s.err := by
    by_cases hd : env.useDAG = true
    · exact ⟨(), { s with optFlag := s.optFlag ||| flagPushDownTopN },
        by rw [if_pos hd]; exact orOptFlag_apply _ _, rfl⟩
    · exact ⟨(), s, by rw [if_neg hd]; exact MS_pure_apply _ _, rfl⟩
  rw [hrun] at h
  have hs' : s'.err ≠ some Err.unionArity := by rw [herr]; exact hs
  revert h
  cases ho : limitValue env lim.offset with
  | error e =>
    intro h
    obtain ⟨h1, h2⟩ := ok_pair_inj h
    rw [← h2]
    intro hx
    exact Err.noConfusion (Option.some.inj hx)
  | ok off =>
    cases hc : limitValue env lim.count with
    | error e =>
      intro h
      obtain ⟨h1, h2⟩ := ok_pair_inj h
      rw [← h2]
      intro hx
      exact Err.noConfusion (Option.some.inj hx)
    | ok cnt =>
      intro h
      cases src with
      | none => exact Except.noConfusion h
      | some pl =>
        obtain ⟨h1, h2⟩ := ok_pair_inj h
        rw [← h2]
        exact hs'

/-- The resolve loop ignores a run of auxiliary fields. -/
theorem resolveLoop_aux_skip (v : ColumnName) (ig : Bool) :
    ∀ (l : List (Nat × SelectField)), (∀ p ∈ l, p.2.auxiliary = true) →
      ∀ m idx, resolveFromSelectFieldsLoop v ig l m idx = .ok idx := by
  intro l
  induction l with
  | nil => intro _ m idx; rfl
  | cons p rest ih =>
    intro hall m idx
    obtain ⟨i, field⟩ := p
    have haux : field.auxiliary = true := hall (i, field) (List.mem_cons_self _ _)
    simp only [resolveFromSelectFieldsLoop, haux, if_true]
    exact ih (fun q hq => hall q (List.mem_cons_of_mem _ hq)) m idx

/-! ## The claims -/

/-- C4 (as amended): whenever a run of `buildSelect`, `buildJoin` or
`buildUnion` returns without a Go panic, the returned plan is nil exactly
when the latched error is set on exit, so no partially constructed plan is
ever returned together with an error from those entries — and the same
holds of `buildDataSource` from an error-free entry state.  The original
claim also asserts this of `buildDataSource` entered with the error
already latched; that is false: `buildDataSource` never checks the latch
and returns a fresh DataSource plan with the old error still set. -/
theorem claim_C4_latched_error_nil_plan (env : Env) (fuel : Nat) :
    (∀ sel s p s1, buildSelect env fuel sel s = .ok (p, s1) →
      (p = none ↔ s1.sub.err ≠ none)) ∧
    (∀ j s p s1, buildJoin env fuel j s = .ok (p, s1) →
      (p = none ↔ s1.sub.err ≠ none)) ∧
    (∀ u s p s1, buildUnion env fuel u s = .ok (p, s1) →
      (p = none ↔ s1.sub.err ≠ none)) ∧
    (∀ tn s p s1, s.err = none → buildDataSource env tn s = .ok (p, s1) →
      (p = none ↔ s1.err ≠ none)) := by
  have hpok : ∀ (m : M (Option Plan)), POk m →
      ∀ s p s1, m s = .ok (p, s1) → (p = none ↔ s1.sub.err ≠ none) := by
    intro m hm s p s1 h
    by_cases he : s.sub.err = none
    · obtain ⟨h1, h2⟩ := (hm s p s1 h).2 he
      refine ⟨h1, fun hne => ?_⟩
      by_contra hp
      exact hne (h2 hp)
    · obtain ⟨h1, h2⟩ := (hm s p s1 h).1 he
      exact ⟨fun _ => h2, fun _ => h1⟩
  have hrec := buildFns_RecOK env fuel
  refine ⟨fun sel => hpok _ (hrec.1 sel), fun j => hpok _ (hrec.2.2.2.1 j),
    fun u => hpok _ (hrec.2.2.2.2.2 u), ?_⟩
  intro tn s p s1 hse h
  obtain ⟨h1, h2⟩ := buildDataSource_nilErr env tn s p s1 h
  refine ⟨h1, fun hne => ?_⟩
  by_contra hp
  exact hne ((h2 hp).trans hse)

/-- C4, counterexample to the original wording: entered with the error
already latched, `buildDataSource` still returns a non-nil DataSource
plan, with the error kept. -/
theorem claim_C4_counterexample :
    buildDataSource envDS tn0 errSub = .ok (dsPairErr.1, dsPairErr.2) ∧
    dsPairErr.1 ≠ none ∧ dsPairErr.2.err ≠ none :=
  ⟨rfl, fun h => Option.noConfusion h, fun h => Option.noConfusion h⟩

/-- C4, witness: the amended theorem instantiated at a concrete run of
`buildDataSource` from the empty (error-free) substate. -/
theorem claim_C4_witness :
    ({} : SubState).err = none ∧ (dsPairOk.1 = none ↔ dsPairOk.2.err ≠ none) :=
  ⟨rfl, (claim_C4_latched_error_nil_plan envDS 1).2.2.2 tn0 {} dsPairOk.1 dsPairOk.2 rfl rfl⟩

/-- C1: the rotation of `coalesceCommonColumns` diverges from the spec.
On the natural join of a plan with columns `x`, `a` and one with columns
`a`, `y` (common column `a`, left walk index 1 matching right index 0),
the code rotates `rColumns[1]` (`y`) to the right common slot and
`lColumns[0]` (`x`) to the left one — the two indices are swapped across
the sides — yielding output schema `x, a, a` and the nonsensical equality
condition `x = y`, where the spec's rotation yields `a, x, y` with the
common column ahead. -/
theorem claim_C1_rotation_divergence :
    c1CodeNames = ["x", "a", "a"] ∧ c1SpecNames = ["a", "x", "y"] ∧
      c1CodeNames ≠ c1SpecNames :=
  ⟨rfl, rfl, by decide⟩

/-- C2 (as amended): every Aggregation node `buildAggregation` returns has
exactly one child, and its output schema is the fresh aggregate columns —
each owned by the aggregation's id — followed by clones of the child's
schema columns.  The original claim also asserts the aggregation's id on
the appended FIRST_ROW tail; that is false: those columns are clones of
the child's columns and keep their original owning ids
(`claim_C2_counterexample`). -/
theorem claim_C2_agg_schema_owner (env : Env) (p : Option Plan)
    (aggFuncList : List AstExpr) (gbyItems : List Expr) (s : SubState)
    (q : Plan) (m : List (Nat × Nat)) (s1 : SubState)
    (h : buildAggregation env p aggFuncList gbyItems s = .ok ((some q, m), s1)) :
    ∃ aggCols ch, q.children = [ch] ∧
      q.schema.columns = aggCols ++ ch.schema.columns.map Column.clone ∧
      ∀ c ∈ aggCols, c.fromID = q.id := by
  simp only [buildAggregation] at h
  rw [MS_bind_ok (orOptFlag_apply flagBuildKeyInfo s)] at h
  rw [MS_bind_ok (orOptFlag_apply flagAggregationOptimize _)] at h
  rw [MS_bind_ok (allocID_apply "Aggregation" _)] at h
  rw [MS_bind_apply] at h
  split at h
  · exact Except.noConfusion h
  · rename_i r t heq
    cases r with
    | none =>
      obtain ⟨h1, h2⟩ := ok_pair_inj h
      have : (none : Option Plan) = some q := congrArg (fun z => z.1) h1
      exact Option.noConfusion this
    | some tup =>
      obtain ⟨p2, funcs, schemaCols, idxMap⟩ := tup
      simp only [] at h
      rw [MS_bind_apply] at h
      split at h
      · exact Except.noConfusion h
      · rename_i pl t2 heq2
        obtain ⟨h1, h2⟩ := ok_pair_inj h
        have hq : some (aggMakePlan _ funcs schemaCols gbyItems pl) = some q :=
          congrArg (fun z => z.1) h1
        have hq2 := Option.some.inj hq
        refine ⟨schemaCols, pl, ?_, ?_, ?_⟩
        · rw [← hq2]
          rfl
        · rw [← hq2]
          rfl
        · intro c hc
          rw [← hq2]
          exact buildAggregationLoop_owner env _ aggFuncList.enum p [] [] []
            _ _ t heq (fun c hc => absurd hc (List.not_mem_nil c))
            p2 funcs schemaCols idxMap rfl c hc

/-- C2, counterexample to the original wording: with no aggregates over the
two-column child `lp1`, the Aggregation's schema is exactly the FIRST_ROW
clones of the child's columns, still owned by the child (`dsl`), not by the
aggregation node (`Aggregation_1`). -/
theorem claim_C2_counterexample :
    (c2Plan.schema.columns.map fun c => c.fromID) = ["dsl", "dsl"] ∧
      c2Plan.id = "Aggregation_1" ∧
      ¬ ∀ c ∈ c2Plan.schema.columns, c.fromID = c2Plan.id :=
  ⟨rfl, rfl, by decide⟩

/-- C2, witness: the amended theorem instantiated at the concrete run of
`buildAggregation` behind `c2Plan`. -/
theorem claim_C2_witness :
    ∃ aggCols ch, c2Plan.children = [ch] ∧
      c2Plan.schema.columns = aggCols ++ ch.schema.columns.map Column.clone ∧
      ∀ c ∈ aggCols, c.fromID = c2Plan.id :=
  claim_C2_agg_schema_owner defaultEnv (some lp1) [] [] {} c2Plan c2Run.1.2 c2Run.2 rfl

/-- C3 (as amended): the having/order-by resolver tries the select fields
first iff it is not inside an aggregate, not in the ORDER BY phase inside a
compound expression, and — only when outside both an aggregate and the
ORDER BY phase altogether — the column does not also name a GROUP BY item.
The original claim applies the GROUP BY test unconditionally; the code
skips it during ORDER BY, so a grouped column in a plain ORDER BY still
resolves fields-first (`claim_C3_counterexample`). -/
theorem claim_C3_resolve_fields_first (inAggFunc orderBy inExpr : Bool)
    (gbyItems : List ByItem) (v : ColumnName) :
    hoResolveFieldsFirst inAggFunc orderBy inExpr gbyItems v =
      (!inAggFunc && !(orderBy && inExpr) &&
        !(!inAggFunc && !orderBy &&
          (gbyItems.any fun item =>
            match item.expr with
            | .columnNameExpr nm _ => colMatch v nm || colMatch nm v
            | _ => false))) := by
  cases hg : (gbyItems.any fun item =>
      match item.expr with
      | .columnNameExpr nm _ => colMatch v nm || colMatch nm v
      | _ => false) <;>
    cases inAggFunc <;> cases orderBy <;> cases inExpr <;>
      simp [hoResolveFieldsFirst, hg]

/-- C3, counterexample to the original wording: during ORDER BY outside any
compound expression, a column that names a GROUP BY item is still resolved
fields-first by the code, where the spec's formula consults the child
schema first. -/
theorem claim_C3_counterexample :
    hoResolveFieldsFirst false true false [gbyA] cnA = true ∧
      specResolveFieldsFirst false true false [gbyA] cnA = false :=
  ⟨rfl, rfl⟩

/-- C5: arity checking of UNION.  Once every branch has built (the child
list the loop of `buildUnion` hands to the merge stage), a branch whose
schema arity differs from the first branch's makes the build return no
plan with the union-arity error latched; when every branch's arity equals
the first's, the union-arity error is never raised (provided the
expression rewriter, which sorts and limits consult, cannot itself
produce that error). -/
theorem claim_C5_union_arity (env : Env) (u : UnionStmt) (uId : String)
    (pl0 : Plan) (rest : List (Option Plan)) (s : SubState)
    (hs : s.err = none)
    (hrw : ∀ e pl am b, (env.rewrite e pl am b).err ≠ some Err.unionArity) :
    (∀ pl, some pl ∈ rest → pl.schema.len ≠ pl0.schema.len →
      ∀ r s1, buildUnionRest env u uId (some pl0 :: rest) s = .ok (r, s1) →
        r = none ∧ s1.err = some Err.unionArity) ∧
    ((∀ pl, some pl ∈ rest → pl.schema.len = pl0.schema.len) →
      ∀ r s1, buildUnionRest env u uId (some pl0 :: rest) s = .ok (r, s1) →
        s1.err ≠ some Err.unionArity) := by
  have hhead : (match some pl0 :: rest with
      | [] => (crash .bounds : MS Plan)
      | c :: _ => getPlan c) = getPlan (some pl0) := rfl
  constructor
  · intro pl hmem hne r s1 h
    unfold buildUnionRest at h
    rw [hhead, MS_bind_ok (getPlan_some_apply pl0 s), MS_bind_apply] at h
    split at h
    · exact Except.noConfusion h
    · rename_i r0 t heq
      have hml := unionChildrenLoop_mismatch env (some pl0 :: rest)
        pl0.schema.clone [] s
        ⟨pl, List.mem_cons_of_mem _ hmem, by rw [Schema.clone_len]; exact hne⟩
        r0 t heq
      rw [hml.1] at h
      obtain ⟨h1, h2⟩ := ok_pair_inj h
      exact ⟨h1.symm, by rw [← h2]; exact hml.2⟩
  · intro hall r s1 h
    unfold buildUnionRest at h
    rw [hhead, MS_bind_ok (getPlan_some_apply pl0 s), MS_bind_apply] at h
    split at h
    · exact Except.noConfusion h
    · rename_i r0 t heq
      have hml := unionChildrenLoop_allEqual env (some pl0 :: rest)
        pl0.schema.clone [] s ?_ r0 t heq
      · obtain ⟨⟨merged, hm⟩, herr⟩ := hml
        subst hm
        simp only [] at h
        have htne : t.err ≠ some Err.unionArity := by
          rw [herr, hs]
          exact fun hx => Option.noConfusion hx
        rw [MS_bind_apply] at h
        split at h
        · exact Except.noConfusion h
        · rename_i p1 t1 heq1
          have ht1 : t1.err ≠ some Err.unionArity := by
            by_cases hd : u.distinct = true
            · rw [if_pos hd] at heq1
              rw [buildDistinct_err _ _ t p1 t1 heq1]
              exact htne
            · rw [if_neg hd] at heq1
              obtain ⟨g1, g2⟩ := ok_pair_inj heq1
              rw [← g2]
              exact htne
          rw [MS_bind_apply] at h
          split at h
          · exact Except.noConfusion h
          · rename_i p2 t2 heq2
            have ht2 : t2.err ≠ some Err.unionArity := by
              revert heq2
              cases hob : u.orderBy with
              | some items =>
                intro heq2
                exact buildSort_arity env p1 items none
                  (fun e pl b => hrw e pl none b) t1 ht1 p2 t2 heq2
              | none =>
                intro heq2
                obtain ⟨g1, g2⟩ := ok_pair_inj heq2
                rw [← g2]
                exact ht1
            revert h
            cases hol : u.limit with
            | some lim =>
              intro h
              exact buildLimit_arity env p2 lim t2 ht2 r s1 h
            | none =>
              intro h
              obtain ⟨g1, g2⟩ := ok_pair_inj h
              rw [← g2]
              exact ht2
      · intro pl' hmem'
        rw [Schema.clone_len]
        rcases List.mem_cons.mp hmem' with hhd | htl
        · rw [Option.some.inj hhd]
        · exact hall pl' htl

/-- C5, witness: the claim at the concrete mismatching union of `lp1`
(two columns) and `rp2` (one column), which returns no plan with the
union-arity error latched. -/
theorem claim_C5_witness :
    c5Pair.1 = none ∧ c5Pair.2.err = some Err.unionArity :=
  (claim_C5_union_arity defaultEnv u0 "Union_1" lp1 [some rp2] {} rfl
    (fun e pl am b hx => Option.noConfusion hx)).1 rp2 (List.mem_singleton.mpr rfl)
    (by decide) c5Pair.1 c5Pair.2 rfl

/-- C6: LIMIT values parse as unsigned 64-bit.  `getUintForLimitOffset`
accepts a native unsigned value, a non-negative signed value (rejecting a
negative one), and a string through `types.StrToUint`; every other type is
an error.  `buildLimit` then fails with the wrong-arguments error and
returns no plan whenever either value fails to parse, and builds the Limit
node with the latched error untouched when both parse. -/
theorem claim_C6_limit_parsing (env : Env) :
    (∀ n, getUintForLimitOffset env (.u64 n) = .ok n) ∧
    (∀ i : Int, 0 ≤ i → getUintForLimitOffset env (.i64 i) = .ok i.toNat) ∧
    (∀ i : Int, i < 0 → getUintForLimitOffset env (.i64 i) = .error .invalidLimitType) ∧
    (∀ str, getUintForLimitOffset env (.str str) = env.strToUint str) ∧
    (getUintForLimitOffset env .null = .error .invalidLimitType) ∧
    (getUintForLimitOffset env .other = .error .invalidLimitType) ∧
    (∀ src lim s r s1,
      ((∃ e, limitValue env lim.offset = .error e) ∨
        (∃ e, limitValue env lim.count = .error e)) →
      buildLimit env src lim s = .ok (r, s1) →
      r = none ∧ s1.err = some Err.wrongArguments) ∧
    (∀ src lim s r s1 off cnt,
      limitValue env lim.offset = .ok off → limitValue env lim.count = .ok cnt →
      buildLimit env src lim s = .ok (r, s1) →
      (∃ q, r = some q) ∧ s1.err = s.err) := by
  refine ⟨fun n => rfl, fun i hi => ?_, fun i hi => ?_, fun str => ?_, rfl, rfl, ?_, ?_⟩
  · simp only [getUintForLimitOffset, ge_iff_le, if_pos hi]
  · simp only [getUintForLimitOffset, ge_iff_le, if_neg (by omega : ¬ 0 ≤ i)]
  · simp only [getUintForLimitOffset]
    cases env.strToUint str <;> rfl
  all_goals intro src lim s r s1
  case _ =>
    intro hbad h
    unfold buildLimit at h
    rw [MS_bind_apply] at h
    obtain ⟨a, s', hrun, herr⟩ :
        ∃ a s', ((if env.useDAG then orOptFlag flagPushDownTopN else pure ()) : MS Unit) s =
          .ok (a, s') ∧ s'.err = s.err := by
      by_cases hd : env.useDAG = true
      · exact ⟨(), { s with optFlag := s.optFlag ||| flagPushDownTopN },
          by rw [if_pos hd]; exact orOptFlag_apply _ _, rfl⟩
      · exact ⟨(), s, by rw [if_neg hd]; exact MS_pure_apply _ _, rfl⟩
    rw [hrun] at h
    revert h
    cases ho : limitValue env lim.offset with
    | error e =>
      intro h
      obtain ⟨h1, h2⟩ := ok_pair_inj h
      exact ⟨h1.symm, by rw [← h2]⟩
    | ok off =>
      cases hc : limitValue env lim.count with
      | error e =>
        intro h
        obtain ⟨h1, h2⟩ := ok_pair_inj h
        exact ⟨h1.symm, by rw [← h2]⟩
      | ok cnt =>
        intro h
        exfalso
        rcases hbad with ⟨e, he⟩ | ⟨e, he⟩
        · rw [ho] at he
          exact Except.noConfusion he
        · rw [hc] at he
          exact Except.noConfusion he
  case _ =>
    intro off cnt ho hc h
    unfold buildLimit at h
    rw [MS_bind_apply] at h
    obtain ⟨a, s', hrun, herr⟩ :
        ∃ a s', ((if env.useDAG then orOptFlag flagPushDownTopN else pure ()) : MS Unit) s =
          .ok (a, s') ∧ s'.err = s.err := by
      by_cases hd : env.useDAG = true
      · exact ⟨(), { s with optFlag := s.optFlag ||| flagPushDownTopN },
          by rw [if_pos hd]; exact orOptFlag_apply _ _, rfl⟩
      · exact ⟨(), s, by rw [if_neg hd]; exact MS_pure_apply _ _, rfl⟩
    rw [hrun, ho, hc] at h
    cases src with
    | none => exact Except.noConfusion h
    | some pl =>
      obtain ⟨h1, h2⟩ := ok_pair_inj h
      refine ⟨⟨_, h1.symm⟩, ?_⟩
      rw [← h2]
      exact herr

/-- C6, witness: a non-negative signed value parses, and the concrete
negative OFFSET `-1` makes `buildLimit` fail with the wrong-arguments
error and no plan. -/
theorem claim_C6_witness :
    getUintForLimitOffset defaultEnv (.i64 5) = .ok 5 ∧
    c6Pair.1 = none ∧ c6Pair.2.err = some Err.wrongArguments :=
  ⟨(claim_C6_limit_parsing defaultEnv).2.1 5 (by decide),
   (claim_C6_limit_parsing defaultEnv).2.2.2.2.2.2.1 (some lp1) lim1 {} c6Pair.1 c6Pair.2
     (Or.inl ⟨Err.invalidLimitType, rfl⟩) rfl⟩

/-- C7: `buildSelection` splits the WHERE/HAVING expression at top-level
AND (`splitWhere`), drops every conjunct the rewriter erases (nil rewrite
result), and then: on a rewrite error the build yields no plan; if every
conjunct vanished the rewritten child plan is returned unchanged with no
Selection node; otherwise the result is a Selection node over the final
child whose output schema is a clone of that child's schema. -/
theorem claim_C7_selection (env : Env) (p : Option Plan) (whereE : Option AstExpr)
    (am : Option AggMapper) :
    (∀ cond rest p0 acc pl, p0 = some pl →
      (env.rewrite cond pl am false).err = none →
      (env.rewrite cond pl am false).expr = .nilExpr →
      buildSelectionLoop env am (cond :: rest) p0 acc =
        buildSelectionLoop env am rest (some (env.rewrite cond pl am false).plan) acc) ∧
    (∀ s r s1, buildSelection env p whereE am s = .ok (r, s1) →
      (∃ t, buildSelectionLoop env am (splitWhere whereE) p []
          { s with optFlag := s.optFlag ||| flagPredicatePushDown,
                   allocated := s.allocated + 1 } = .ok (none, t) ∧ r = none ∧ s1 = t) ∨
      ∃ exprs pFinal t,
        buildSelectionLoop env am (splitWhere whereE) p []
          { s with optFlag := s.optFlag ||| flagPredicatePushDown,
                   allocated := s.allocated + 1 } = .ok (some (exprs, pFinal), t) ∧
        ((exprs = [] ∧ r = pFinal) ∨
          (exprs ≠ [] ∧ ∃ pl, pFinal = some pl ∧
            r = some (Plan.node .selection ("Selection" ++ "_" ++ toString (s.allocated + 1))
              pl.schema.clone [pl] { conditions := exprs })))) := by
  constructor
  · intro cond rest p0 acc pl hp herr hexpr
    subst hp
    funext t
    simp only [buildSelectionLoop, MS_bind_apply, getPlan_some_apply]
    rw [herr, hexpr]
  · intro s r s1 h
    simp only [buildSelection] at h
    rw [MS_bind_ok (orOptFlag_apply flagPredicatePushDown s)] at h
    rw [MS_bind_ok (allocID_apply "Selection" _)] at h
    rw [MS_bind_apply] at h
    split at h
    · exact Except.noConfusion h
    · rename_i r0 t heq
      cases r0 with
      | none =>
        obtain ⟨h1, h2⟩ := ok_pair_inj h
        exact Or.inl ⟨t, heq, h1.symm, h2.symm⟩
      | some v =>
        obtain ⟨exprs, pFinal⟩ := v
        simp only [] at h
        refine Or.inr ⟨exprs, pFinal, t, heq, ?_⟩
        by_cases hz : (exprs.length == 0) = true
        · rw [if_pos hz] at h
          obtain ⟨h1, h2⟩ := ok_pair_inj h
          exact Or.inl ⟨List.length_eq_zero.mp (by simpa using hz), h1.symm⟩
        · rw [if_neg hz] at h
          cases pFinal with
          | none => exact Except.noConfusion h
          | some pl =>
            obtain ⟨h1, h2⟩ := ok_pair_inj h
            refine Or.inr ⟨?_, pl, rfl, h1.symm⟩
            intro hnil
            exact hz (by rw [hnil]; rfl)

/-- C7, witness: under a rewriter that erases every conjunct, `w1 AND w1`
splits into two conjuncts, both vanish, and the child plan comes back
unchanged with no Selection node. -/
theorem claim_C7_witness :
    (∃ t, buildSelectionLoop envNil none
        (splitWhere (some (.binOp LogicAnd w1 w1))) (some lp1) []
        { ({} : SubState) with
            optFlag := ({} : SubState).optFlag ||| flagPredicatePushDown,
            allocated := ({} : SubState).allocated + 1 } = .ok (none, t) ∧
      c7Pair.1 = none ∧ c7Pair.2 = t) ∨
    ∃ exprs pFinal t,
      buildSelectionLoop envNil none
        (splitWhere (some (.binOp LogicAnd w1 w1))) (some lp1) []
        { ({} : SubState) with
            optFlag := ({} : SubState).optFlag ||| flagPredicatePushDown,
            allocated := ({} : SubState).allocated + 1 } = .ok (some (exprs, pFinal), t) ∧
      ((exprs = [] ∧ c7Pair.1 = pFinal) ∨
        (exprs ≠ [] ∧ ∃ pl, pFinal = some pl ∧
          c7Pair.1 = some (Plan.node .selection
            ("Selection" ++ "_" ++ toString (({} : SubState).allocated + 1))
            pl.schema.clone [pl] { conditions := exprs }))) :=
  (claim_C7_selection envNil (some lp1) (some (.binOp LogicAnd w1 w1)) none).2
    {} c7Pair.1 c7Pair.2 rfl

/-- C8: the table-hint stack discipline of `buildSelect`.  Every ok-run of
`buildSelect`, at every fuel level, leaves the builder's hint stack exactly
as it was on entry (the deferred pop balances the conditional push, so
nested SELECT builds neither leak nor drop frames); and `pushTableHints`
pushes one frame exactly when the statement carries at least one
recognized (merge-join or index-nested-loop-join) hint table, leaving the
state untouched otherwise. -/
theorem claim_C8_hint_stack (env : Env) :
    (∀ fuel sel s r s1, buildSelect env fuel sel s = .ok (r, s1) →
      s1.tableHintInfo = s.tableHintInfo) ∧
    (∀ hints s b s1, pushTableHints hints s = .ok (b, s1) →
      (b = true →
        s1.tableHintInfo = s.tableHintInfo ++
          [⟨(collectHintTables hints).1, (collectHintTables hints).2⟩] ∧
        ((collectHintTables hints).1 ≠ [] ∨ (collectHintTables hints).2 ≠ [])) ∧
      (b = false → s1 = s ∧
        (collectHintTables hints).1 = [] ∧ (collectHintTables hints).2 = [])) := by
  constructor
  · intro fuel sel s r s1 h
    exact (hintPres_all env fuel).1 sel s r s1 h
  · intro hints s b s1 h
    have hspec := pushTableHints_spec hints s b s1 h
    refine ⟨hspec.1, fun hb => ⟨hspec.2 hb, ?_⟩⟩
    unfold pushTableHints at h
    by_cases hc : ((collectHintTables hints).1.length != 0 ||
        (collectHintTables hints).2.length != 0) = true
    · rw [if_pos hc] at h
      have hb2 : true = b := congrArg Prod.fst (Except.ok.inj h)
      rw [hb] at hb2
      exact Bool.noConfusion hb2
    · have hc2 := hc
      simp only [Bool.or_eq_true, bne_iff_ne, ne_eq, not_or, not_not] at hc2
      exact ⟨List.length_eq_zero.mp hc2.1, List.length_eq_zero.mp hc2.2⟩

/-- C8, witness: with no hints nothing is collected, no frame is pushed
and the state is untouched. -/
theorem claim_C8_witness :
    ((false = true →
        BState.tableHintInfo {} = BState.tableHintInfo {} ++
          [⟨(collectHintTables []).1, (collectHintTables []).2⟩] ∧
        ((collectHintTables []).1 ≠ [] ∨ (collectHintTables []).2 ≠ [])) ∧
      (false = false → ({} : BState) = {} ∧
        (collectHintTables []).1 = [] ∧ (collectHintTables []).2 = [])) :=
  (claim_C8_hint_stack defaultEnv).2 [] {} false {} rfl

/-- C9: field resolution against the select list.  Auxiliary fields are
skipped entirely (an all-auxiliary list resolves to `-1` with no error); a
matched non-column expression returns its index immediately; a second
matched column reference raises the ambiguity error exactly when it
matches the first in neither qualification direction; and when every
further matched column reference agrees with the first in some direction,
the first match's index is kept with no error. -/
theorem claim_C9_resolve_fields (v : ColumnName) (ig : Bool) :
    (∀ fields, (∀ f ∈ fields, f.auxiliary = true) →
      resolveFromSelectFields v fields ig = .ok (-1)) ∧
    (∀ i field rest m idx, field.auxiliary = false →
      matchField field v ig = true →
      (∀ c tp, field.expr ≠ .columnNameExpr c tp) →
      resolveFromSelectFieldsLoop v ig ((i, field) :: rest) m idx = .ok (Int.ofNat i)) ∧
    (∀ i field rest m c tp idx, field.auxiliary = false →
      matchField field v ig = true →
      field.expr = .columnNameExpr c tp →
      colMatch m c = false → colMatch c m = false →
      resolveFromSelectFieldsLoop v ig ((i, field) :: rest) (some m) idx =
        .error (.ambiguous c.name.l)) ∧
    (∀ l m idx,
      (∀ p ∈ l, p.2.auxiliary = false → matchField p.2 v ig = true →
        ∃ c tp, p.2.expr = .columnNameExpr c tp ∧
          (colMatch m c = true ∨ colMatch c m = true)) →
      resolveFromSelectFieldsLoop v ig l (some m) idx = .ok idx) := by
  refine ⟨?_, ?_, ?_, ?_⟩
  · intro fields hall
    refine resolveLoop_aux_skip v ig fields.enum ?_ none (-1)
    intro p hp
    obtain ⟨-, h2, h3⟩ := List.mem_enumFrom hp
    rw [h3]
    exact hall _ (List.getElem_mem _)
  · intro i field rest m idx haux hmatch hne
    simp only [resolveFromSelectFieldsLoop, haux, hmatch, Bool.false_eq_true,
      if_false, if_true]

  · intro i field rest m c tp idx haux hmatch hexpr hc1 hc2
    simp only [resolveFromSelectFieldsLoop, haux, hmatch, Bool.false_eq_true,
      if_false, if_true, hexpr, hc1, hc2, Bool.not_false, Bool.and_self]
  · intro l
    induction l with
    | nil => intro m idx _; rfl
    | cons p rest ih =>
      intro m idx hall
      obtain ⟨i, field⟩ := p
      by_cases haux : field.auxiliary = true
      · simp only [resolveFromSelectFieldsLoop, haux, if_true]
        exact ih m idx (fun q hq => hall q (List.mem_cons_of_mem _ hq))
      · have haux2 : field.auxiliary = false := Bool.eq_false_iff.mpr haux
        by_cases hmatch : matchField field v ig = true
        · obtain ⟨c, tp, hexpr, hor⟩ :=
            hall (i, field) (List.mem_cons_self _ _) haux2 hmatch
          have hcond : (!colMatch m c && !colMatch c m) = false := by
            rcases hor with hh | hh <;> simp [hh]
          simp only [resolveFromSelectFieldsLoop, haux2, hmatch, Bool.false_eq_true,
            if_false, if_true]
          rw [hexpr]
          simp only [hcond, Bool.false_eq_true, if_false]
          exact ih m idx (fun q hq => hall q (List.mem_cons_of_mem _ hq))
        · have hmatch2 : matchField field v ig = false := Bool.eq_false_iff.mpr hmatch
          simp only [resolveFromSelectFieldsLoop, haux2, hmatch2, Bool.false_eq_true,
            if_false]
          exact ih m idx (fun q hq => hall q (List.mem_cons_of_mem _ hq))

/-- C9, witness: a single-field list whose field is auxiliary resolves to
`-1` with no error. -/
theorem claim_C9_witness :
    resolveFromSelectFields cnA [auxF] false = .ok (-1) :=
  (claim_C9_resolve_fields cnA false).1 [auxF]
    (fun f hf => by rw [List.mem_singleton.mp hf]; rfl)

/-- C10: wildcard unfolding.  A wildcard whose qualifiers match no column
of the current schema expands to zero select fields; such a step leaves
the field list and the state untouched (no error is set); a bare `*` at a
position after the first stops the unfolding with the invalid-wildcard
error; and that latch is the only error the unfolding ever sets. -/
theorem claim_C10_wildcard (p : Option Plan) :
    (∀ wc schema, (∀ col ∈ schema.columns,
        ((wc.schema.l == "" || wc.schema.l == col.dbName.l) &&
          (wc.table.l == "" || wc.table.l == col.tblName.l) &&
          col.id != ExtraHandleID) = false) →
      wildExpandColumns wc schema = []) ∧
    (∀ i field rest acc pl wc, p = some pl → field.wildCard = some wc →
      (wc.table.l == "" && decide (0 < i)) = false →
      wildExpandColumns wc pl.schema = [] →
      unfoldWildStarLoop p ((i, field) :: rest) acc =
        unfoldWildStarLoop p rest acc) ∧
    (∀ i field rest acc wc s, field.wildCard = some wc →
      wc.table.l = "" → 0 < i →
      unfoldWildStarLoop p ((i, field) :: rest) acc s =
        .ok (acc, { s with err := some .invalidWildCard })) ∧
    (∀ l acc s r s1, unfoldWildStarLoop p l acc s = .ok (r, s1) →
      s1.err ≠ s.err →
      ∃ i field wc, (i, field) ∈ l ∧ field.wildCard = some wc ∧
        wc.table.l = "" ∧ 0 < i ∧ s1.err = some .invalidWildCard) := by
  refine ⟨?_, ?_, ?_, ?_⟩
  · intro wc schema hall
    refine List.filterMap_eq_nil.mpr ?_
    intro col hcol
    simp [hall col hcol]
  · intro i field rest acc pl wc hp hwc hcond hnil
    subst hp
    funext s
    simp only [unfoldWildStarLoop, hwc, hcond, Bool.false_eq_true, if_false,
      MS_bind_apply, getPlan_some_apply, hnil, List.append_nil]
  · intro i field rest acc wc s hwc htbl hi
    simp only [unfoldWildStarLoop, hwc, htbl]
    simp [hi]
    rfl
  · intro l
    induction l with
    | nil =>
      intro acc s r s1 h hne
      obtain ⟨h1, h2⟩ := ok_pair_inj h
      exact absurd (by rw [← h2]) hne
    | cons q rest ih =>
      intro acc s r s1 h hne
      obtain ⟨i, field⟩ := q
      revert h
      cases hwc : field.wildCard with
      | none =>
        intro h
        simp only [unfoldWildStarLoop, hwc] at h
        obtain ⟨i2, field2, wc2, hmem, hrest⟩ := ih (acc ++ [field]) s r s1 h hne
        exact ⟨i2, field2, wc2, List.mem_cons_of_mem _ hmem, hrest⟩
      | some wc =>
        intro h
        simp only [unfoldWildStarLoop, hwc] at h
        by_cases hcond : (wc.table.l == "" && decide (0 < i)) = true
        · rw [if_pos hcond] at h
          obtain ⟨h1, h2⟩ := ok_pair_inj h
          obtain ⟨htbl, hi⟩ := Bool.and_eq_true_iff.mp hcond
          refine ⟨i, field, wc, List.mem_cons_self _ _, hwc,
            beq_iff_eq.mp htbl, of_decide_eq_true hi, ?_⟩
          rw [← h2]
        · rw [if_neg hcond] at h
          cases p with
          | none => exact Except.noConfusion h
          | some pl =>
            rw [MS_bind_ok (getPlan_some_apply pl s)] at h
            obtain ⟨i2, field2, wc2, hmem, hrest⟩ :=
              ih (acc ++ wildExpandColumns wc pl.schema) s r s1 h hne
            exact ⟨i2, field2, wc2, List.mem_cons_of_mem _ hmem, hrest⟩

/-- C10, witness: a bare `*` at position 1 stops the unfolding with the
invalid-wildcard error and no expansion. -/
theorem claim_C10_witness :
    unfoldWildStarLoop (some lp1) [(1, starF)] [] {} =
      .ok ([], { ({} : SubState) with err := some .invalidWildCard }) :=
  (claim_C10_wildcard (some lp1)).2.2.1 1 starF [] [] wcBare {} rfl rfl (by decide)

end TidbPlan







